import Mathlib

/-!
# Verification of the playspace grid-alignment core

A shallow embedding of the grid-alignment core (rasterizer, prefix-sum
table, erosion-based cell classifier, flood-fill component analyzer and
the brute-force alignment search) together with proofs of the spec's
testable properties.

Modelling conventions:
* JavaScript `number` values are idealized as rationals (`ℚ`); the
  floating-point literal `1e-7` is read as the rational `1/10^7`.
* Flat `Uint8Array`/`Uint32Array` buffers indexed by `y * stride + x`
  become functions of the two indices.
* The transcendental library calls (`Math.sin`/`Math.cos`/`Math.atan2`)
  are external to the core; they are abstracted as oracle parameters
  supplying rational values, and every theorem quantifies over the
  oracle.  The concrete claims instantiate angle `0`, where the oracle
  values `cos = 1`, `sin = 0` are exact.
-/

namespace Playspace

/-- 2-D point / vector with rational coordinates (source type `Vec2`). -/
structure Vec2 where
  x : ℚ
  y : ℚ
deriving DecidableEq, Repr

/-- A ring is a closed ordered point sequence (source type `ClipRing`,
closure implicit: the edge from the last point back to the first is
taken modulo the length). -/
abbrev ClipRing := List (ℚ × ℚ)

/-- Source type `ClipPolygon`: ring 0 outer boundary, later rings holes. -/
abbrev ClipPolygon := List ClipRing

/-- Source type `MultiPolygon`: a region as a sequence of polygons. -/
abbrev MultiPolygon := List ClipPolygon

/-- Source type `GridState`.  The `angle : radians` field is replaced by
the pair of its trigonometric values `cosA = cos angle`,
`sinA = sin angle`, since the embedding works with exact rationals; the
claims under proof instantiate the pose at angle `0` where
`cosA = 1, sinA = 0` exactly. -/
structure GridState where
  origin : Vec2
  cosA : ℚ
  sinA : ℚ
  spacing : ℚ
deriving DecidableEq, Repr

/-- `RASTER_RESOLUTION` from `raster.ts`: raster cells per grid-cell edge. -/
def RASTER_RESOLUTION : ℕ := 8

/-- `RASTER_MARGIN_CELLS` from `raster.ts`. -/
def RASTER_MARGIN_CELLS : ℕ := 2

/-- Occupancy mask (source type `RasterMask`).  The flat `data` byte
buffer indexed by `y * width + x` is embedded as the function
`data x y`, and the flat `prefixSum` buffer of stride `width + 1`
indexed by `y * (width+1) + x` as the function `prefixSum y x`. -/
structure RasterMask where
  data : ℕ → ℕ → Bool
  width : ℕ
  height : ℕ
  prefixSum : ℕ → ℕ → ℕ
  cellSize : ℚ
  originGrid : Vec2

/-- Source type `GridSampleBounds`: inclusive grid-cell index range. -/
structure GridSampleBounds where
  minX : ℤ
  maxX : ℤ
  minY : ℤ
  maxY : ℤ
deriving DecidableEq, Repr

/-- Source type `RasterResult`.  `insideCells : Set<string>` with keys
`"gx,gy"` is embedded as a `Finset` of integer coordinate pairs. -/
structure RasterResult where
  mask : RasterMask
  gridSpacing : ℚ
  gridSampleBounds : GridSampleBounds
  gridCellCount : ℕ
  insideCells : Finset (ℤ × ℤ)

/-- `rotate` from `interactions.ts`, with the angle supplied through its
cosine/sine pair `cs = (cos angle, sin angle)`. -/
def rotate (vec : Vec2) (cs : ℚ × ℚ) : Vec2 :=
  { x := vec.x * cs.1 - vec.y * cs.2
    y := vec.x * cs.2 + vec.y * cs.1 }

/-- `transformRegionToGrid` from `raster.ts`: subtract the origin, then
rotate by `-angle` (the source precomputes `sin(-angle) = -sinA` and
`cos(-angle) = cosA`). -/
def transformRegionToGrid (region : MultiPolygon) (grid : GridState) : MultiPolygon :=
  let sin := -grid.sinA
  let cos := grid.cosA
  let ox := grid.origin.x
  let oy := grid.origin.y
  region.map (fun polygon =>
    polygon.map (fun ring =>
      ring.map (fun p =>
        let tx := p.1 - ox
        let ty := p.2 - oy
        (tx * cos - ty * sin, tx * sin + ty * cos))))

/-- All points of a region in traversal order (the source iterates
`region → polygon → ring → point` with nested `forEach`). -/
def regionPoints (region : MultiPolygon) : List (ℚ × ℚ) :=
  region.flatMap (fun polygon => polygon.flatMap (fun ring => ring))

/-- Axis-aligned bounding box of a region. -/
structure GridBounds where
  minX : ℚ
  minY : ℚ
  maxX : ℚ
  maxY : ℚ
deriving DecidableEq, Repr

/-- `computeGridBoundsGrid` from `raster.ts`.  The source starts the
fold from `±Infinity` and afterwards returns `null` when no finite
point was seen; the embedding returns `none` exactly when the region
has no points, and otherwise folds min/max from the first point. -/
def computeGridBoundsGrid (region : MultiPolygon) : Option GridBounds :=
  match regionPoints region with
  | [] => none
  | p :: rest =>
      some (rest.foldl
        (fun b q =>
          { minX := min b.minX q.1, minY := min b.minY q.2
            maxX := max b.maxX q.1, maxY := max b.maxY q.2 })
        { minX := p.1, minY := p.2, maxX := p.1, maxY := p.2 })

/-- One even-odd ray-cast crossing test of the horizontal ray from `p`
against the edge `a`–`b` (the standard point-in-polygon crossing rule). -/
def edgeCrosses (p a b : ℚ × ℚ) : Bool :=
  (decide (a.2 > p.2) != decide (b.2 > p.2)) &&
    decide (p.1 < a.1 + (p.2 - a.2) * (b.1 - a.1) / (b.2 - a.2))

/-- Number of ray crossings of one (implicitly closed) ring. -/
def ringCrossings (p : ℚ × ℚ) (ring : ClipRing) : ℕ :=
  (List.range ring.length).countP (fun i =>
    edgeCrosses p (ring.getD i (0, 0)) (ring.getD ((i + 1) % ring.length) (0, 0)))

/-- Even-odd membership in one polygon: odd total crossing count over
the polygon's own rings. -/
def pointInPolygonEO (p : ℚ × ℚ) (polygon : ClipPolygon) : Bool :=
  (polygon.foldl (fun acc ring => acc + ringCrossings p ring) 0) % 2 == 1

/-- Region membership: inside any one polygon. -/
def pointInMultiPolygon (p : ℚ × ℚ) (region : MultiPolygon) : Bool :=
  region.any (fun polygon => pointInPolygonEO p polygon)

/-- Modelled from the spec: `fillMaskWithCanvas` in `raster.ts` delegates
the mask fill to an external HTML canvas 2-D context (`ctx.fill` with the
`evenodd` rule followed by an alpha-channel read-back), which is not part
of this repository's code.  Per spec §4.2 step 4 a raster cell is marked
occupied iff its centroid is inside the region under the even-odd rule;
the centroid of raster cell `(x, y)` sits at
`originGrid + (index + 1/2) * cellSize` on each axis. -/
def fillMaskWithCanvas (cellSize : ℚ) (originGrid : Vec2) (regionGrid : MultiPolygon) :
    ℕ → ℕ → Bool :=
  fun x y =>
    pointInMultiPolygon
      (originGrid.x + ((x : ℚ) + 1/2) * cellSize,
       originGrid.y + ((y : ℚ) + 1/2) * cellSize)
      regionGrid

/-- The running `rowSum` accumulator of `buildPrefixSum`: after
processing column `x - 1` of row `y` it holds the number of occupied
cells `data c y` with `c < x`. -/
def rowSum (data : ℕ → ℕ → Bool) (y x : ℕ) : ℕ :=
  ∑ c ∈ Finset.range x, (if data c y then 1 else 0)

/-- `buildPrefixSum` from `raster.ts`: the summed-area recurrence
`prefixSum[(y+1)*stride + (x+1)] = prefixSum[y*stride + (x+1)] + rowSum`.
Row `0` and column `0` stay at the buffer's zero initialization. -/
def buildPrefixSum (data : ℕ → ℕ → Bool) : ℕ → ℕ → ℕ
  | 0, _ => 0
  | _ + 1, 0 => 0
  | y + 1, x + 1 => buildPrefixSum data y (x + 1) + rowSum data y (x + 1)

/-- The floating-point tolerance `1e-7` of `erodeGridCell`, read as an
exact rational. -/
def erodeEps : ℚ := 1 / 10000000

/-- First raster column of the footprint of the grid cell centered at
`gridPoint`: `Math.floor(((minGX - originGrid.x) / cellSize) + eps)`. -/
def erodeStartX (raster : RasterResult) (gridPoint : Vec2) : ℤ :=
  ⌊(gridPoint.x - raster.gridSpacing / 2 - raster.mask.originGrid.x) / raster.mask.cellSize
    + erodeEps⌋

/-- Last raster column of the footprint:
`Math.ceil(((maxGX - originGrid.x) / cellSize) - eps) - 1`. -/
def erodeEndX (raster : RasterResult) (gridPoint : Vec2) : ℤ :=
  ⌈(gridPoint.x + raster.gridSpacing / 2 - raster.mask.originGrid.x) / raster.mask.cellSize
    - erodeEps⌉ - 1

/-- First raster row of the footprint. -/
def erodeStartY (raster : RasterResult) (gridPoint : Vec2) : ℤ :=
  ⌊(gridPoint.y - raster.gridSpacing / 2 - raster.mask.originGrid.y) / raster.mask.cellSize
    + erodeEps⌋

/-- Last raster row of the footprint. -/
def erodeEndY (raster : RasterResult) (gridPoint : Vec2) : ℤ :=
  ⌈(gridPoint.y + raster.gridSpacing / 2 - raster.mask.originGrid.y) / raster.mask.cellSize
    - erodeEps⌉ - 1

/-- `erodeGridCell` from `raster.ts`: a grid cell centered at
`gridPoint` is fully inside iff its `spacing × spacing` footprint
converts (with the `1e-7` epsilon) to a raster rectangle that lies in
the mask and whose prefix-sum count equals its area. -/
def erodeGridCell (raster : RasterResult) (gridPoint : Vec2) : Bool :=
  let mask := raster.mask
  let startX := erodeStartX raster gridPoint
  let endX := erodeEndX raster gridPoint
  let startY := erodeStartY raster gridPoint
  let endY := erodeEndY raster gridPoint
  if startX < 0 ∨ startY < 0 ∨ endX ≥ (mask.width : ℤ) ∨ endY ≥ (mask.height : ℤ) then
    false
  else if endX < startX ∨ endY < startY then
    false
  else
    let x0 := startX.toNat
    let x1 := endX.toNat + 1
    let y0 := startY.toNat
    let y1 := endY.toNat + 1
    let area : ℤ := (mask.prefixSum y1 x1 : ℤ) - (mask.prefixSum y0 x1 : ℤ)
      - (mask.prefixSum y1 x0 : ℤ) + (mask.prefixSum y0 x0 : ℤ)
    let expectedArea : ℤ := (endX - startX + 1) * (endY - startY + 1)
    decide (area = expectedArea)

/-- `sampleRasterAtGridPoint` from `raster.ts`. -/
def sampleRasterAtGridPoint (raster : RasterResult) (gridPoint : Vec2) : ℕ :=
  if erodeGridCell raster gridPoint then 1 else 0

/-- `computeGridSampleBounds` from `raster.ts` (`part_003` variant: the
floor/ceil of the mask extent in grid-spacing units, with no extra ±1). -/
def computeGridSampleBounds (mask : RasterMask) (spacing : ℚ) : GridSampleBounds :=
  let minX := mask.originGrid.x
  let minY := mask.originGrid.y
  let maxX := mask.originGrid.x + (mask.width : ℚ) * mask.cellSize
  let maxY := mask.originGrid.y + (mask.height : ℚ) * mask.cellSize
  { minX := ⌊minX / spacing⌋
    maxX := ⌈maxX / spacing⌉
    minY := ⌊minY / spacing⌋
    maxY := ⌈maxY / spacing⌉ }

/-- `computeGridSampleBoundsWithOffset` from `raster.ts`. -/
def computeGridSampleBoundsWithOffset (mask : RasterMask) (spacing : ℚ) (offset : Vec2) :
    GridSampleBounds :=
  let minX := mask.originGrid.x - offset.x
  let minY := mask.originGrid.y - offset.y
  let maxX := mask.originGrid.x + (mask.width : ℚ) * mask.cellSize - offset.x
  let maxY := mask.originGrid.y + (mask.height : ℚ) * mask.cellSize - offset.y
  { minX := ⌊minX / spacing⌋
    maxX := ⌈maxX / spacing⌉
    minY := ⌊minY / spacing⌋
    maxY := ⌈maxY / spacing⌉ }

/-- The four neighbour directions of the flood fill, in source order. -/
def directions : List (ℤ × ℤ) := [(1, 0), (-1, 0), (0, 1), (0, -1)]

/-- The lattice-bounds membership test (the source's two `continue`
guards `nx < minX || nx > maxX` and `ny < minY || ny > maxY`). -/
def inSampleBounds (b : GridSampleBounds) (c : ℤ × ℤ) : Bool :=
  decide (b.minX ≤ c.1) && decide (c.1 ≤ b.maxX) &&
    decide (b.minY ≤ c.2) && decide (c.2 ≤ b.maxY)

/-- State of one breadth-first expansion.  `queue` is the FIFO work
list (`queue.shift()` pops the head, `queue.push` appends); `visited`
is the visited set shared with the outer scan; `comp` is the
`component` cell set collected by `computeLargestComponent`; `pops` is
the `componentSize` counter of `countLargestComponentWithOffset`,
incremented once per popped cell. -/
structure BfsState where
  queue : List (ℤ × ℤ)
  visited : Finset (ℤ × ℤ)
  comp : Finset (ℤ × ℤ)
  pops : ℕ

/-- Process one neighbour (`cell + d`) of a popped cell: skip it when
out of bounds or already visited, mark it visited when outside the
region, and mark/enqueue/collect it when inside. -/
def bfsVisit (classify : ℤ × ℤ → Bool) (b : GridSampleBounds) (cell : ℤ × ℤ)
    (s : BfsState) (d : ℤ × ℤ) : BfsState :=
  let n : ℤ × ℤ := (cell.1 + d.1, cell.2 + d.2)
  if ¬ inSampleBounds b n then s
  else if n ∈ s.visited then s
  else if ¬ classify n then { s with visited := insert n s.visited }
  else
    { s with
      visited := insert n s.visited
      comp := insert n s.comp
      queue := s.queue ++ [n] }

/-- Process the four neighbours of one popped cell, in source order. -/
def bfsExpand (classify : ℤ × ℤ → Bool) (b : GridSampleBounds) (cell : ℤ × ℤ)
    (s : BfsState) : BfsState :=
  directions.foldl (bfsVisit classify b cell) s

/-- The `while (queue.length > 0)` loop of both flood-fill variants.
The JavaScript loop terminates because every enqueued cell was freshly
marked visited inside the finite lattice; the embedding makes the same
argument explicit through a fuel parameter that the callers instantiate
above the loop's worst-case iteration count. -/
def bfsRun (classify : ℤ × ℤ → Bool) (b : GridSampleBounds) : ℕ → BfsState → BfsState
  | 0, s => s
  | fuel + 1, s =>
      match s.queue with
      | [] => s
      | cell :: rest =>
          bfsRun classify b fuel
            (bfsExpand classify b cell { s with queue := rest, pops := s.pops + 1 })

/-- Number of columns of the sampling lattice. -/
def latticeWidth (b : GridSampleBounds) : ℕ := (b.maxX - b.minX + 1).toNat

/-- Number of rows of the sampling lattice. -/
def latticeHeight (b : GridSampleBounds) : ℕ := (b.maxY - b.minY + 1).toNat

/-- Fuel bound for `bfsRun`: strictly more than the maximal number of
loop iterations (each iteration pops one cell, and only freshly visited
lattice cells are ever enqueued). -/
def bfsFuel (b : GridSampleBounds) : ℕ := 4 * (latticeWidth b * latticeHeight b) + 2

/-- The lattice points inside `b` in row-major scan order (`gy` outer,
`gx` inner, both ascending). -/
def latticeCells (b : GridSampleBounds) : List (ℤ × ℤ) :=
  (List.range (latticeHeight b)).flatMap (fun iy : ℕ =>
    (List.range (latticeWidth b)).map (fun ix : ℕ =>
      ((b.minX + ix : ℤ), (b.minY + iy : ℤ))))

/-- State of the row-major component scan.  `bestCount`/`bestComponent`
are the strict-improvement maximum of `computeLargestComponent`
(compared through the component set's size), `bestPops` the one of
`countLargestComponentWithOffset` (compared through the pop counter). -/
structure ScanState where
  visited : Finset (ℤ × ℤ)
  bestCount : ℕ
  bestComponent : Finset (ℤ × ℤ)
  bestPops : ℕ

/-- One iteration of the row-major scan over lattice cell `c`. -/
def scanStep (classify : ℤ × ℤ → Bool) (b : GridSampleBounds) (s : ScanState)
    (c : ℤ × ℤ) : ScanState :=
  if c ∈ s.visited then s
  else if ¬ classify c then { s with visited := insert c s.visited }
  else
    let r := bfsRun classify b (bfsFuel b)
      { queue := [c], visited := insert c s.visited, comp := {c}, pops := 0 }
    { visited := r.visited
      bestCount := if r.comp.card > s.bestCount then r.comp.card else s.bestCount
      bestComponent := if r.comp.card > s.bestCount then r.comp else s.bestComponent
      bestPops := if r.pops > s.bestPops then r.pops else s.bestPops }

/-- The shared double loop of both flood-fill variants: scan the
lattice row-major, flood every fresh inside cell, and keep the best
component under strict improvement. -/
def scanComponents (classify : ℤ × ℤ → Bool) (b : GridSampleBounds) : ScanState :=
  (latticeCells b).foldl (scanStep classify b)
    { visited := ∅, bestCount := 0, bestComponent := ∅, bestPops := 0 }

/-- `computeLargestComponent` from `raster.ts`: scans
`raster.gridSampleBounds`, classifying the cell centered at
`(gx * gridSpacing, gy * gridSpacing)` through
`sampleRasterAtGridPoint`, and returns the best component's cell set
and size. -/
def computeLargestComponent (raster : RasterResult) : Finset (ℤ × ℤ) × ℕ :=
  let st := scanComponents
    (fun c => sampleRasterAtGridPoint raster
      { x := (c.1 : ℚ) * raster.gridSpacing, y := (c.2 : ℚ) * raster.gridSpacing } != 0)
    raster.gridSampleBounds
  (st.bestComponent, st.bestCount)

/-- `countLargestComponentWithOffset` from `raster.ts`: same scan over
the offset lattice (cell centers `(gx * spacing + offset.x, gy * spacing
+ offset.y)`, bounds from `computeGridSampleBoundsWithOffset`), counting
pops only. -/
def countLargestComponentWithOffset (raster : RasterResult) (offsetGrid : Vec2) : ℕ :=
  let b := computeGridSampleBoundsWithOffset raster.mask raster.gridSpacing offsetGrid
  (scanComponents
    (fun c => erodeGridCell raster
      { x := (c.1 : ℚ) * raster.gridSpacing + offsetGrid.x
        y := (c.2 : ℚ) * raster.gridSpacing + offsetGrid.y })
    b).bestPops

/-- `rasterizeRegion` from `raster.ts` (`part_003` variant,
`RASTER_RESOLUTION = 8`): transform the region to grid space, pad and
snap its bounding box, fill the mask, build the prefix-sum table,
compute the sampling bounds and run the component analysis.  Returns
`none` iff the region is absent or has no points (the source's
`!region` guard and the `null` bounding box). -/
def rasterizeRegion (region : Option MultiPolygon) (grid : GridState) :
    Option RasterResult :=
  match region with
  | none => none
  | some region =>
      let cellSize := grid.spacing / (RASTER_RESOLUTION : ℚ)
      let regionGrid := transformRegionToGrid region grid
      match computeGridBoundsGrid regionGrid with
      | none => none
      | some bounds =>
          let minMarginCells : ℤ := ⌈(grid.spacing / 2) / cellSize⌉ + 2
          let marginCells : ℤ := max (RASTER_MARGIN_CELLS : ℤ) minMarginCells
          let minX := (⌊bounds.minX / cellSize⌋ : ℚ) * cellSize - cellSize * marginCells
          let minY := (⌊bounds.minY / cellSize⌋ : ℚ) * cellSize - cellSize * marginCells
          let maxX := (⌈bounds.maxX / cellSize⌉ : ℚ) * cellSize + cellSize * marginCells
          let maxY := (⌈bounds.maxY / cellSize⌉ : ℚ) * cellSize + cellSize * marginCells
          let width : ℕ := (max 1 ⌈(maxX - minX) / cellSize⌉).toNat
          let height : ℕ := (max 1 ⌈(maxY - minY) / cellSize⌉).toNat
          let originGrid : Vec2 := { x := minX, y := minY }
          let data := fillMaskWithCanvas cellSize originGrid regionGrid
          let mask : RasterMask :=
            { data := data
              width := width
              height := height
              prefixSum := buildPrefixSum data
              cellSize := cellSize
              originGrid := originGrid }
          let gridSampleBounds := computeGridSampleBounds mask grid.spacing
          let rasterResult : RasterResult :=
            { mask := mask
              gridSpacing := grid.spacing
              gridSampleBounds := gridSampleBounds
              gridCellCount := 0
              insideCells := ∅ }
          let res := computeLargestComponent rasterResult
          some { rasterResult with gridCellCount := res.2, insideCells := res.1 }

/-! ## Alignment search (`gridAlignment.ts`, `part_002` variant) -/

/-- `ROTATION_STEP_DEGREES` from `gridAlignment.ts`. -/
def ROTATION_STEP_DEGREES : ℚ := 5

/-- `ANGLE_BIN_RESOLUTION` from `gridAlignment.ts` (degrees). -/
def ANGLE_BIN_RESOLUTION : ℚ := 1

/-- Source type `GridAlignmentResult`.  The `angle` is kept in degrees:
the source's final `toRad` conversion multiplies by the irrational
`π / 180`, a strictly monotone external map that the rational embedding
leaves implicit (the `trig` oracle consumes degree values directly). -/
structure GridAlignmentResult where
  angle : ℚ
  origin : Vec2
  cellCount : ℕ
deriving DecidableEq, Repr

/-- Source type `GridAlignmentStats`, restricted to its discrete
counters; `durationMs` and the `timings` breakdown are wall-clock
measurements of the host (`performance.now()`), outside the embedding. -/
structure GridAlignmentStats where
  orientations : ℕ
  offsetsPerOrientation : ℕ
  samples : ℕ
deriving DecidableEq, Repr

/-- The search's failure alphabet.  `abortError` models the
`DOMException("Aborted", "AbortError")` raised by `throwIfAborted`;
`genericFailure` stands for any other exception and is never raised by
the embedded search (the "distinct cancellation outcome" of spec §7). -/
inductive SearchError where
  | abortError : SearchError
  | genericFailure : SearchError
deriving DecidableEq, Repr

/-- JavaScript number truncation toward zero (`Math.trunc`, the
rounding used implicitly by the `%` remainder operator). -/
def jsTrunc (q : ℚ) : ℤ := if 0 ≤ q then ⌊q⌋ else -⌊-q⌋

/-- The JavaScript `%` remainder: same sign as the dividend. -/
def jsMod (a m : ℚ) : ℚ := a - m * (jsTrunc (a / m) : ℚ)

/-- The source's `((deg % 90) + 90) % 90` normalization into `[0, 90)`. -/
def normalizeDeg (d : ℚ) : ℚ := jsMod (jsMod d 90 + 90) 90

/-- `computeEdgeHistogram` from `gridAlignment.ts`: mark each 1°-bucket
in `[0°, 90°)` hit by some non-degenerate polygon edge direction.  The
direction computation `toDeg(Math.atan2(dy, dx))` is transcendental, so
it is abstracted as the oracle `atan2deg dy dx` (the angle in degrees);
every theorem quantifies over the oracle.  The bucket value
`Math.floor(deg / binSize) * binSize` is an integer since
`ANGLE_BIN_RESOLUTION = 1`. -/
def computeEdgeHistogram (atan2deg : ℚ → ℚ → ℚ) (region : MultiPolygon) : Finset ℤ :=
  region.foldl
    (fun bins polygon =>
      polygon.foldl
        (fun bins ring =>
          (List.range ring.length).foldl
            (fun bins i =>
              let p1 := ring.getD i (0, 0)
              let p2 := ring.getD ((i + 1) % ring.length) (0, 0)
              let dx := p2.1 - p1.1
              let dy := p2.2 - p1.2
              if |dx| < 1 / 1000000000 ∧ |dy| < 1 / 1000000000 then bins
              else
                let deg := min (899999 / 10000 : ℚ) (normalizeDeg (atan2deg dy dx))
                insert ⌊deg / ANGLE_BIN_RESOLUTION⌋ bins)
            bins)
        bins)
    ∅

/-- `const needed = Math.max(1, Math.ceil(span / maxStep))` of the
`addSegment` closure (`maxStep = ROTATION_STEP_DEGREES`). -/
def segNeeded (start stop : ℚ) : ℤ :=
  max 1 ⌈(stop - start) / ROTATION_STEP_DEGREES⌉

/-- `const actualStep = span / needed` of the `addSegment` closure. -/
def segStep (start stop : ℚ) : ℚ :=
  (stop - start) / (segNeeded start stop : ℚ)

/-- The `addSegment` closure of `buildCandidateAngles`: insert
`needed + 1` evenly spaced values from `start` to `stop` (inclusive),
with `needed = max 1 ⌈span / 5⌉` so the step never exceeds 5°. -/
def addSegment (filled : Finset ℚ) (start stop : ℚ) : Finset ℚ :=
  (List.range ((segNeeded start stop).toNat + 1)).foldl
    (fun f (i : ℕ) => insert (start + segStep start stop * (i : ℚ)) f) filled

/-- The sorted list of occupied 1°-buckets
(`Array.from(bins.entries()).filter(...).map(...).sort(...)`; the map
stores `true` for every inserted key, so the filter keeps all of them). -/
def occList (atan2deg : ℚ → ℚ → ℚ) (region : MultiPolygon) : List ℤ :=
  (computeEdgeHistogram atan2deg region).sort (· ≤ ·)

/-- The end of the `i`-th circular walk segment:
`i === occupied.length - 1 ? occupied[0] + 90 : occupied[i + 1]`. -/
def segEnd (occupied : List ℤ) (i : ℕ) : ℚ :=
  if i = occupied.length - 1 then (occupied.getD 0 0 : ℚ) + 90
  else (occupied.getD (i + 1) 0 : ℚ)

/-- The `filled` set after the circular walk over the occupied buckets
(the `for` loop of `buildCandidateAngles`). -/
def walkFilled (atan2deg : ℚ → ℚ → ℚ) (region : MultiPolygon) : Finset ℚ :=
  (List.range (occList atan2deg region).length).foldl
    (fun f i =>
      addSegment f ((occList atan2deg region).getD i 0 : ℚ)
        (segEnd (occList atan2deg region) i))
    (∅ : Finset ℚ)

/-- `buildCandidateAngles` from `gridAlignment.ts`, returning the
candidate angles in degrees (see `GridAlignmentResult.angle`): walk the
sorted occupied buckets circularly (wrapping the first bucket to
`+90°`), fill every segment via `addSegment`, normalize into `[0, 90)`,
deduplicate and sort ascending. -/
def buildCandidateAngles (atan2deg : ℚ → ℚ → ℚ) (region : Option MultiPolygon) :
    List ℚ :=
  match region with
  | none => [0]
  | some region =>
      if (occList atan2deg region).isEmpty then [0]
      else (((walkFilled atan2deg region).image normalizeDeg).sort (· ≤ ·))

/-- Mutable context of one running search: the poll counter indexes the
successive `throwIfAborted` observation points of the cancellation
signal, `samples`/`orientations` are the profiling counters, and `best`
is the strict-improvement running maximum. -/
structure SearchSt where
  polls : ℕ
  samples : ℕ
  orientations : ℕ
  best : Option GridAlignmentResult
deriving DecidableEq, Repr

/-- `throwIfAborted` from `gridAlignment.ts`: poll the cancellation
signal (indexed by observation point) and raise `abortError` when set. -/
def throwIfAborted (signal : ℕ → Bool) (st : SearchSt) : Except SearchError SearchSt :=
  if signal st.polls then .error .abortError
  else .ok { st with polls := st.polls + 1 }

/-- The `maybeYield` closure: count the sample; when the wall-clock
budget expires (abstracted as the `yields` oracle, indexed by sample
number) the search yields to the host scheduler and re-checks the
cancellation signal after resuming. -/
def maybeYield (signal yields : ℕ → Bool) (st : SearchSt) : Except SearchError SearchSt :=
  let st' := { st with samples := st.samples + 1 }
  if yields st.samples then throwIfAborted signal st' else .ok st'

/-- The `RASTER_RESOLUTION × RASTER_RESOLUTION` sub-cell offsets in
iteration order (`oy` outer, `ox` inner, both ascending). -/
def offsetsRowMajor : List (ℕ × ℕ) :=
  (List.range RASTER_RESOLUTION).flatMap (fun oy =>
    (List.range RASTER_RESOLUTION).map (fun ox => (oy, ox)))

/-- The strict-improvement update `if (!best || count > best.cellCount)`
of the inner offset loop, recovering the world origin by rotating the
offset by the candidate angle. -/
def bestUpdate (trig : ℚ → ℚ × ℚ) (grid : GridState) (angle : ℚ) (count : ℕ)
    (offsetGrid : Vec2) (st : SearchSt) : SearchSt :=
  if st.best.all (fun b => decide (b.cellCount < count)) then
    let offsetWorld := rotate offsetGrid (trig angle)
    { st with
      best := some
        { angle := angle
          origin := { x := grid.origin.x + offsetWorld.x, y := grid.origin.y + offsetWorld.y }
          cellCount := count } }
  else st

/-- Body of the inner offset loop: poll cancellation, evaluate the
count-only component analysis at this offset, update the best pose on
strict improvement, then pass a possible yield point. -/
def offsetIteration (trig : ℚ → ℚ × ℚ) (signal yields : ℕ → Bool) (grid : GridState)
    (angle : ℚ) (baseRaster : RasterResult) (offsetStep : ℚ) (st : SearchSt)
    (o : ℕ × ℕ) : Except SearchError SearchSt := do
  let st ← throwIfAborted signal st
  let offsetGrid : Vec2 := { x := (o.2 : ℚ) * offsetStep, y := (o.1 : ℚ) * offsetStep }
  let count := countLargestComponentWithOffset baseRaster offsetGrid
  maybeYield signal yields (bestUpdate trig grid angle count offsetGrid st)

/-- Body of the outer candidate-angle loop: poll cancellation, rasterize
the region at this angle (skipping the angle when rasterization yields
`none`), then sweep all sub-cell offsets. -/
def angleIteration (trig : ℚ → ℚ × ℚ) (signal yields : ℕ → Bool) (region : MultiPolygon)
    (grid : GridState) (st : SearchSt) (angle : ℚ) : Except SearchError SearchSt := do
  let st ← throwIfAborted signal st
  let baseGrid : GridState :=
    { origin := grid.origin
      cosA := (trig angle).1
      sinA := (trig angle).2
      spacing := grid.spacing }
  match rasterizeRegion (some region) baseGrid with
  | none => .ok st
  | some baseRaster =>
      let st := { st with orientations := st.orientations + 1 }
      offsetsRowMajor.foldlM
        (offsetIteration trig signal yields grid angle baseRaster
          (grid.spacing / (RASTER_RESOLUTION : ℚ)))
        st

/-- The complete candidate sweep of `findBestGridAlignmentAsync`,
exposing the final search context. -/
def searchLoop (trig : ℚ → ℚ × ℚ) (atan2deg : ℚ → ℚ → ℚ) (signal yields : ℕ → Bool)
    (region : MultiPolygon) (grid : GridState) : Except SearchError SearchSt :=
  (buildCandidateAngles atan2deg (some region)).foldlM
    (angleIteration trig signal yields region grid)
    { polls := 0, samples := 0, orientations := 0, best := none }

/-- `findBestGridAlignmentAsync` from `gridAlignment.ts`.  `trig` and
`atan2deg` abstract the transcendental library calls, `signal` the
caller's cancellation token (polled, never blocked on), `yields` the
wall-clock yield budget, and `profile` whether an `onProfile` callback
was supplied; the reported statistics are returned as a value (the
callback itself is caller code).  The `!region` early return happens
after candidate generation and before the loop and the profiling
report, exactly as in the source. -/
def findBestGridAlignmentAsync (trig : ℚ → ℚ × ℚ) (atan2deg : ℚ → ℚ → ℚ)
    (signal yields : ℕ → Bool) (profile : Bool) (region : Option MultiPolygon)
    (grid : GridState) :
    Except SearchError (Option GridAlignmentResult × Option GridAlignmentStats) := do
  match region with
  | none => .ok (none, none)
  | some region =>
      let st ← searchLoop trig atan2deg signal yields region grid
      let stats : Option GridAlignmentStats :=
        if profile then
          some
            { orientations := st.orientations
              offsetsPerOrientation := RASTER_RESOLUTION * RASTER_RESOLUTION
              samples := st.samples }
        else none
      .ok (st.best, stats)

/-! ## Prefix-sum table: summed-area identity -/

theorem buildPrefixSum_eq_sum (d : ℕ → ℕ → Bool) (y x : ℕ) :
    buildPrefixSum d y x = ∑ r ∈ Finset.range y, rowSum d r x := by
  induction y with
  | zero => simp [buildPrefixSum]
  | succ y ih =>
      cases x with
      | zero =>
          simp [buildPrefixSum, rowSum]
      | succ x =>
          rw [buildPrefixSum, Finset.sum_range_succ, ih]

theorem prefix_identity (d : ℕ → ℕ → Bool) (y x : ℕ) :
    buildPrefixSum d y x =
      ((Finset.range y ×ˢ Finset.range x).filter (fun rc => d rc.2 rc.1 = true)).card := by
  rw [buildPrefixSum_eq_sum, Finset.card_filter, Finset.sum_product]
  refine Finset.sum_congr rfl (fun r _ => ?_)
  unfold rowSum
  refine Finset.sum_congr rfl (fun c _ => ?_)
  by_cases h : d c r <;> simp [h]

/-- The component analysis reads only the mask, the spacing and the
sample bounds of its argument, so it cannot distinguish two raster
results agreeing on those fields (in `rasterizeRegion` it runs on the
intermediate record whose `gridCellCount`/`insideCells` are still
empty). -/
theorem computeLargestComponent_congr (r1 r2 : RasterResult) (hm : r1.mask = r2.mask)
    (hs : r1.gridSpacing = r2.gridSpacing) (hb : r1.gridSampleBounds = r2.gridSampleBounds) :
    computeLargestComponent r1 = computeLargestComponent r2 := by
  cases r1
  cases r2
  cases hm
  cases hs
  cases hb
  rfl

/-- Canonical shape of every `RasterResult` produced by
`rasterizeRegion`: the prefix sum is built over the mask's own data,
the sample bounds come from `computeGridSampleBounds`, the mask data is
the (spec-modelled) canvas fill of the transformed region, and the
component fields are the output of `computeLargestComponent`. -/
theorem rasterizeRegion_spec {region : MultiPolygon} {grid : GridState} {r : RasterResult}
    (h : rasterizeRegion (some region) grid = some r) :
    r.mask.prefixSum = buildPrefixSum r.mask.data ∧
    r.gridSpacing = grid.spacing ∧
    r.gridSampleBounds = computeGridSampleBounds r.mask grid.spacing ∧
    r.mask.cellSize = grid.spacing / (RASTER_RESOLUTION : ℚ) ∧
    r.mask.data =
      fillMaskWithCanvas r.mask.cellSize r.mask.originGrid
        (transformRegionToGrid region grid) ∧
    r.gridCellCount = (computeLargestComponent r).2 ∧
    r.insideCells = (computeLargestComponent r).1 := by
  cases hb : computeGridBoundsGrid (transformRegionToGrid region grid) with
  | none => simp only [rasterizeRegion, hb] at h; exact Option.noConfusion h
  | some bounds =>
      simp only [rasterizeRegion, hb, Option.some_inj] at h
      subst h
      refine ⟨rfl, rfl, rfl, rfl, rfl, ?_, ?_⟩
      · exact congrArg Prod.snd (computeLargestComponent_congr _ _ rfl rfl rfl)
      · exact congrArg Prod.fst (computeLargestComponent_congr _ _ rfl rfl rfl)

/-! ## Concrete example: a single-point region (zero-area bounding box) -/

/-- A region consisting of one ring holding the single point `(1, 2)`:
its bounding box is the degenerate (zero-area) rectangle at that point. -/
def regionPt : MultiPolygon := [[[(1, 2)]]]

/-- Pose at angle `0` (`cos = 1`, `sin = 0` exactly), spacing `1`. -/
def gridEx : GridState := { origin := { x := 0, y := 0 }, cosA := 1, sinA := 0, spacing := 1 }

theorem rasterPt_isSome : (rasterizeRegion (some regionPt) gridEx).isSome = true := by
  decide

/-- The raster result of the single-point region. -/
def rasterPt : RasterResult := (rasterizeRegion (some regionPt) gridEx).get rasterPt_isSome

theorem rasterPt_eq : rasterizeRegion (some regionPt) gridEx = some rasterPt :=
  (Option.some_get rasterPt_isSome).symm

theorem rasterPt_width : rasterPt.mask.width = 12 :=
  of_decide_eq_true (by with_unfolding_all rfl)

theorem rasterPt_height : rasterPt.mask.height = 12 :=
  of_decide_eq_true (by with_unfolding_all rfl)

/-- C2: every `RasterResult` produced by `rasterizeRegion` carries a
prefix-sum table satisfying the summed-area identity — for all
`y ≤ height` and `x ≤ width`, `prefixSum y x` counts the occupied data
cells `(r, c)` with `r < y`, `c < x`; in particular the sentinel row 0
and column 0 are all zero. -/
theorem claim_C2 (region : Option MultiPolygon) (grid : GridState) (r : RasterResult)
    (h : rasterizeRegion region grid = some r) (y x : ℕ)
    (_hy : y ≤ r.mask.height) (_hx : x ≤ r.mask.width) :
    r.mask.prefixSum y x =
        ((Finset.range y ×ˢ Finset.range x).filter
          (fun rc => r.mask.data rc.2 rc.1 = true)).card ∧
      r.mask.prefixSum 0 x = 0 ∧ r.mask.prefixSum y 0 = 0 := by
  cases region with
  | none => simp [rasterizeRegion] at h
  | some region =>
      obtain ⟨hps, -, -, -, -, -, -⟩ := rasterizeRegion_spec h
      rw [hps]
      refine ⟨prefix_identity _ _ _, ?_, ?_⟩
      · simp [buildPrefixSum]
      · rw [prefix_identity]
        simp

theorem claim_C2_witness :
    rasterPt.mask.prefixSum 4 3 =
        ((Finset.range 4 ×ˢ Finset.range 3).filter
          (fun rc => rasterPt.mask.data rc.2 rc.1 = true)).card ∧
      rasterPt.mask.prefixSum 0 3 = 0 ∧ rasterPt.mask.prefixSum 4 0 = 0 :=
  claim_C2 (some regionPt) gridEx rasterPt rasterPt_eq 4 3
    (by rw [rasterPt_height]; omega) (by rw [rasterPt_width]; omega)

/-! ## Cell classifier: erosion test -/

theorem prefix_box_sum (d : ℕ → ℕ → Bool) (x0 x1 y0 y1 : ℕ) (hx : x0 ≤ x1) (hy : y0 ≤ y1) :
    (buildPrefixSum d y1 x1 : ℤ) - buildPrefixSum d y0 x1 - buildPrefixSum d y1 x0
        + buildPrefixSum d y0 x0
      = ∑ r ∈ Finset.Ico y0 y1, ∑ c ∈ Finset.Ico x0 x1, (if d c r then (1 : ℤ) else 0) := by
  have hsplitP : ∀ x, buildPrefixSum d y1 x
      = buildPrefixSum d y0 x + ∑ r ∈ Finset.Ico y0 y1, rowSum d r x := by
    intro x
    rw [buildPrefixSum_eq_sum, buildPrefixSum_eq_sum, Finset.range_eq_Ico]
    exact (Finset.sum_Ico_consecutive _ (Nat.zero_le y0) hy).symm
  have hsplitR : ∀ r, rowSum d r x1
      = rowSum d r x0 + ∑ c ∈ Finset.Ico x0 x1, (if d c r then 1 else 0) := by
    intro r
    unfold rowSum
    rw [Finset.range_eq_Ico]
    exact (Finset.sum_Ico_consecutive _ (Nat.zero_le x0) hx).symm
  have key : ∀ r, (rowSum d r x1 : ℤ) - rowSum d r x0
      = ∑ c ∈ Finset.Ico x0 x1, (if d c r then (1 : ℤ) else 0) := by
    intro r
    rw [hsplitR r]
    push_cast
    ring
  calc (buildPrefixSum d y1 x1 : ℤ) - buildPrefixSum d y0 x1 - buildPrefixSum d y1 x0
        + buildPrefixSum d y0 x0
      = ∑ r ∈ Finset.Ico y0 y1, ((rowSum d r x1 : ℤ) - rowSum d r x0) := by
        rw [hsplitP x1, hsplitP x0]
        push_cast
        rw [Finset.sum_sub_distrib]
        ring
    _ = ∑ r ∈ Finset.Ico y0 y1, ∑ c ∈ Finset.Ico x0 x1, (if d c r then (1 : ℤ) else 0) :=
        Finset.sum_congr rfl (fun r _ => key r)

theorem box_sum_nat_iff (d : ℕ → ℕ → Bool) (x0 x1 y0 y1 : ℕ) :
    (∑ r ∈ Finset.Ico y0 y1, ∑ c ∈ Finset.Ico x0 x1, (if d c r then (1 : ℕ) else 0))
        = (y1 - y0) * (x1 - x0)
      ↔ ∀ r ∈ Finset.Ico y0 y1, ∀ c ∈ Finset.Ico x0 x1, d c r = true := by
  have hinner_le : ∀ r, (∑ c ∈ Finset.Ico x0 x1, (if d c r then (1 : ℕ) else 0))
      ≤ ∑ _c ∈ Finset.Ico x0 x1, (1 : ℕ) :=
    fun r => Finset.sum_le_sum (fun c _ => by split <;> omega)
  have hone : (∑ _c ∈ Finset.Ico x0 x1, (1 : ℕ)) = x1 - x0 := by
    rw [Finset.sum_const, smul_eq_mul, mul_one, Nat.card_Ico]
  have houter : (y1 - y0) * (x1 - x0) = ∑ _r ∈ Finset.Ico y0 y1, (x1 - x0) := by
    rw [Finset.sum_const, smul_eq_mul, Nat.card_Ico]
  rw [houter]
  rw [Finset.sum_eq_sum_iff_of_le (fun r _ => by rw [← hone]; exact hinner_le r)]
  constructor
  · intro hall r hr c hc
    have hr' := hall r hr
    rw [← hone] at hr'
    have := (Finset.sum_eq_sum_iff_of_le (fun c _ => by split <;> omega)).mp hr' c hc
    by_contra hne
    simp [hne] at this
  · intro hall r hr
    rw [← hone]
    refine (Finset.sum_eq_sum_iff_of_le (fun c _ => by split <;> omega)).mpr ?_
    intro c hc
    simp [hall r hr c hc]

/-- C1: for every `RasterResult` produced by `rasterizeRegion` and every
grid-space point `p`, `erodeGridCell` returns `true` iff the
spacing-by-spacing footprint centered at `p` converts (with the `1e-7`
epsilon) to a non-empty raster rectangle lying entirely within the mask
(`startX ≥ 0`, `startY ≥ 0`, `endX < width`, `endY < height`) with every
raster cell in it occupied; in particular a footprint extending outside
the mask's raster extent classifies outside. -/
theorem claim_C1 (region : Option MultiPolygon) (grid : GridState) (r : RasterResult)
    (h : rasterizeRegion region grid = some r) (p : Vec2) :
    erodeGridCell r p = true ↔
      (0 ≤ erodeStartX r p ∧ 0 ≤ erodeStartY r p ∧
        erodeEndX r p < (r.mask.width : ℤ) ∧ erodeEndY r p < (r.mask.height : ℤ) ∧
        erodeStartX r p ≤ erodeEndX r p ∧ erodeStartY r p ≤ erodeEndY r p ∧
        ∀ cx cy : ℤ, erodeStartX r p ≤ cx → cx ≤ erodeEndX r p →
          erodeStartY r p ≤ cy → cy ≤ erodeEndY r p →
          r.mask.data cx.toNat cy.toNat = true) := by
  cases region with
  | none => simp [rasterizeRegion] at h
  | some region =>
      obtain ⟨hps, -, -, -, -, -, -⟩ := rasterizeRegion_spec h
      simp only [erodeGridCell]
      split_ifs with h1 h2
      · refine iff_of_false (by simp) ?_
        rintro ⟨c1, c2, c3, c4, -, -, -⟩
        omega
      · refine iff_of_false (by simp) ?_
        rintro ⟨-, -, -, -, c5, c6, -⟩
        omega
      · rw [decide_eq_true_eq, hps]
        have hsx : 0 ≤ erodeStartX r p := by omega
        have hsy : 0 ≤ erodeStartY r p := by omega
        have hxw : erodeEndX r p < (r.mask.width : ℤ) := by omega
        have hyh : erodeEndY r p < (r.mask.height : ℤ) := by omega
        have hxe : erodeStartX r p ≤ erodeEndX r p := by omega
        have hye : erodeStartY r p ≤ erodeEndY r p := by omega
        have hx01 : (erodeStartX r p).toNat ≤ (erodeEndX r p).toNat + 1 := by omega
        have hy01 : (erodeStartY r p).toNat ≤ (erodeEndY r p).toNat + 1 := by omega
        rw [prefix_box_sum r.mask.data _ _ _ _ hx01 hy01]
        have hsum_cast :
            (∑ rr ∈ Finset.Ico (erodeStartY r p).toNat ((erodeEndY r p).toNat + 1),
              ∑ c ∈ Finset.Ico (erodeStartX r p).toNat ((erodeEndX r p).toNat + 1),
                (if r.mask.data c rr then (1 : ℤ) else 0))
            = ((∑ rr ∈ Finset.Ico (erodeStartY r p).toNat ((erodeEndY r p).toNat + 1),
                ∑ c ∈ Finset.Ico (erodeStartX r p).toNat ((erodeEndX r p).toNat + 1),
                  (if r.mask.data c rr then (1 : ℕ) else 0) : ℕ) : ℤ) := by
          push_cast
          rfl
        have e1 : (((erodeEndX r p).toNat + 1 - (erodeStartX r p).toNat : ℕ) : ℤ)
            = erodeEndX r p - erodeStartX r p + 1 := by omega
        have e2 : (((erodeEndY r p).toNat + 1 - (erodeStartY r p).toNat : ℕ) : ℤ)
            = erodeEndY r p - erodeStartY r p + 1 := by omega
        have hexp : ((erodeEndX r p - erodeStartX r p + 1) * (erodeEndY r p - erodeStartY r p + 1))
            = ((((erodeEndY r p).toNat + 1 - (erodeStartY r p).toNat)
                * ((erodeEndX r p).toNat + 1 - (erodeStartX r p).toNat) : ℕ) : ℤ) := by
          rw [Nat.cast_mul, e1, e2]
          ring
        rw [hsum_cast, hexp, Int.natCast_inj, box_sum_nat_iff]
        constructor
        · intro hall
          refine ⟨hsx, hsy, hxw, hyh, hxe, hye, ?_⟩
          intro cx cy a1 a2 a3 a4
          exact hall cy.toNat (Finset.mem_Ico.mpr ⟨by omega, by omega⟩)
            cx.toNat (Finset.mem_Ico.mpr ⟨by omega, by omega⟩)
        · rintro ⟨-, -, -, -, -, -, hall⟩
          intro rr hrr c hc
          rw [Finset.mem_Ico] at hrr hc
          have := hall (c : ℤ) (rr : ℤ) (by omega) (by omega) (by omega) (by omega)
          simpa using this

theorem claim_C1_witness :
    erodeGridCell rasterPt { x := 1, y := 2 } = true ↔
      (0 ≤ erodeStartX rasterPt { x := 1, y := 2 } ∧
        0 ≤ erodeStartY rasterPt { x := 1, y := 2 } ∧
        erodeEndX rasterPt { x := 1, y := 2 } < (rasterPt.mask.width : ℤ) ∧
        erodeEndY rasterPt { x := 1, y := 2 } < (rasterPt.mask.height : ℤ) ∧
        erodeStartX rasterPt { x := 1, y := 2 } ≤ erodeEndX rasterPt { x := 1, y := 2 } ∧
        erodeStartY rasterPt { x := 1, y := 2 } ≤ erodeEndY rasterPt { x := 1, y := 2 } ∧
        ∀ cx cy : ℤ,
          erodeStartX rasterPt { x := 1, y := 2 } ≤ cx →
          cx ≤ erodeEndX rasterPt { x := 1, y := 2 } →
          erodeStartY rasterPt { x := 1, y := 2 } ≤ cy →
          cy ≤ erodeEndY rasterPt { x := 1, y := 2 } →
          rasterPt.mask.data cx.toNat cy.toNat = true) :=
  claim_C1 (some regionPt) gridEx rasterPt rasterPt_eq { x := 1, y := 2 }

/-! ## C4: when does `rasterizeRegion` return no result? -/

theorem computeGridBoundsGrid_eq_none_iff (region : MultiPolygon) :
    computeGridBoundsGrid region = none ↔ regionPoints region = [] := by
  unfold computeGridBoundsGrid
  cases h : regionPoints region <;> simp

theorem regionPoints_transform (region : MultiPolygon) (grid : GridState) :
    ∃ f, regionPoints (transformRegionToGrid region grid) = (regionPoints region).map f := by
  refine ⟨fun p =>
    ((p.1 - grid.origin.x) * grid.cosA - (p.2 - grid.origin.y) * (-grid.sinA),
      (p.1 - grid.origin.x) * (-grid.sinA) + (p.2 - grid.origin.y) * grid.cosA), ?_⟩
  simp only [regionPoints, transformRegionToGrid, List.flatMap_map, List.map_flatMap]

theorem rasterizeRegion_eq_none_iff (region : MultiPolygon) (grid : GridState) :
    rasterizeRegion (some region) grid = none
      ↔ computeGridBoundsGrid (transformRegionToGrid region grid) = none := by
  cases hb : computeGridBoundsGrid (transformRegionToGrid region grid) <;>
    simp [rasterizeRegion, hb]

/-- C4 counterexample: the single-point region has a zero-area bounding
box (`minX = maxX`, `minY = maxY`), yet `rasterizeRegion` still returns
a result rather than `none`. -/
theorem claim_C4_counterexample :
    computeGridBoundsGrid (transformRegionToGrid regionPt gridEx)
        = some { minX := 1, minY := 2, maxX := 1, maxY := 2 } ∧
      rasterizeRegion (some regionPt) gridEx ≠ none := by
  constructor
  · exact of_decide_eq_true (by with_unfolding_all rfl)
  · rw [rasterPt_eq]
    simp

/-- C4 (amended): `rasterizeRegion` returns `none` exactly when the
region is absent or has no points at all; a region with points but a
zero-area bounding box still produces a result.  The embedded function
is total, so there is no other failure path. -/
theorem claim_C4_amended (region : Option MultiPolygon) (grid : GridState) :
    rasterizeRegion region grid = none
      ↔ region = none ∨ ∃ reg, region = some reg ∧ regionPoints reg = [] := by
  cases region with
  | none => simp [rasterizeRegion]
  | some reg =>
      rw [rasterizeRegion_eq_none_iff, computeGridBoundsGrid_eq_none_iff]
      obtain ⟨f, hf⟩ := regionPoints_transform reg grid
      rw [hf]
      simp

/-! ## C5: grid sample bounds versus the mask extent -/

/-- The claim's side condition, written from the spec's words: the
spacing-sized cell of grid index `g` (the square of side `spacing`
centered at `(g.1 * spacing, g.2 * spacing)`) might overlap the mask's
extent `[originGrid, originGrid + size * cellSize]` on both axes. -/
def cellMightOverlapMask (mask : RasterMask) (spacing : ℚ) (g : ℤ × ℤ) : Prop :=
  mask.originGrid.x < (g.1 : ℚ) * spacing + spacing / 2 ∧
    (g.1 : ℚ) * spacing - spacing / 2 < mask.originGrid.x + (mask.width : ℚ) * mask.cellSize ∧
    mask.originGrid.y < (g.2 : ℚ) * spacing + spacing / 2 ∧
    (g.2 : ℚ) * spacing - spacing / 2 < mask.originGrid.y + (mask.height : ℚ) * mask.cellSize

instance (mask : RasterMask) (spacing : ℚ) (g : ℤ × ℤ) :
    Decidable (cellMightOverlapMask mask spacing g) := by
  unfold cellMightOverlapMask
  infer_instance

/-- C5 counterexample: for the raster result of the single-point region,
the cell of grid index `(0, 1)` might overlap the mask extent, yet
`gridSampleBounds = {minX := 0, maxX := 2, minY := 1, maxY := 3}` does
not contain it strictly (`0 = minX`, `1 = minY`): the `part_003`
`computeGridSampleBounds` has no ±1 slack, so the coverage is only
inclusive, not strict. -/
theorem claim_C5_counterexample :
    cellMightOverlapMask rasterPt.mask rasterPt.gridSpacing (0, 1) ∧
      rasterPt.gridSampleBounds
          = { minX := 0, maxX := 2, minY := 1, maxY := 3 } ∧
      ¬ (rasterPt.gridSampleBounds.minX < 0 ∧ 0 < rasterPt.gridSampleBounds.maxX ∧
          rasterPt.gridSampleBounds.minY < 1 ∧ 1 < rasterPt.gridSampleBounds.maxY) :=
  of_decide_eq_true (by with_unfolding_all rfl)

/-- C5 (amended): `gridSampleBounds` covers the mask extent inclusively
— every grid-cell index whose spacing-sized cell might overlap the mask
lies within `[minX, maxX] × [minY, maxY]` (but not necessarily strictly
inside: the bounds are the plain floor/ceil of the mask extent in
grid-spacing units, with no additional 1-cell margin). -/
theorem claim_C5_amended (region : Option MultiPolygon) (grid : GridState) (r : RasterResult)
    (h : rasterizeRegion region grid = some r) (hs : 0 < grid.spacing) (g : ℤ × ℤ)
    (hov : cellMightOverlapMask r.mask grid.spacing g) :
    r.gridSampleBounds.minX ≤ g.1 ∧ g.1 ≤ r.gridSampleBounds.maxX ∧
      r.gridSampleBounds.minY ≤ g.2 ∧ g.2 ≤ r.gridSampleBounds.maxY := by
  cases region with
  | none => simp [rasterizeRegion] at h
  | some region =>
      obtain ⟨-, -, hgb, -, -, -, -⟩ := rasterizeRegion_spec h
      obtain ⟨h1, h2, h3, h4⟩ := hov
      rw [hgb]
      have lower : ∀ t : ℚ, ∀ gi : ℤ, t < (gi : ℚ) * grid.spacing + grid.spacing / 2 →
          ⌊t / grid.spacing⌋ ≤ gi := by
        intro t gi hlt
        have hdiv : t / grid.spacing < (gi : ℚ) + 1 / 2 := by
          rw [div_lt_iff₀ hs]
          ring_nf
          ring_nf at hlt
          linarith
        have hfl : (⌊t / grid.spacing⌋ : ℚ) ≤ t / grid.spacing := Int.floor_le _
        by_contra hcon
        push_neg at hcon
        have : (gi : ℚ) + 1 ≤ (⌊t / grid.spacing⌋ : ℚ) := by
          exact_mod_cast hcon
        linarith
      have upper : ∀ t : ℚ, ∀ gi : ℤ, (gi : ℚ) * grid.spacing - grid.spacing / 2 < t →
          gi ≤ ⌈t / grid.spacing⌉ := by
        intro t gi hlt
        have hdiv : (gi : ℚ) - 1 / 2 < t / grid.spacing := by
          rw [lt_div_iff₀ hs]
          ring_nf
          ring_nf at hlt
          linarith
        have hce : t / grid.spacing ≤ (⌈t / grid.spacing⌉ : ℚ) := Int.le_ceil _
        by_contra hcon
        push_neg at hcon
        have : (⌈t / grid.spacing⌉ : ℚ) + 1 ≤ (gi : ℚ) := by
          exact_mod_cast hcon
        linarith
      exact ⟨lower _ _ h1, upper _ _ h2, lower _ _ h3, upper _ _ h4⟩

theorem claim_C5_amended_witness :
    rasterPt.gridSampleBounds.minX ≤ 1 ∧ 1 ≤ rasterPt.gridSampleBounds.maxX ∧
      rasterPt.gridSampleBounds.minY ≤ 2 ∧ 2 ≤ rasterPt.gridSampleBounds.maxY :=
  claim_C5_amended (some regionPt) gridEx rasterPt rasterPt_eq
    (by norm_num [gridEx]) (1, 2) (of_decide_eq_true (by with_unfolding_all rfl))

/-! ## C3: the 10×10 square at pose {origin (0,0), angle 0, spacing 2} -/

/-- The single square ring with corners `(0,0), (10,0), (10,10), (0,10)`. -/
def regionSq : MultiPolygon := [[[(0, 0), (10, 0), (10, 10), (0, 10)]]]

/-- Pose `{origin: (0,0), angle: 0, spacing: 2}` (at angle 0 the trig
values are exactly `cos = 1`, `sin = 0`). -/
def gridSq : GridState := { origin := { x := 0, y := 0 }, cosA := 1, sinA := 0, spacing := 2 }

theorem rasterSq_isSome : (rasterizeRegion (some regionSq) gridSq).isSome = true := by
  decide

/-- The raster result of the square example. -/
def rasterSq : RasterResult := (rasterizeRegion (some regionSq) gridSq).get rasterSq_isSome

theorem rasterSq_eq : rasterizeRegion (some regionSq) gridSq = some rasterSq :=
  (Option.some_get rasterSq_isSome).symm

theorem rasterSq_spacing : rasterSq.gridSpacing = 2 :=
  of_decide_eq_true (by with_unfolding_all rfl)

theorem rasterSq_cellSize : rasterSq.mask.cellSize = 1 / 4 :=
  of_decide_eq_true (by with_unfolding_all rfl)

theorem rasterSq_originGrid : rasterSq.mask.originGrid = { x := -(3 / 2), y := -(3 / 2) } :=
  of_decide_eq_true (by with_unfolding_all rfl)

theorem rasterSq_width : rasterSq.mask.width = 52 :=
  of_decide_eq_true (by with_unfolding_all rfl)

theorem rasterSq_height : rasterSq.mask.height = 52 :=
  of_decide_eq_true (by with_unfolding_all rfl)

theorem rasterSq_bounds :
    rasterSq.gridSampleBounds = { minX := -1, maxX := 6, minY := -1, maxY := 6 } :=
  of_decide_eq_true (by with_unfolding_all rfl)

theorem regionSq_transform :
    transformRegionToGrid regionSq gridSq = [[[(0, 0), (10, 0), (10, 10), (0, 10)]]] :=
  of_decide_eq_true (by with_unfolding_all rfl)

/-- Even-odd membership in the axis-aligned `10 × 10` square: the ray
cast crosses the right edge iff `0 ≤ p.y < 10 ∧ p.x < 10` and the left
edge iff `0 ≤ p.y < 10 ∧ p.x < 0`, so the parity is odd exactly on
`[0, 10) × [0, 10)`. -/
theorem pointInSquare (p : ℚ × ℚ) :
    pointInMultiPolygon p [[[(0, 0), (10, 0), (10, 10), (0, 10)]]]
      = decide (0 ≤ p.1 ∧ p.1 < 10 ∧ 0 ≤ p.2 ∧ p.2 < 10) := by
  have hrange : List.range 4 = [0, 1, 2, 3] := rfl
  simp only [pointInMultiPolygon, pointInPolygonEO, ringCrossings, List.any_cons,
    List.any_nil, List.foldl_cons, List.foldl_nil, List.length_cons, List.length_nil]
  norm_num [hrange, List.countP_cons, edgeCrosses]
  rcases le_or_lt 0 p.1 with hx0 | hx0 <;> rcases lt_or_le p.1 10 with hx1 | hx1 <;>
    rcases le_or_lt 0 p.2 with hy0 | hy0 <;> rcases lt_or_le p.2 10 with hy1 | hy1 <;>
    simp [hx0, hx1, hy0, hy1, not_lt.mpr, le_of_lt] <;>
    first
      | omega
      | (exfalso; linarith)

theorem rasterSq_originGrid_x : rasterSq.mask.originGrid.x = -(3 / 2) := by
  rw [rasterSq_originGrid]

theorem rasterSq_originGrid_y : rasterSq.mask.originGrid.y = -(3 / 2) := by
  rw [rasterSq_originGrid]

/-- One axis of the centroid-in-square test: the centroid of raster
index `n` lies in `[0, 10)` iff `6 ≤ n ≤ 45`. -/
theorem centroid_axis_iff (n : ℕ) :
    (0 ≤ -(3 / 2) + ((n : ℚ) + 1 / 2) * (1 / 4) ∧ -(3 / 2) + ((n : ℚ) + 1 / 2) * (1 / 4) < 10)
      ↔ (6 ≤ n ∧ n ≤ 45) := by
  constructor
  · rintro ⟨h1, h2⟩
    have c1 : (11 : ℚ) ≤ 2 * (n : ℚ) := by linarith
    have c2 : 2 * (n : ℚ) < 91 := by linarith
    have c1n : (11 : ℕ) ≤ 2 * n := by exact_mod_cast c1
    have c2n : 2 * n < 91 := by exact_mod_cast c2
    omega
  · rintro ⟨h1, h2⟩
    have c1 : (6 : ℚ) ≤ (n : ℚ) := by exact_mod_cast h1
    have c2 : (n : ℚ) ≤ 45 := by exact_mod_cast h2
    constructor <;> linarith

/-- Closed form of the square example's mask data: raster cell `(x, y)`
is occupied iff both indices lie in `[6, 45]` (those raster cells tile
`[0, 10]²` exactly). -/
theorem dataSq_closed (x y : ℕ) :
    rasterSq.mask.data x y = decide (6 ≤ x ∧ x ≤ 45 ∧ 6 ≤ y ∧ y ≤ 45) := by
  obtain ⟨-, -, -, -, hdata, -, -⟩ := rasterizeRegion_spec rasterSq_eq
  rw [hdata]
  simp only [fillMaskWithCanvas]
  rw [rasterSq_originGrid_x, rasterSq_originGrid_y, rasterSq_cellSize, regionSq_transform,
    pointInSquare]
  rw [decide_eq_decide]
  dsimp only
  constructor
  · rintro ⟨a1, a2, a3, a4⟩
    have hx := (centroid_axis_iff x).mp ⟨a1, a2⟩
    have hy := (centroid_axis_iff y).mp ⟨a3, a4⟩
    exact ⟨hx.1, hx.2, hy.1, hy.2⟩
  · rintro ⟨b1, b2, b3, b4⟩
    have hx := (centroid_axis_iff x).mpr ⟨b1, b2⟩
    have hy := (centroid_axis_iff y).mpr ⟨b3, b4⟩
    exact ⟨hx.1, hx.2, hy.1, hy.2⟩

theorem count_interval (y : ℕ) :
    ((Finset.range y).filter (fun r => 6 ≤ r ∧ r ≤ 45)).card = min y 46 - min y 6 := by
  have h : (Finset.range y).filter (fun r => 6 ≤ r ∧ r ≤ 45) = Finset.Ico 6 (min y 46) := by
    ext a
    simp only [Finset.mem_filter, Finset.mem_range, Finset.mem_Ico]
    omega
  rw [h, Nat.card_Ico]
  omega

/-- Closed form of the square example's prefix-sum table: the product of
the per-axis occupied counts. -/
theorem sqPrefix (y x : ℕ) :
    buildPrefixSum rasterSq.mask.data y x = (min y 46 - min y 6) * (min x 46 - min x 6) := by
  rw [prefix_identity]
  have hfilter : (Finset.range y ×ˢ Finset.range x).filter
        (fun rc => rasterSq.mask.data rc.2 rc.1 = true)
      = ((Finset.range y).filter (fun r => 6 ≤ r ∧ r ≤ 45))
          ×ˢ ((Finset.range x).filter (fun c => 6 ≤ c ∧ c ≤ 45)) := by
    ext rc
    simp only [Finset.mem_filter, Finset.mem_product, Finset.mem_range, dataSq_closed,
      decide_eq_true_eq]
    tauto
  rw [hfilter, Finset.card_product, count_interval, count_interval]

theorem floor_add_eps (n : ℤ) : ⌊(n : ℚ) + erodeEps⌋ = n := by
  refine Int.floor_eq_iff.mpr ⟨?_, ?_⟩ <;> norm_num [erodeEps]

theorem ceil_sub_eps (n : ℤ) : ⌈(n : ℚ) - erodeEps⌉ = n := by
  refine Int.ceil_eq_iff.mpr ⟨?_, ?_⟩ <;> norm_num [erodeEps]

theorem erode_calc_startX (r : RasterResult) (p : Vec2) (g : ℤ)
    (hcs : r.mask.cellSize = 1 / 4) (hog : r.mask.originGrid.x = -(3 / 2))
    (hsp : r.gridSpacing = 2) (hp : p.x = (g : ℚ) * 2) :
    erodeStartX r p = 8 * g + 2 := by
  unfold erodeStartX
  rw [hcs, hog, hsp, hp]
  have harg : ((g : ℚ) * 2 - 2 / 2 - -(3 / 2)) / (1 / 4) + erodeEps
      = ((8 * g + 2 : ℤ) : ℚ) + erodeEps := by
    push_cast
    ring
  rw [harg, floor_add_eps]

theorem erode_calc_endX (r : RasterResult) (p : Vec2) (g : ℤ)
    (hcs : r.mask.cellSize = 1 / 4) (hog : r.mask.originGrid.x = -(3 / 2))
    (hsp : r.gridSpacing = 2) (hp : p.x = (g : ℚ) * 2) :
    erodeEndX r p = 8 * g + 9 := by
  unfold erodeEndX
  rw [hcs, hog, hsp, hp]
  have harg : ((g : ℚ) * 2 + 2 / 2 - -(3 / 2)) / (1 / 4) - erodeEps
      = ((8 * g + 10 : ℤ) : ℚ) - erodeEps := by
    push_cast
    ring
  rw [harg, ceil_sub_eps]
  ring

theorem erode_calc_startY (r : RasterResult) (p : Vec2) (g : ℤ)
    (hcs : r.mask.cellSize = 1 / 4) (hog : r.mask.originGrid.y = -(3 / 2))
    (hsp : r.gridSpacing = 2) (hp : p.y = (g : ℚ) * 2) :
    erodeStartY r p = 8 * g + 2 := by
  unfold erodeStartY
  rw [hcs, hog, hsp, hp]
  have harg : ((g : ℚ) * 2 - 2 / 2 - -(3 / 2)) / (1 / 4) + erodeEps
      = ((8 * g + 2 : ℤ) : ℚ) + erodeEps := by
    push_cast
    ring
  rw [harg, floor_add_eps]

theorem erode_calc_endY (r : RasterResult) (p : Vec2) (g : ℤ)
    (hcs : r.mask.cellSize = 1 / 4) (hog : r.mask.originGrid.y = -(3 / 2))
    (hsp : r.gridSpacing = 2) (hp : p.y = (g : ℚ) * 2) :
    erodeEndY r p = 8 * g + 9 := by
  unfold erodeEndY
  rw [hcs, hog, hsp, hp]
  have harg : ((g : ℚ) * 2 + 2 / 2 - -(3 / 2)) / (1 / 4) - erodeEps
      = ((8 * g + 10 : ℤ) : ℚ) - erodeEps := by
    push_cast
    ring
  rw [harg, ceil_sub_eps]
  ring

/-- Erosion classification of the square example at the lattice point
`(gx, gy)`: the spacing-2 footprint `[2gx - 1, 2gx + 1] × [2gy - 1,
2gy + 1]` is fully occupied iff `gx, gy ∈ [1, 4]`. -/
theorem erodeSq (gx gy : ℤ) :
    erodeGridCell rasterSq
        { x := (gx : ℚ) * rasterSq.gridSpacing, y := (gy : ℚ) * rasterSq.gridSpacing }
      = decide (1 ≤ gx ∧ gx ≤ 4 ∧ 1 ≤ gy ∧ gy ≤ 4) := by
  have hp : (⟨(gx : ℚ) * rasterSq.gridSpacing, (gy : ℚ) * rasterSq.gridSpacing⟩ : Vec2).x
      = (gx : ℚ) * 2 := by
    show (gx : ℚ) * rasterSq.gridSpacing = (gx : ℚ) * 2
    rw [rasterSq_spacing]
  have hq : (⟨(gx : ℚ) * rasterSq.gridSpacing, (gy : ℚ) * rasterSq.gridSpacing⟩ : Vec2).y
      = (gy : ℚ) * 2 := by
    show (gy : ℚ) * rasterSq.gridSpacing = (gy : ℚ) * 2
    rw [rasterSq_spacing]
  have hsx := erode_calc_startX rasterSq _ gx rasterSq_cellSize rasterSq_originGrid_x
    rasterSq_spacing hp
  have hex := erode_calc_endX rasterSq _ gx rasterSq_cellSize rasterSq_originGrid_x
    rasterSq_spacing hp
  have hsy := erode_calc_startY rasterSq _ gy rasterSq_cellSize rasterSq_originGrid_y
    rasterSq_spacing hq
  have hey := erode_calc_endY rasterSq _ gy rasterSq_cellSize rasterSq_originGrid_y
    rasterSq_spacing hq
  obtain ⟨hps, -, -, -, -, -, -⟩ := rasterizeRegion_spec rasterSq_eq
  simp only [erodeGridCell]
  rw [hsx, hex, hsy, hey, rasterSq_width, rasterSq_height, hps]
  split_ifs with h1 h2
  · symm
    rw [decide_eq_false_iff_not]
    omega
  · exfalso
    omega
  · simp only [sqPrefix]
    rw [decide_eq_decide]
    have hgx0 : 0 ≤ gx := by omega
    have hgx5 : gx ≤ 5 := by omega
    have hgy0 : 0 ≤ gy := by omega
    have hgy5 : gy ≤ 5 := by omega
    interval_cases gx <;> interval_cases gy <;> decide

/-- The classifier that `computeLargestComponent` scans with, on the
square example: exactly the `[1, 4]²` lattice block. -/
theorem classifySq :
    (fun c : ℤ × ℤ => sampleRasterAtGridPoint rasterSq
        { x := (c.1 : ℚ) * rasterSq.gridSpacing, y := (c.2 : ℚ) * rasterSq.gridSpacing } != 0)
      = fun c : ℤ × ℤ => decide (1 ≤ c.1 ∧ c.1 ≤ 4 ∧ 1 ≤ c.2 ∧ c.2 ≤ 4) := by
  funext c
  simp only [sampleRasterAtGridPoint, erodeSq]
  by_cases h : 1 ≤ c.1 ∧ c.1 ≤ 4 ∧ 1 ≤ c.2 ∧ c.2 ≤ 4 <;> simp [h]

set_option maxRecDepth 100000 in
set_option maxHeartbeats 1000000 in
/-- Full evaluation of the component analysis of the square example:
the largest (only) component is the contiguous `4 × 4` block
`[1, 4] × [1, 4]` of lattice points, of size 16. -/
theorem computeLargestComponentSq :
    computeLargestComponent rasterSq = (Finset.Icc (1 : ℤ) 4 ×ˢ Finset.Icc (1 : ℤ) 4, 16) := by
  unfold computeLargestComponent
  rw [classifySq, rasterSq_bounds]
  exact of_decide_eq_true (by with_unfolding_all rfl)

/-- C3 counterexample: at the documented example pose the code produces
`gridCellCount = 16`, not 25 — grid cells are squares centered at
lattice points of the pose, and only the 4 × 4 block of lattice points
strictly interior to the square carries fully covered footprints. -/
theorem claim_C3_counterexample :
    rasterizeRegion (some regionSq) gridSq = some rasterSq ∧ rasterSq.gridCellCount ≠ 25 := by
  obtain ⟨-, -, -, -, -, hc, -⟩ := rasterizeRegion_spec rasterSq_eq
  refine ⟨rasterSq_eq, ?_⟩
  rw [hc, computeLargestComponentSq]
  decide

/-- C3 (amended): for an axis-aligned square of side `N × spacing` whose
corners lie on grid lattice points, `rasterizeRegion` at angle 0
classifies exactly the `(N-1) × (N-1)` block of cells centered at the
interior lattice points; for the documented example (`N = 5`,
spacing 2) this gives `gridCellCount = 16` with `insideCells` the
contiguous block `[1, 4] × [1, 4]`. -/
theorem claim_C3_amended :
    rasterizeRegion (some regionSq) gridSq = some rasterSq ∧
      rasterSq.gridCellCount = 16 ∧
      rasterSq.insideCells = Finset.Icc (1 : ℤ) 4 ×ˢ Finset.Icc (1 : ℤ) 4 := by
  obtain ⟨-, -, -, -, -, hc, hi⟩ := rasterizeRegion_spec rasterSq_eq
  refine ⟨rasterSq_eq, ?_, ?_⟩
  · rw [hc, computeLargestComponentSq]
  · rw [hi, computeLargestComponentSq]

/-! ## C6: correctness of the flood-fill component analysis

The mathematical reading of "4-connected component": `Adj` is the
4-neighbour relation generated by `directions`, `insideCell` the
classified lattice points within the sampling bounds, `gridStep` one
flood-fill move between inside cells, and `Reaches` its
reflexive-transitive closure. -/

/-- 4-neighbour adjacency: exactly the moves of `directions`. -/
def Adj (c d : ℤ × ℤ) : Prop :=
  ∃ dir ∈ directions, d = (c.1 + dir.1, c.2 + dir.2)

/-- A lattice point within the sampling bounds that the classifier
accepts. -/
def insideCell (classify : ℤ × ℤ → Bool) (b : GridSampleBounds) (c : ℤ × ℤ) : Prop :=
  inSampleBounds b c = true ∧ classify c = true

/-- One flood-fill step between two adjacent inside cells. -/
def gridStep (classify : ℤ × ℤ → Bool) (b : GridSampleBounds) (u v : ℤ × ℤ) : Prop :=
  insideCell classify b u ∧ insideCell classify b v ∧ Adj u v

/-- 4-connected reachability through inside cells. -/
def Reaches (classify : ℤ × ℤ → Bool) (b : GridSampleBounds) : ℤ × ℤ → ℤ × ℤ → Prop :=
  Relation.ReflTransGen (gridStep classify b)

/-- Row-major order on lattice points (`gy` outer, `gx` inner). -/
def rmLt (c d : ℤ × ℤ) : Prop := c.2 < d.2 ∨ (c.2 = d.2 ∧ c.1 < d.1)

/-- The sampling lattice as a finite set. -/
def latticeFinset (b : GridSampleBounds) : Finset (ℤ × ℤ) :=
  Finset.Icc b.minX b.maxX ×ˢ Finset.Icc b.minY b.maxY

theorem mem_latticeFinset {b : GridSampleBounds} {c : ℤ × ℤ} :
    c ∈ latticeFinset b ↔ inSampleBounds b c = true := by
  simp [latticeFinset, inSampleBounds, Finset.mem_product, and_assoc]

theorem latticeFinset_card (b : GridSampleBounds) :
    (latticeFinset b).card = latticeWidth b * latticeHeight b := by
  rw [latticeFinset, Finset.card_product, Int.card_Icc, Int.card_Icc]
  unfold latticeWidth latticeHeight
  congr 1 <;> omega

theorem mem_latticeCells {b : GridSampleBounds} {c : ℤ × ℤ} :
    c ∈ latticeCells b ↔ inSampleBounds b c = true := by
  unfold latticeCells
  rw [List.mem_flatMap]
  constructor
  · rintro ⟨iy, hiy, hc2⟩
    obtain ⟨ix, hix, rfl⟩ := List.mem_map.mp hc2
    rw [List.mem_range] at hiy hix
    unfold latticeWidth at hix
    unfold latticeHeight at hiy
    simp only [inSampleBounds, Bool.and_eq_true, decide_eq_true_eq]
    omega
  · intro h
    simp only [inSampleBounds, Bool.and_eq_true, decide_eq_true_eq] at h
    refine ⟨(c.2 - b.minY).toNat, ?_, ?_⟩
    · rw [List.mem_range]
      unfold latticeHeight
      omega
    · rw [List.mem_map]
      refine ⟨(c.1 - b.minX).toNat, ?_, ?_⟩
      · rw [List.mem_range]
        unfold latticeWidth
        omega
      · rw [Prod.ext_iff]
        dsimp only
        constructor <;> omega

theorem adj_symm {c d : ℤ × ℤ} (h : Adj c d) : Adj d c := by
  obtain ⟨dir, hdir, rfl⟩ := h
  simp only [directions, List.mem_cons, List.not_mem_nil, or_false] at hdir
  rcases hdir with rfl | rfl | rfl | rfl
  · exact ⟨(-1, 0), by simp [directions], by simp⟩
  · exact ⟨(1, 0), by simp [directions], by simp⟩
  · exact ⟨(0, -1), by simp [directions], by simp⟩
  · exact ⟨(0, 1), by simp [directions], by simp⟩

theorem gridStep_symm {classify : ℤ × ℤ → Bool} {b : GridSampleBounds} :
    Symmetric (gridStep classify b) := by
  rintro u v ⟨hu, hv, ha⟩
  exact ⟨hv, hu, adj_symm ha⟩

theorem reaches_symm {classify : ℤ × ℤ → Bool} {b : GridSampleBounds} {c d : ℤ × ℤ}
    (h : Reaches classify b c d) : Reaches classify b d c :=
  (Relation.ReflTransGen.symmetric gridStep_symm) h

theorem reaches_trans {classify : ℤ × ℤ → Bool} {b : GridSampleBounds} {c d e : ℤ × ℤ}
    (h1 : Reaches classify b c d) (h2 : Reaches classify b d e) : Reaches classify b c e :=
  Relation.ReflTransGen.trans h1 h2

theorem reaches_inside {classify : ℤ × ℤ → Bool} {b : GridSampleBounds} {c d : ℤ × ℤ}
    (hc : insideCell classify b c) (h : Reaches classify b c d) :
    insideCell classify b d := by
  induction h with
  | refl => exact hc
  | tail _ hstep _ => exact hstep.2.1

/-- The row-major cell list is strictly increasing in `rmLt`. -/
theorem latticeCells_pairwise (b : GridSampleBounds) :
    (latticeCells b).Pairwise rmLt := by
  unfold latticeCells
  suffices h : ∀ n : ℕ, ((List.range n).flatMap (fun iy : ℕ =>
      (List.range (latticeWidth b)).map
        (fun ix : ℕ => ((b.minX + ix : ℤ), (b.minY + iy : ℤ))))).Pairwise rmLt from h _
  intro n
  induction n with
  | zero => simp
  | succ n ih =>
      rw [List.range_succ, List.flatMap_append, List.pairwise_append]
      refine ⟨ih, ?_, ?_⟩
      · simp only [List.flatMap_cons, List.flatMap_nil, List.append_nil]
        refine List.Pairwise.map _ ?_ (List.pairwise_lt_range (latticeWidth b))
        intro i j hij
        simp only [rmLt]
        right
        constructor
        · trivial
        · show (b.minX + (i : ℤ)) < b.minX + (j : ℤ)
          omega
      · intro p hp q hq
        obtain ⟨iy, hiy, hp2⟩ := List.mem_flatMap.mp hp
        obtain ⟨ix, hix, rfl⟩ := List.mem_map.mp hp2
        rw [List.mem_range] at hiy
        simp only [List.flatMap_cons, List.flatMap_nil, List.append_nil] at hq
        obtain ⟨jx, hjx, rfl⟩ := List.mem_map.mp hq
        simp only [rmLt]
        left
        show (b.minY + (iy : ℤ)) < b.minY + (n : ℤ)
        omega

/-- What one neighbour-processing pass rooted at `cell` may do to a BFS
state: it never pops, only grows `visited`/`comp`, only appends to the
queue, adds only in-bounds cells to `visited`, adds inside cells to
`visited` only by collecting them, collects only inside neighbours of
`cell`, keeps `comp` growth in lockstep with queue growth, and never
increases the termination measure `4·|lattice \ visited| + |queue|`. -/
def ExpandInv (classify : ℤ × ℤ → Bool) (b : GridSampleBounds) (cell : ℤ × ℤ)
    (s s' : BfsState) : Prop :=
  s'.pops = s.pops ∧
    s.visited ⊆ s'.visited ∧
    s.comp ⊆ s'.comp ∧
    (∀ q ∈ s'.queue, q ∈ s.queue ∨ q ∈ s'.comp) ∧
    (∃ ps, s'.queue = s.queue ++ ps) ∧
    (∀ v ∈ s'.visited, v ∈ s.visited ∨ inSampleBounds b v = true) ∧
    (∀ v ∈ s'.visited, insideCell classify b v → v ∈ s.visited ∨ v ∈ s'.comp) ∧
    (∀ u ∈ s'.comp, u ∈ s.comp ∨ (insideCell classify b u ∧ Adj cell u)) ∧
    (s'.comp.card + s.queue.length = s.comp.card + s'.queue.length) ∧
    (4 * ((latticeFinset b) \ s'.visited).card + s'.queue.length
      ≤ 4 * ((latticeFinset b) \ s.visited).card + s.queue.length) ∧
    (∀ u ∈ s'.comp, u ∈ s.comp ∨ u ∈ s'.queue)

theorem expandInv_refl {classify : ℤ × ℤ → Bool} {b : GridSampleBounds} {cell : ℤ × ℤ}
    {s : BfsState} : ExpandInv classify b cell s s :=
  ⟨rfl, Finset.Subset.refl _, Finset.Subset.refl _, fun q hq => Or.inl hq,
    ⟨[], (List.append_nil _).symm⟩, fun v hv => Or.inl hv, fun v hv _ => Or.inl hv,
    fun u hu => Or.inl hu, rfl, le_refl _, fun u hu => Or.inl hu⟩

theorem expandInv_trans {classify : ℤ × ℤ → Bool} {b : GridSampleBounds} {cell : ℤ × ℤ}
    {s t u : BfsState} (h1 : ExpandInv classify b cell s t)
    (h2 : ExpandInv classify b cell t u) : ExpandInv classify b cell s u := by
  obtain ⟨p1, v1, c1, q1, ⟨ps1, e1⟩, w1, i1, k1, n1, m1, r1⟩ := h1
  obtain ⟨p2, v2, c2, q2, ⟨ps2, e2⟩, w2, i2, k2, n2, m2, r2⟩ := h2
  refine ⟨p2.trans p1, v1.trans v2, c1.trans c2, ?_, ⟨ps1 ++ ps2, ?_⟩, ?_, ?_, ?_, ?_, ?_, ?_⟩
  · intro q hq
    rcases q2 q hq with h | h
    · rcases q1 q h with h' | h'
      · exact Or.inl h'
      · exact Or.inr (c2 h')
    · exact Or.inr h
  · rw [e2, e1, List.append_assoc]
  · intro v hv
    rcases w2 v hv with h | h
    · rcases w1 v h with h' | h'
      · exact Or.inl h'
      · exact Or.inr h'
    · exact Or.inr h
  · intro v hv hin
    rcases i2 v hv hin with h | h
    · rcases i1 v h hin with h' | h'
      · exact Or.inl h'
      · exact Or.inr (c2 h')
    · exact Or.inr h
  · intro x hx
    rcases k2 x hx with h | h
    · exact k1 x h
    · exact Or.inr h
  · omega
  · omega
  · intro u hu
    rcases r2 u hu with h | h
    · rcases r1 u h with h' | h'
      · exact Or.inl h'
      · refine Or.inr ?_
        rw [e2]
        exact List.mem_append.mpr (Or.inl h')
    · exact Or.inr h

theorem bfsVisit_expandInv {classify : ℤ × ℤ → Bool} {b : GridSampleBounds}
    {cell : ℤ × ℤ} {s : BfsState} {d : ℤ × ℤ} (hd : d ∈ directions)
    (hcv : s.comp ⊆ s.visited) :
    ExpandInv classify b cell s (bfsVisit classify b cell s d) ∧
      (bfsVisit classify b cell s d).comp ⊆ (bfsVisit classify b cell s d).visited := by
  simp only [bfsVisit]
  split_ifs with h1 h2 h3
  · exact ⟨expandInv_refl, hcv⟩
  · have hncomp : (cell.1 + d.1, cell.2 + d.2) ∉ s.comp := fun hmem => h2 (hcv hmem)
    have hnlat : (cell.1 + d.1, cell.2 + d.2) ∈ (latticeFinset b) \ s.visited :=
      Finset.mem_sdiff.mpr ⟨mem_latticeFinset.mpr h1, h2⟩
    constructor
    · refine ⟨rfl, Finset.subset_insert _ _, Finset.subset_insert _ _, ?_,
        ⟨[(cell.1 + d.1, cell.2 + d.2)], rfl⟩, ?_, ?_, ?_, ?_, ?_, ?_⟩
      · intro q hq
        rcases List.mem_append.mp hq with h | h
        · exact Or.inl h
        · rcases List.mem_singleton.mp h with rfl
          exact Or.inr (Finset.mem_insert_self _ _)
      · intro v hv
        rcases Finset.mem_insert.mp hv with rfl | h
        · exact Or.inr h1
        · exact Or.inl h
      · intro v hv hin
        rcases Finset.mem_insert.mp hv with rfl | h
        · exact Or.inr (Finset.mem_insert_self _ _)
        · exact Or.inl h
      · intro u hu
        rcases Finset.mem_insert.mp hu with rfl | h
        · exact Or.inr ⟨⟨h1, h3⟩, ⟨d, hd, rfl⟩⟩
        · exact Or.inl h
      · rw [Finset.card_insert_of_not_mem hncomp, List.length_append]
        simp only [List.length_singleton]
        omega
      · have herase : (latticeFinset b) \ insert (cell.1 + d.1, cell.2 + d.2) s.visited
            = ((latticeFinset b) \ s.visited).erase (cell.1 + d.1, cell.2 + d.2) := by
          ext a
          simp only [Finset.mem_sdiff, Finset.mem_insert, Finset.mem_erase]
          tauto
        rw [herase, Finset.card_erase_of_mem hnlat, List.length_append]
        have hpos : 0 < ((latticeFinset b) \ s.visited).card := Finset.card_pos.mpr ⟨_, hnlat⟩
        simp only [List.length_singleton]
        omega
      · intro u hu
        rcases Finset.mem_insert.mp hu with rfl | h
        · exact Or.inr (List.mem_append.mpr (Or.inr (List.mem_singleton.mpr rfl)))
        · exact Or.inl h
    · intro u hu
      rcases Finset.mem_insert.mp hu with rfl | h
      · exact Finset.mem_insert_self _ _
      · exact Finset.mem_insert_of_mem (hcv h)
  · constructor
    · refine ⟨rfl, Finset.subset_insert _ _, Finset.Subset.refl _, fun q hq => Or.inl hq,
        ⟨[], (List.append_nil _).symm⟩, ?_, ?_, fun u hu => Or.inl hu, rfl, ?_,
        fun u hu => Or.inl hu⟩
      · intro v hv
        rcases Finset.mem_insert.mp hv with rfl | h
        · exact Or.inr h1
        · exact Or.inl h
      · intro v hv hin
        rcases Finset.mem_insert.mp hv with rfl | h
        · exact absurd hin.2 h3
        · exact Or.inl h
      · dsimp only
        have hsub : (latticeFinset b) \ insert (cell.1 + d.1, cell.2 + d.2) s.visited
            ⊆ (latticeFinset b) \ s.visited :=
          Finset.sdiff_subset_sdiff (Finset.Subset.refl _) (Finset.subset_insert _ _)
        have := Finset.card_le_card hsub
        omega
    · exact hcv.trans (Finset.subset_insert _ _)
  · exact ⟨expandInv_refl, hcv⟩

theorem foldl_visit_expandInv {classify : ℤ × ℤ → Bool} {b : GridSampleBounds}
    {cell : ℤ × ℤ} :
    ∀ l : List (ℤ × ℤ), (∀ d ∈ l, d ∈ directions) → ∀ s : BfsState,
      s.comp ⊆ s.visited →
      ExpandInv classify b cell s (l.foldl (bfsVisit classify b cell) s) ∧
        (l.foldl (bfsVisit classify b cell) s).comp
          ⊆ (l.foldl (bfsVisit classify b cell) s).visited := by
  intro l
  induction l with
  | nil => exact fun _ s hcv => ⟨expandInv_refl, hcv⟩
  | cons d l ih =>
      intro hdir s hcv
      rw [List.foldl_cons]
      obtain ⟨h1, h2⟩ := bfsVisit_expandInv (hdir d (List.mem_cons_self d l)) hcv
      obtain ⟨h3, h4⟩ := ih (fun e he => hdir e (List.mem_cons_of_mem d he)) _ h2
      exact ⟨expandInv_trans h1 h3, h4⟩

theorem bfsExpand_expandInv {classify : ℤ × ℤ → Bool} {b : GridSampleBounds}
    {cell : ℤ × ℤ} {s : BfsState} (hcv : s.comp ⊆ s.visited) :
    ExpandInv classify b cell s (bfsExpand classify b cell s) ∧
      (bfsExpand classify b cell s).comp ⊆ (bfsExpand classify b cell s).visited :=
  foldl_visit_expandInv directions (fun _ hd => hd) s hcv

/-- After processing one cell's neighbours, every inside neighbour of
that cell is visited. -/
theorem bfsExpand_covers {classify : ℤ × ℤ → Bool} {b : GridSampleBounds}
    {cell : ℤ × ℤ} {s : BfsState} (hcv : s.comp ⊆ s.visited) :
    ∀ d ∈ directions, insideCell classify b (cell.1 + d.1, cell.2 + d.2) →
      (cell.1 + d.1, cell.2 + d.2) ∈ (bfsExpand classify b cell s).visited := by
  unfold bfsExpand
  suffices h : ∀ l : List (ℤ × ℤ), (∀ d ∈ l, d ∈ directions) → ∀ s : BfsState,
      s.comp ⊆ s.visited → ∀ d ∈ l, insideCell classify b (cell.1 + d.1, cell.2 + d.2) →
      (cell.1 + d.1, cell.2 + d.2) ∈ (l.foldl (bfsVisit classify b cell) s).visited by
    intro d hd hin
    exact h directions (fun _ he => he) s hcv d hd hin
  intro l
  induction l with
  | nil => intro _ _ _ d hd; exact absurd hd (List.not_mem_nil d)
  | cons e l ih =>
      intro hdir s hcv d hd hin
      rw [List.foldl_cons]
      have hstep := @bfsVisit_expandInv classify b cell s e
        (hdir e (List.mem_cons_self e l)) hcv
      rcases List.mem_cons.mp hd with rfl | hdl
      · have hvisited : (cell.1 + d.1, cell.2 + d.2) ∈ (bfsVisit classify b cell s d).visited := by
          simp only [bfsVisit]
          split_ifs with h1 h2 h3
          · exact h2
          · exact Finset.mem_insert_self _ _
          · exact Finset.mem_insert_self _ _
          · exact absurd hin.1 h1
        obtain ⟨hinv, -⟩ := @foldl_visit_expandInv classify b cell
          l (fun e he => hdir e (List.mem_cons_of_mem _ he)) _ hstep.2
        exact hinv.2.1 hvisited
      · exact ih (fun e he => hdir e (List.mem_cons_of_mem _ he)) _ hstep.2 d hdl hin

/-- Loop invariant of the BFS started at seed `c0` with pre-existing
visited set `V0`: queued cells are collected, collected cells are
reachable from the seed and visited, `V0` stays visited, newly visited
inside cells are collected, fully processed collected cells have all
their inside neighbours visited, and the pop counter plus the pending
queue length equals the component size. -/
def BfsInv (classify : ℤ × ℤ → Bool) (b : GridSampleBounds) (c0 : ℤ × ℤ)
    (V0 : Finset (ℤ × ℤ)) (s : BfsState) : Prop :=
  (∀ q ∈ s.queue, q ∈ s.comp) ∧
    (∀ u ∈ s.comp, Reaches classify b c0 u) ∧
    s.comp ⊆ s.visited ∧
    V0 ⊆ s.visited ∧
    (∀ v ∈ s.visited, insideCell classify b v → v ∈ V0 ∨ v ∈ s.comp) ∧
    (∀ u ∈ s.comp, u ∈ s.queue ∨ ∀ e, insideCell classify b e → Adj u e → e ∈ s.visited) ∧
    (s.pops + s.queue.length = s.comp.card)

theorem bfsStep_inv {classify : ℤ × ℤ → Bool} {b : GridSampleBounds} {c0 : ℤ × ℤ}
    {V0 : Finset (ℤ × ℤ)} (hc0 : insideCell classify b c0) {s : BfsState}
    {cell : ℤ × ℤ} {rest : List (ℤ × ℤ)} (hq : s.queue = cell :: rest)
    (hinv : BfsInv classify b c0 V0 s) :
    BfsInv classify b c0 V0
        (bfsExpand classify b cell { s with queue := rest, pops := s.pops + 1 }) ∧
      s.visited ⊆ (bfsExpand classify b cell { s with queue := rest, pops := s.pops + 1 }).visited ∧
      4 * ((latticeFinset b)
            \ (bfsExpand classify b cell { s with queue := rest, pops := s.pops + 1 }).visited).card
          + (bfsExpand classify b cell { s with queue := rest, pops := s.pops + 1 }).queue.length + 1
        ≤ 4 * ((latticeFinset b) \ s.visited).card + s.queue.length ∧
      s.comp ⊆ (bfsExpand classify b cell { s with queue := rest, pops := s.pops + 1 }).comp := by
  obtain ⟨j1, j2, j3, j4, j5, j6, j7⟩ := hinv
  have hcell_comp : cell ∈ s.comp := j1 cell (by rw [hq]; exact List.mem_cons_self _ _)
  have hcell_reach : Reaches classify b c0 cell := j2 cell hcell_comp
  have hcell_inside : insideCell classify b cell := reaches_inside hc0 hcell_reach
  have hcv : ({ s with queue := rest, pops := s.pops + 1 } : BfsState).comp
      ⊆ ({ s with queue := rest, pops := s.pops + 1 } : BfsState).visited := j3
  obtain ⟨hexp, hcv'⟩ := bfsExpand_expandInv hcv
  obtain ⟨e1, e2, e3, e4, ⟨ps, e5⟩, e6, e7, e8, e9, e10, e11⟩ := hexp
  set sM : BfsState := { s with queue := rest, pops := s.pops + 1 } with hsM
  set s' : BfsState := bfsExpand classify b cell sM with hs'
  have hcover : ∀ e, insideCell classify b e → Adj cell e → e ∈ s'.visited := by
    intro e hin hadj
    obtain ⟨d, hd, rfl⟩ := hadj
    exact bfsExpand_covers hcv d hd hin
  refine ⟨⟨?_, ?_, hcv', ?_, ?_, ?_, ?_⟩, ?_, ?_, ?_⟩
  · intro q hqm
    rcases e4 q hqm with h | h
    · exact e3 (j1 q (by rw [hq]; exact List.mem_cons_of_mem _ h))
    · exact h
  · intro u hu
    rcases e8 u hu with h | h
    · exact j2 u h
    · exact Relation.ReflTransGen.tail hcell_reach ⟨hcell_inside, h.1, h.2⟩
  · exact j4.trans e2
  · intro v hv hin
    rcases e7 v hv hin with h | h
    · rcases j5 v h hin with h' | h'
      · exact Or.inl h'
      · exact Or.inr (e3 h')
    · exact Or.inr h
  · intro u hu
    rcases e8 u hu with h | h
    · rcases j6 u h with h' | h'
      · rw [hq] at h'
        rcases List.mem_cons.mp h' with rfl | hrest
        · exact Or.inr hcover
        · refine Or.inl ?_
          rw [e5]
          exact List.mem_append.mpr (Or.inl hrest)
      · refine Or.inr ?_
        intro e hin hadj
        exact e2 (h' e hin hadj)
    · rcases e11 u hu with h' | h'
      · rcases j6 u h' with h'' | h''
        · rw [hq] at h''
          rcases List.mem_cons.mp h'' with rfl | hrest
          · exact Or.inr hcover
          · refine Or.inl ?_
            rw [e5]
            exact List.mem_append.mpr (Or.inl hrest)
        · refine Or.inr ?_
          intro e hin hadj
          exact e2 (h'' e hin hadj)
      · exact Or.inl h'
  · have hql : s.queue.length = rest.length + 1 := by rw [hq, List.length_cons]
    have he1 : s'.pops = s.pops + 1 := e1
    have he9 : s'.comp.card + rest.length = s.comp.card + s'.queue.length := e9
    omega
  · exact e2
  · have hql : s.queue.length = rest.length + 1 := by rw [hq, List.length_cons]
    have he10 : 4 * ((latticeFinset b) \ s'.visited).card + s'.queue.length
        ≤ 4 * ((latticeFinset b) \ s.visited).card + rest.length := e10
    omega
  · exact e3

/-- Running the BFS loop with fuel at least the termination measure
drains the queue and preserves the invariant. -/
theorem bfsRun_spec {classify : ℤ × ℤ → Bool} {b : GridSampleBounds} {c0 : ℤ × ℤ}
    {V0 : Finset (ℤ × ℤ)} (hc0 : insideCell classify b c0) :
    ∀ fuel (s : BfsState), BfsInv classify b c0 V0 s →
      4 * ((latticeFinset b) \ s.visited).card + s.queue.length ≤ fuel →
      (bfsRun classify b fuel s).queue = [] ∧
        BfsInv classify b c0 V0 (bfsRun classify b fuel s) ∧
        s.visited ⊆ (bfsRun classify b fuel s).visited ∧
        s.comp ⊆ (bfsRun classify b fuel s).comp := by
  intro fuel
  induction fuel with
  | zero =>
      intro s hinv hfuel
      have hqnil : s.queue = [] := by
        cases hq : s.queue with
        | nil => rfl
        | cons a t =>
            rw [hq, List.length_cons] at hfuel
            omega
      rw [bfsRun]
      exact ⟨hqnil, hinv, Finset.Subset.refl _, Finset.Subset.refl _⟩
  | succ fuel ih =>
      intro s hinv hfuel
      cases hq : s.queue with
      | nil =>
          simp only [bfsRun, hq]
          exact ⟨trivial, hinv, Finset.Subset.refl _, Finset.Subset.refl _⟩
      | cons cell rest =>
          simp only [bfsRun, hq]
          obtain ⟨hinv', hmono, hmeas, hcomp⟩ := bfsStep_inv hc0 hq hinv
          have hfuel' : 4 * ((latticeFinset b)
                \ (bfsExpand classify b cell { s with queue := rest, pops := s.pops + 1 }).visited).card
              + (bfsExpand classify b cell
                  { s with queue := rest, pops := s.pops + 1 }).queue.length ≤ fuel := by
            rw [hq, List.length_cons] at hfuel hmeas
            omega
          obtain ⟨hq', hinv'', hmono', hcomp'⟩ := ih _ hinv' hfuel'
          exact ⟨hq', hinv'', hmono.trans hmono', hcomp.trans hcomp'⟩

/-- Characterization of one seeded flood fill: started at a fresh
inside seed `c0` over a visited set `V0` whose inside cells are closed
under reachability, the BFS collects exactly the 4-connected component
of `c0`, counts one pop per collected cell, and only grows the visited
set. -/
theorem bfs_seed_spec {classify : ℤ × ℤ → Bool} {b : GridSampleBounds} {c0 : ℤ × ℤ}
    {V0 : Finset (ℤ × ℤ)} {r : BfsState}
    (hc0 : insideCell classify b c0) (hnv : c0 ∉ V0)
    (hclosed : ∀ v ∈ V0, insideCell classify b v →
      ∀ d, Reaches classify b v d → d ∈ V0)
    (hr : r = bfsRun classify b (bfsFuel b)
      { queue := [c0], visited := insert c0 V0, comp := {c0}, pops := 0 }) :
    (∀ u, u ∈ r.comp ↔ Reaches classify b c0 u) ∧
      r.pops = r.comp.card ∧
      insert c0 V0 ⊆ r.visited ∧
      (∀ v ∈ r.visited, insideCell classify b v → v ∈ V0 ∨ v ∈ r.comp) ∧
      r.comp ⊆ r.visited := by
  have hinv0 : BfsInv classify b c0 V0
      { queue := [c0], visited := insert c0 V0, comp := {c0}, pops := 0 } := by
    refine ⟨?_, ?_, ?_, Finset.subset_insert _ _, ?_, ?_, by simp⟩
    · intro q hq
      have := List.mem_singleton.mp hq
      subst this
      exact Finset.mem_singleton_self _
    · intro u hu
      rw [Finset.mem_singleton] at hu
      subst hu
      exact Relation.ReflTransGen.refl
    · intro u hu
      rw [Finset.mem_singleton] at hu
      subst hu
      exact Finset.mem_insert_self _ _
    · intro v hv hin
      rcases Finset.mem_insert.mp hv with rfl | h
      · exact Or.inr (Finset.mem_singleton_self _)
      · exact Or.inl h
    · intro u hu
      rw [Finset.mem_singleton] at hu
      subst hu
      exact Or.inl (List.mem_singleton.mpr rfl)
  have hfuel : 4 * ((latticeFinset b) \ (insert c0 V0)).card + 1 ≤ bfsFuel b := by
    have h1 : ((latticeFinset b) \ insert c0 V0).card ≤ (latticeFinset b).card :=
      Finset.card_le_card Finset.sdiff_subset
    rw [latticeFinset_card] at h1
    unfold bfsFuel
    omega
  obtain ⟨hqnil, hinvr, hmono, hcomp⟩ := bfsRun_spec hc0 (bfsFuel b)
    { queue := [c0], visited := insert c0 V0, comp := {c0}, pops := 0 } hinv0 hfuel
  rw [← hr] at hqnil hinvr hmono hcomp
  obtain ⟨j1, j2, j3, j4, j5, j6, j7⟩ := hinvr
  have hc0comp : c0 ∈ r.comp := hcomp (Finset.mem_singleton_self c0)
  refine ⟨?_, ?_, hmono, j5, j3⟩
  · intro u
    constructor
    · exact j2 u
    · intro hru
      induction hru with
      | refl => exact hc0comp
      | tail h1 h2 ih =>
          rename_i mid e
          have hclosure : ∀ x, insideCell classify b x → Adj mid x → x ∈ r.visited := by
            rcases j6 mid ih with h | h
            · rw [hqnil] at h
              exact absurd h (List.not_mem_nil _)
            · exact h
          have hvis : e ∈ r.visited := hclosure e h2.2.1 h2.2.2
          rcases j5 e hvis h2.2.1 with hV | hC
          · exact absurd (hclosed e hV h2.2.1 c0 (reaches_symm (h1.tail h2))) hnv
          · exact hC
  · have h7 := j7
    rw [hqnil] at h7
    simpa using h7

/-- Invariant of the row-major component scan after processing the
prefix `P` of the lattice list: inside cells of the visited set are
closed under reachability; any connected inside set touching the
visited set is no larger than the running best; the best's pop count,
size and cell count agree; the best is an inside, closed, connected
set meeting the processed prefix; and any other component tying the
best's size that touches the visited set lies entirely row-major-after
some best cell. -/
def SInv (classify : ℤ × ℤ → Bool) (b : GridSampleBounds) (P : List (ℤ × ℤ))
    (s : ScanState) : Prop :=
  (∀ v ∈ s.visited, insideCell classify b v →
    ∀ d, Reaches classify b v d → d ∈ s.visited) ∧
  (∀ t : Finset (ℤ × ℤ), (∀ x ∈ t, insideCell classify b x) →
    (∀ x ∈ t, ∀ y ∈ t, Reaches classify b x y) →
    (∃ x ∈ t, x ∈ s.visited) → t.card ≤ s.bestCount) ∧
  s.bestPops = s.bestCount ∧
  s.bestCount = s.bestComponent.card ∧
  (∀ x ∈ s.bestComponent, insideCell classify b x) ∧
  (∀ x ∈ s.bestComponent, ∀ d, Reaches classify b x d → d ∈ s.bestComponent) ∧
  (∀ x ∈ s.bestComponent, ∀ y ∈ s.bestComponent, Reaches classify b x y) ∧
  (∀ p ∈ P, p ∈ s.visited) ∧
  (s.bestComponent.Nonempty → ∃ x ∈ s.bestComponent, x ∈ P) ∧
  (∀ T : Finset (ℤ × ℤ), T.Nonempty → (∀ x ∈ T, insideCell classify b x) →
    (∀ x ∈ T, ∀ d, Reaches classify b x d → d ∈ T) →
    (∀ x ∈ T, ∀ y ∈ T, Reaches classify b x y) →
    (∃ x ∈ T, x ∈ s.visited) → T.card = s.bestCount → T ≠ s.bestComponent →
    ∃ x ∈ s.bestComponent, ∀ d ∈ T, rmLt x d)

/-- One scan iteration preserves the scan invariant, extending the
processed prefix by the scanned cell. -/
theorem scanStep_inv {classify : ℤ × ℤ → Bool} {b : GridSampleBounds}
    {P R' : List (ℤ × ℤ)} {c : ℤ × ℤ} {s : ScanState}
    (hsplit : latticeCells b = P ++ c :: R')
    (hinv : SInv classify b P s) :
    SInv classify b (P ++ [c]) (scanStep classify b s c) := by
  obtain ⟨s1, s2, s3, s4, s5, s6, s7, s8, s9, s10⟩ := hinv
  by_cases hcv : c ∈ s.visited
  · have hstep : scanStep classify b s c = s := by
      unfold scanStep
      rw [if_pos hcv]
    rw [hstep]
    refine ⟨s1, s2, s3, s4, s5, s6, s7, ?_, ?_, s10⟩
    · intro p hp
      rcases List.mem_append.mp hp with h | h
      · exact s8 p h
      · rw [List.mem_singleton] at h
        subst h
        exact hcv
    · intro hne
      obtain ⟨x, hx1, hx2⟩ := s9 hne
      exact ⟨x, hx1, List.mem_append.mpr (Or.inl hx2)⟩
  · by_cases hcl : classify c = true
    · -- fresh inside cell: a BFS is seeded at `c`
      have hcLat : c ∈ latticeCells b := by
        rw [hsplit]
        exact List.mem_append.mpr (Or.inr (List.mem_cons_self _ _))
      have hc0 : insideCell classify b c := ⟨mem_latticeCells.mp hcLat, hcl⟩
      set r : BfsState := bfsRun classify b (bfsFuel b)
        { queue := [c], visited := insert c s.visited, comp := {c}, pops := 0 } with hr
      obtain ⟨hiff, hpops, hmono, hnewvis, hcv'⟩ := bfs_seed_spec hc0 hcv s1 hr
      have hstep : scanStep classify b s c =
          { visited := r.visited
            bestCount := if r.comp.card > s.bestCount then r.comp.card else s.bestCount
            bestComponent := if r.comp.card > s.bestCount then r.comp else s.bestComponent
            bestPops := if r.pops > s.bestPops then r.pops else s.bestPops } := by
        unfold scanStep
        rw [if_neg hcv, if_neg (not_not_intro hcl), hr]
      have hC_inside : ∀ x ∈ r.comp, insideCell classify b x :=
        fun x hx => reaches_inside hc0 ((hiff x).mp hx)
      have hC_closed : ∀ x ∈ r.comp, ∀ d, Reaches classify b x d → d ∈ r.comp :=
        fun x hx d hd => (hiff d).mpr (reaches_trans ((hiff x).mp hx) hd)
      have hC_conn : ∀ x ∈ r.comp, ∀ y ∈ r.comp, Reaches classify b x y :=
        fun x hx y hy => reaches_trans (reaches_symm ((hiff x).mp hx)) ((hiff y).mp hy)
      have hc0C : c ∈ r.comp := (hiff c).mpr Relation.ReflTransGen.refl
      have hCdisj : ∀ d ∈ r.comp, d ∉ s.visited := by
        intro d hd hdv
        exact hcv (s1 d hdv (hC_inside d hd) c (reaches_symm ((hiff d).mp hd)))
      have hvis_old : s.visited ⊆ r.visited := (Finset.subset_insert _ _).trans hmono
      have hc_vis : c ∈ r.visited := hmono (Finset.mem_insert_self _ _)
      have hS1 : ∀ v ∈ r.visited, insideCell classify b v →
          ∀ d, Reaches classify b v d → d ∈ r.visited := by
        intro v hv hin d hd
        rcases hnewvis v hv hin with hV | hC
        · exact hvis_old (s1 v hV hin d hd)
        · exact hcv' (hC_closed v hC d hd)
      have hS8 : ∀ p ∈ P ++ [c], p ∈ r.visited := by
        intro p hp
        rcases List.mem_append.mp hp with h | h
        · exact hvis_old (s8 p h)
        · rw [List.mem_singleton] at h
          subst h
          exact hc_vis
      have hpair := latticeCells_pairwise b
      rw [hsplit] at hpair
      obtain ⟨-, -, hcross⟩ := List.pairwise_append.mp hpair
      by_cases himp : r.comp.card > s.bestCount
      · have hpimp : r.pops > s.bestPops := by
          rw [hpops, s3]
          exact himp
        rw [hstep, if_pos himp, if_pos himp, if_pos hpimp]
        refine ⟨hS1, ?_, hpops, rfl, hC_inside, hC_closed, hC_conn, hS8, ?_, ?_⟩
        · intro t ht_in ht_conn hx
          obtain ⟨x, hxt, hxv⟩ := hx
          rcases hnewvis x hxv (ht_in x hxt) with hV | hC
          · have h1 := s2 t ht_in ht_conn ⟨x, hxt, hV⟩
            dsimp only
            omega
          · have hsub : t ⊆ r.comp := fun y hy => hC_closed x hC y (ht_conn x hxt y hy)
            exact Finset.card_le_card hsub
        · intro _
          exact ⟨c, hc0C, List.mem_append.mpr (Or.inr (List.mem_singleton.mpr rfl))⟩
        · intro T hTne hT_in hT_closed hT_conn hx hTcard hTbest
          obtain ⟨x, hxT, hxv⟩ := hx
          rcases hnewvis x hxv (hT_in x hxT) with hV | hC
          · have h1 := s2 T hT_in hT_conn ⟨x, hxT, hV⟩
            dsimp only at hTcard
            omega
          · exact absurd (Finset.Subset.antisymm
              (fun y hy => hC_closed x hC y (hT_conn x hxT y hy))
              (fun d hd => hT_closed x hxT d (hC_conn x hC d hd))) hTbest
      · have hpimp : ¬ r.pops > s.bestPops := by
          rw [hpops, s3]
          exact himp
        rw [hstep, if_neg himp, if_neg himp, if_neg hpimp]
        refine ⟨hS1, ?_, s3, s4, s5, s6, s7, hS8, ?_, ?_⟩
        · intro t ht_in ht_conn hx
          obtain ⟨x, hxt, hxv⟩ := hx
          rcases hnewvis x hxv (ht_in x hxt) with hV | hC
          · exact s2 t ht_in ht_conn ⟨x, hxt, hV⟩
          · have hsub : t ⊆ r.comp := fun y hy => hC_closed x hC y (ht_conn x hxt y hy)
            have h1 := Finset.card_le_card hsub
            dsimp only
            omega
        · intro hne
          obtain ⟨x, hx1, hx2⟩ := s9 hne
          exact ⟨x, hx1, List.mem_append.mpr (Or.inl hx2)⟩
        · intro T hTne hT_in hT_closed hT_conn hx hTcard hTbest
          obtain ⟨x, hxT, hxv⟩ := hx
          rcases hnewvis x hxv (hT_in x hxT) with hV | hC
          · exact s10 T hTne hT_in hT_closed hT_conn ⟨x, hxT, hV⟩ hTcard hTbest
          · have hTC : T = r.comp := Finset.Subset.antisymm
              (fun y hy => hC_closed x hC y (hT_conn x hxT y hy))
              (fun d hd => hT_closed x hxT d (hC_conn x hC d hd))
            have hbc_ne : s.bestComponent.Nonempty := by
              rw [← Finset.card_pos, ← s4]
              have h1 := Finset.card_pos.mpr hTne
              dsimp only at hTcard
              omega
            obtain ⟨x0, hx0b, hx0P⟩ := s9 hbc_ne
            refine ⟨x0, hx0b, ?_⟩
            intro d hd
            rw [hTC] at hd
            have hd_lat : d ∈ latticeCells b := mem_latticeCells.mpr (hC_inside d hd).1
            rw [hsplit] at hd_lat
            rcases List.mem_append.mp hd_lat with hdP | hdR
            · exact absurd (s8 d hdP) (hCdisj d hd)
            · exact hcross x0 hx0P d hdR
    · -- fresh outside cell: only marked visited
      have hstep : scanStep classify b s c = { s with visited := insert c s.visited } := by
        unfold scanStep
        rw [if_neg hcv, if_pos hcl]
      rw [hstep]
      refine ⟨?_, ?_, s3, s4, s5, s6, s7, ?_, ?_, ?_⟩
      · intro v hv hin d hd
        rcases Finset.mem_insert.mp hv with rfl | hold
        · exact absurd hin.2 hcl
        · exact Finset.mem_insert_of_mem (s1 v hold hin d hd)
      · intro t ht_in ht_conn hx
        obtain ⟨x, hxt, hxv⟩ := hx
        rcases Finset.mem_insert.mp hxv with rfl | hold
        · exact absurd (ht_in x hxt).2 hcl
        · exact s2 t ht_in ht_conn ⟨x, hxt, hold⟩
      · intro p hp
        rcases List.mem_append.mp hp with h | h
        · exact Finset.mem_insert_of_mem (s8 p h)
        · rw [List.mem_singleton] at h
          subst h
          exact Finset.mem_insert_self _ _
      · intro hne
        obtain ⟨x, hx1, hx2⟩ := s9 hne
        exact ⟨x, hx1, List.mem_append.mpr (Or.inl hx2)⟩
      · intro T hTne hT_in hT_closed hT_conn hx h1 h2
        obtain ⟨x, hxT, hxv⟩ := hx
        rcases Finset.mem_insert.mp hxv with rfl | hold
        · exact absurd (hT_in x hxT).2 hcl
        · exact s10 T hTne hT_in hT_closed hT_conn ⟨x, hxT, hold⟩ h1 h2

/-- Folding the scan step over a suffix of the lattice list extends the
invariant's processed prefix accordingly. -/
theorem scan_fold_inv {classify : ℤ × ℤ → Bool} {b : GridSampleBounds} :
    ∀ (R P : List (ℤ × ℤ)) (s : ScanState), latticeCells b = P ++ R →
      SInv classify b P s →
      SInv classify b (P ++ R) (R.foldl (scanStep classify b) s) := by
  intro R
  induction R with
  | nil =>
      intro P s _ hinv
      simpa using hinv
  | cons c R' ih =>
      intro P s hsplit hinv
      rw [List.foldl_cons]
      have h1 : latticeCells b = (P ++ [c]) ++ R' := by
        rw [hsplit, List.append_assoc]
        rfl
      have h3 := ih (P ++ [c]) _ h1 (scanStep_inv hsplit hinv)
      rwa [List.append_assoc] at h3

/-- The complete row-major scan satisfies the scan invariant with the
whole lattice as processed prefix. -/
theorem scanComponents_spec (classify : ℤ × ℤ → Bool) (b : GridSampleBounds) :
    SInv classify b (latticeCells b) (scanComponents classify b) := by
  have h0 : SInv classify b []
      { visited := ∅, bestCount := 0, bestComponent := ∅, bestPops := 0 } := by
    refine ⟨?_, ?_, rfl, by simp, ?_, ?_, ?_, ?_, ?_, ?_⟩
    · intro v hv
      exact absurd hv (Finset.not_mem_empty v)
    · intro t _ _ hx
      obtain ⟨x, -, hxv⟩ := hx
      exact absurd hxv (Finset.not_mem_empty x)
    · intro x hx
      exact absurd hx (Finset.not_mem_empty x)
    · intro x hx
      exact absurd hx (Finset.not_mem_empty x)
    · intro x hx
      exact absurd hx (Finset.not_mem_empty x)
    · intro p hp
      exact absurd hp (List.not_mem_nil p)
    · intro hne
      exact absurd hne Finset.not_nonempty_empty
    · intro T _ _ _ _ hx
      obtain ⟨x, -, hxv⟩ := hx
      exact absurd hxv (Finset.not_mem_empty x)
  have h := scan_fold_inv (latticeCells b) []
    { visited := ∅, bestCount := 0, bestComponent := ∅, bestPops := 0 }
    (List.nil_append _).symm h0
  rw [List.nil_append] at h
  exact h

/-- The classifier `computeLargestComponent` scans with: the erosion
test at the lattice point `(gx * gridSpacing, gy * gridSpacing)`. -/
def rasterClassifier (raster : RasterResult) : ℤ × ℤ → Bool :=
  fun c => sampleRasterAtGridPoint raster
    { x := (c.1 : ℚ) * raster.gridSpacing, y := (c.2 : ℚ) * raster.gridSpacing } != 0

theorem computeLargestComponent_def (raster : RasterResult) :
    computeLargestComponent raster =
      ((scanComponents (rasterClassifier raster) raster.gridSampleBounds).bestComponent,
        (scanComponents (rasterClassifier raster) raster.gridSampleBounds).bestCount) := rfl

/-! ## C6: the two-block example

Two blocks of `2 × 2` grid cells (side `4 = 2 · spacing`) aligned to
the cell boundaries of the pose (cells are spacing-sized squares
centered at lattice points, so cell `(gx, gy)` covers
`[2gx - 1, 2gx + 1] × [2gy - 1, 2gy + 1]`), separated by two empty
cell columns. -/

/-- Two square rings: `[1, 5]²` and `[9, 13] × [1, 5]`. -/
def regionTwo : MultiPolygon :=
  [[[(1, 1), (5, 1), (5, 5), (1, 5)]], [[(9, 1), (13, 1), (13, 5), (9, 5)]]]

/-- Pose `{origin: (0,0), angle: 0, spacing: 2}`. -/
def gridTwo : GridState := { origin := { x := 0, y := 0 }, cosA := 1, sinA := 0, spacing := 2 }

theorem rasterTwo_isSome : (rasterizeRegion (some regionTwo) gridTwo).isSome = true := by
  decide

/-- The raster result of the two-block example. -/
def rasterTwo : RasterResult := (rasterizeRegion (some regionTwo) gridTwo).get rasterTwo_isSome

theorem rasterTwo_eq : rasterizeRegion (some regionTwo) gridTwo = some rasterTwo :=
  (Option.some_get rasterTwo_isSome).symm

theorem rasterTwo_spacing : rasterTwo.gridSpacing = 2 :=
  of_decide_eq_true (by with_unfolding_all rfl)

theorem rasterTwo_cellSize : rasterTwo.mask.cellSize = 1 / 4 :=
  of_decide_eq_true (by with_unfolding_all rfl)

theorem rasterTwo_originGrid : rasterTwo.mask.originGrid = { x := -(1 / 2), y := -(1 / 2) } :=
  of_decide_eq_true (by with_unfolding_all rfl)

theorem rasterTwo_width : rasterTwo.mask.width = 60 :=
  of_decide_eq_true (by with_unfolding_all rfl)

theorem rasterTwo_height : rasterTwo.mask.height = 28 :=
  of_decide_eq_true (by with_unfolding_all rfl)

theorem rasterTwo_bounds :
    rasterTwo.gridSampleBounds = { minX := -1, maxX := 8, minY := -1, maxY := 4 } :=
  of_decide_eq_true (by with_unfolding_all rfl)

theorem regionTwo_transform :
    transformRegionToGrid regionTwo gridTwo
      = [[[(1, 1), (5, 1), (5, 5), (1, 5)]], [[(9, 1), (13, 1), (13, 5), (9, 5)]]] :=
  of_decide_eq_true (by with_unfolding_all rfl)

theorem rasterTwo_originGrid_x : rasterTwo.mask.originGrid.x = -(1 / 2) := by
  rw [rasterTwo_originGrid]

theorem rasterTwo_originGrid_y : rasterTwo.mask.originGrid.y = -(1 / 2) := by
  rw [rasterTwo_originGrid]

/-- Even-odd membership in an axis-aligned rectangle ring: only the two
vertical edges can cross the horizontal ray, the right one iff
`y0 ≤ p.y < y1 ∧ p.x < x1` and the left one iff
`y0 ≤ p.y < y1 ∧ p.x < x0`, so the parity is odd exactly on
`[x0, x1) × [y0, y1)`. -/
theorem pointInRect {x0 x1 y0 y1 : ℚ} (hx : x0 < x1) (hy : y0 < y1) (p : ℚ × ℚ) :
    pointInPolygonEO p [[(x0, y0), (x1, y0), (x1, y1), (x0, y1)]]
      = decide (x0 ≤ p.1 ∧ p.1 < x1 ∧ y0 ≤ p.2 ∧ p.2 < y1) := by
  have hrange : List.range 4 = [0, 1, 2, 3] := rfl
  simp only [pointInPolygonEO, ringCrossings, List.foldl_cons, List.foldl_nil,
    List.length_cons, List.length_nil]
  norm_num [hrange, List.countP_cons, edgeCrosses]
  rcases le_or_lt x0 p.1 with hx0 | hx0 <;> rcases lt_or_le p.1 x1 with hx1 | hx1 <;>
    rcases le_or_lt y0 p.2 with hy0 | hy0 <;> rcases lt_or_le p.2 y1 with hy1 | hy1 <;>
    simp [hx0, hx1, hy0, hy1, not_lt.mpr, le_of_lt] <;>
    first
      | rfl
      | omega
      | (exfalso; linarith)

/-- Even-odd membership in the two-block region. -/
theorem pointInTwoRects (p : ℚ × ℚ) :
    pointInMultiPolygon p
        [[[(1, 1), (5, 1), (5, 5), (1, 5)]], [[(9, 1), (13, 1), (13, 5), (9, 5)]]]
      = decide ((1 ≤ p.1 ∧ p.1 < 5 ∧ 1 ≤ p.2 ∧ p.2 < 5)
          ∨ (9 ≤ p.1 ∧ p.1 < 13 ∧ 1 ≤ p.2 ∧ p.2 < 5)) := by
  simp only [pointInMultiPolygon, List.any_cons, List.any_nil, Bool.or_false]
  rw [pointInRect (by norm_num) (by norm_num) p, pointInRect (by norm_num) (by norm_num) p]
  simp

/-- One axis of the centroid test against `[1, 5)`: the centroid of
raster index `n` lies in `[1, 5)` iff `6 ≤ n ≤ 21`. -/
theorem centroidTwo_in1 (n : ℕ) :
    (1 ≤ -(1 / 2) + ((n : ℚ) + 1 / 2) * (1 / 4) ∧ -(1 / 2) + ((n : ℚ) + 1 / 2) * (1 / 4) < 5)
      ↔ (6 ≤ n ∧ n ≤ 21) := by
  constructor
  · rintro ⟨h1, h2⟩
    have c1 : (11 : ℚ) ≤ 2 * (n : ℚ) := by linarith
    have c2 : 2 * (n : ℚ) < 43 := by linarith
    have c1n : (11 : ℕ) ≤ 2 * n := by exact_mod_cast c1
    have c2n : 2 * n < 43 := by exact_mod_cast c2
    omega
  · rintro ⟨h1, h2⟩
    have c1 : (6 : ℚ) ≤ (n : ℚ) := by exact_mod_cast h1
    have c2 : (n : ℚ) ≤ 21 := by exact_mod_cast h2
    constructor <;> linarith

/-- One axis of the centroid test against `[9, 13)`: the centroid of
raster index `n` lies in `[9, 13)` iff `38 ≤ n ≤ 53`. -/
theorem centroidTwo_in2 (n : ℕ) :
    (9 ≤ -(1 / 2) + ((n : ℚ) + 1 / 2) * (1 / 4) ∧ -(1 / 2) + ((n : ℚ) + 1 / 2) * (1 / 4) < 13)
      ↔ (38 ≤ n ∧ n ≤ 53) := by
  constructor
  · rintro ⟨h1, h2⟩
    have c1 : (75 : ℚ) ≤ 2 * (n : ℚ) := by linarith
    have c2 : 2 * (n : ℚ) < 107 := by linarith
    have c1n : (75 : ℕ) ≤ 2 * n := by exact_mod_cast c1
    have c2n : 2 * n < 107 := by exact_mod_cast c2
    omega
  · rintro ⟨h1, h2⟩
    have c1 : (38 : ℚ) ≤ (n : ℚ) := by exact_mod_cast h1
    have c2 : (n : ℚ) ≤ 53 := by exact_mod_cast h2
    constructor <;> linarith

/-- Closed form of the two-block example's mask data: raster cell
`(x, y)` is occupied iff `x` lies in one of the bands `[6, 21]`,
`[38, 53]` and `y` in `[6, 21]`. -/
theorem dataTwo_closed (x y : ℕ) :
    rasterTwo.mask.data x y
      = decide (((6 ≤ x ∧ x ≤ 21) ∨ (38 ≤ x ∧ x ≤ 53)) ∧ (6 ≤ y ∧ y ≤ 21)) := by
  obtain ⟨-, -, -, -, hdata, -, -⟩ := rasterizeRegion_spec rasterTwo_eq
  rw [hdata]
  simp only [fillMaskWithCanvas]
  rw [rasterTwo_originGrid_x, rasterTwo_originGrid_y, rasterTwo_cellSize, regionTwo_transform,
    pointInTwoRects]
  rw [decide_eq_decide]
  dsimp only
  constructor
  · rintro (⟨a1, a2, a3, a4⟩ | ⟨a1, a2, a3, a4⟩)
    · exact ⟨Or.inl ((centroidTwo_in1 x).mp ⟨a1, a2⟩), (centroidTwo_in1 y).mp ⟨a3, a4⟩⟩
    · exact ⟨Or.inr ((centroidTwo_in2 x).mp ⟨a1, a2⟩), (centroidTwo_in1 y).mp ⟨a3, a4⟩⟩
  · rintro ⟨hb1 | hb2, hy⟩
    · obtain ⟨c1, c2⟩ := (centroidTwo_in1 x).mpr hb1
      obtain ⟨c3, c4⟩ := (centroidTwo_in1 y).mpr hy
      exact Or.inl ⟨c1, c2, c3, c4⟩
    · obtain ⟨c1, c2⟩ := (centroidTwo_in2 x).mpr hb2
      obtain ⟨c3, c4⟩ := (centroidTwo_in1 y).mpr hy
      exact Or.inr ⟨c1, c2, c3, c4⟩

theorem countTwo_row (y : ℕ) :
    ((Finset.range y).filter (fun r => 6 ≤ r ∧ r ≤ 21)).card = min y 22 - min y 6 := by
  have h : (Finset.range y).filter (fun r => 6 ≤ r ∧ r ≤ 21) = Finset.Ico 6 (min y 22) := by
    ext a
    simp only [Finset.mem_filter, Finset.mem_range, Finset.mem_Ico]
    omega
  rw [h, Nat.card_Ico]
  omega

theorem countTwo_col (x : ℕ) :
    ((Finset.range x).filter (fun c => (6 ≤ c ∧ c ≤ 21) ∨ (38 ≤ c ∧ c ≤ 53))).card
      = (min x 22 - min x 6) + (min x 54 - min x 38) := by
  have h : (Finset.range x).filter (fun c => (6 ≤ c ∧ c ≤ 21) ∨ (38 ≤ c ∧ c ≤ 53))
      = Finset.Ico 6 (min x 22) ∪ Finset.Ico 38 (min x 54) := by
    ext a
    simp only [Finset.mem_filter, Finset.mem_range, Finset.mem_union, Finset.mem_Ico]
    omega
  have hdisj : Disjoint (Finset.Ico 6 (min x 22)) (Finset.Ico 38 (min x 54)) := by
    rw [Finset.disjoint_left]
    intro a ha1 ha2
    rw [Finset.mem_Ico] at ha1 ha2
    omega
  rw [h, Finset.card_union_of_disjoint hdisj, Nat.card_Ico, Nat.card_Ico]
  omega

/-- Closed form of the two-block example's prefix-sum table. -/
theorem twoPrefix (y x : ℕ) :
    buildPrefixSum rasterTwo.mask.data y x
      = (min y 22 - min y 6) * ((min x 22 - min x 6) + (min x 54 - min x 38)) := by
  rw [prefix_identity]
  have hfilter : (Finset.range y ×ˢ Finset.range x).filter
        (fun rc => rasterTwo.mask.data rc.2 rc.1 = true)
      = ((Finset.range y).filter (fun r => 6 ≤ r ∧ r ≤ 21))
          ×ˢ ((Finset.range x).filter (fun c => (6 ≤ c ∧ c ≤ 21) ∨ (38 ≤ c ∧ c ≤ 53))) := by
    ext rc
    simp only [Finset.mem_filter, Finset.mem_product, Finset.mem_range, dataTwo_closed,
      decide_eq_true_eq]
    tauto
  rw [hfilter, Finset.card_product, countTwo_row, countTwo_col]

theorem erode_calcTwo_startX (r : RasterResult) (p : Vec2) (g : ℤ)
    (hcs : r.mask.cellSize = 1 / 4) (hog : r.mask.originGrid.x = -(1 / 2))
    (hsp : r.gridSpacing = 2) (hp : p.x = (g : ℚ) * 2) :
    erodeStartX r p = 8 * g - 2 := by
  unfold erodeStartX
  rw [hcs, hog, hsp, hp]
  have harg : ((g : ℚ) * 2 - 2 / 2 - -(1 / 2)) / (1 / 4) + erodeEps
      = ((8 * g - 2 : ℤ) : ℚ) + erodeEps := by
    push_cast
    ring
  rw [harg, floor_add_eps]

theorem erode_calcTwo_endX (r : RasterResult) (p : Vec2) (g : ℤ)
    (hcs : r.mask.cellSize = 1 / 4) (hog : r.mask.originGrid.x = -(1 / 2))
    (hsp : r.gridSpacing = 2) (hp : p.x = (g : ℚ) * 2) :
    erodeEndX r p = 8 * g + 5 := by
  unfold erodeEndX
  rw [hcs, hog, hsp, hp]
  have harg : ((g : ℚ) * 2 + 2 / 2 - -(1 / 2)) / (1 / 4) - erodeEps
      = ((8 * g + 6 : ℤ) : ℚ) - erodeEps := by
    push_cast
    ring
  rw [harg, ceil_sub_eps]
  ring

theorem erode_calcTwo_startY (r : RasterResult) (p : Vec2) (g : ℤ)
    (hcs : r.mask.cellSize = 1 / 4) (hog : r.mask.originGrid.y = -(1 / 2))
    (hsp : r.gridSpacing = 2) (hp : p.y = (g : ℚ) * 2) :
    erodeStartY r p = 8 * g - 2 := by
  unfold erodeStartY
  rw [hcs, hog, hsp, hp]
  have harg : ((g : ℚ) * 2 - 2 / 2 - -(1 / 2)) / (1 / 4) + erodeEps
      = ((8 * g - 2 : ℤ) : ℚ) + erodeEps := by
    push_cast
    ring
  rw [harg, floor_add_eps]

theorem erode_calcTwo_endY (r : RasterResult) (p : Vec2) (g : ℤ)
    (hcs : r.mask.cellSize = 1 / 4) (hog : r.mask.originGrid.y = -(1 / 2))
    (hsp : r.gridSpacing = 2) (hp : p.y = (g : ℚ) * 2) :
    erodeEndY r p = 8 * g + 5 := by
  unfold erodeEndY
  rw [hcs, hog, hsp, hp]
  have harg : ((g : ℚ) * 2 + 2 / 2 - -(1 / 2)) / (1 / 4) - erodeEps
      = ((8 * g + 6 : ℤ) : ℚ) - erodeEps := by
    push_cast
    ring
  rw [harg, ceil_sub_eps]
  ring

/-- Erosion classification of the two-block example at the lattice
point `(gx, gy)`: the spacing-2 footprint `[2gx - 1, 2gx + 1] ×
[2gy - 1, 2gy + 1]` is fully occupied iff `gx ∈ [1, 2] ∪ [5, 6]` and
`gy ∈ [1, 2]`. -/
theorem erodeTwo (gx gy : ℤ) :
    erodeGridCell rasterTwo
        { x := (gx : ℚ) * rasterTwo.gridSpacing, y := (gy : ℚ) * rasterTwo.gridSpacing }
      = decide (((1 ≤ gx ∧ gx ≤ 2) ∨ (5 ≤ gx ∧ gx ≤ 6)) ∧ (1 ≤ gy ∧ gy ≤ 2)) := by
  have hp : (⟨(gx : ℚ) * rasterTwo.gridSpacing, (gy : ℚ) * rasterTwo.gridSpacing⟩ : Vec2).x
      = (gx : ℚ) * 2 := by
    show (gx : ℚ) * rasterTwo.gridSpacing = (gx : ℚ) * 2
    rw [rasterTwo_spacing]
  have hq : (⟨(gx : ℚ) * rasterTwo.gridSpacing, (gy : ℚ) * rasterTwo.gridSpacing⟩ : Vec2).y
      = (gy : ℚ) * 2 := by
    show (gy : ℚ) * rasterTwo.gridSpacing = (gy : ℚ) * 2
    rw [rasterTwo_spacing]
  have hsx := erode_calcTwo_startX rasterTwo _ gx rasterTwo_cellSize rasterTwo_originGrid_x
    rasterTwo_spacing hp
  have hex := erode_calcTwo_endX rasterTwo _ gx rasterTwo_cellSize rasterTwo_originGrid_x
    rasterTwo_spacing hp
  have hsy := erode_calcTwo_startY rasterTwo _ gy rasterTwo_cellSize rasterTwo_originGrid_y
    rasterTwo_spacing hq
  have hey := erode_calcTwo_endY rasterTwo _ gy rasterTwo_cellSize rasterTwo_originGrid_y
    rasterTwo_spacing hq
  obtain ⟨hps, -, -, -, -, -, -⟩ := rasterizeRegion_spec rasterTwo_eq
  simp only [erodeGridCell]
  rw [hsx, hex, hsy, hey, rasterTwo_width, rasterTwo_height, hps]
  split_ifs with h1 h2
  · symm
    rw [decide_eq_false_iff_not]
    omega
  · exfalso
    omega
  · simp only [twoPrefix]
    rw [decide_eq_decide]
    have hgx1 : 1 ≤ gx := by omega
    have hgx6 : gx ≤ 6 := by omega
    have hgy1 : 1 ≤ gy := by omega
    have hgy2 : gy ≤ 2 := by omega
    interval_cases gx <;> interval_cases gy <;> decide

/-- The classifier that `computeLargestComponent` scans with, on the
two-block example: the two `2 × 2` lattice blocks. -/
theorem classifyTwo :
    (fun c : ℤ × ℤ => sampleRasterAtGridPoint rasterTwo
        { x := (c.1 : ℚ) * rasterTwo.gridSpacing, y := (c.2 : ℚ) * rasterTwo.gridSpacing } != 0)
      = fun c : ℤ × ℤ =>
          decide (((1 ≤ c.1 ∧ c.1 ≤ 2) ∨ (5 ≤ c.1 ∧ c.1 ≤ 6)) ∧ (1 ≤ c.2 ∧ c.2 ≤ 2)) := by
  funext c
  simp only [sampleRasterAtGridPoint, erodeTwo]
  by_cases h : ((1 ≤ c.1 ∧ c.1 ≤ 2) ∨ (5 ≤ c.1 ∧ c.1 ≤ 6)) ∧ (1 ≤ c.2 ∧ c.2 ≤ 2) <;> simp [h]

set_option maxRecDepth 1000000 in
set_option maxHeartbeats 2000000 in
/-- Full evaluation of the component analysis of the two-block example:
the two `2 × 2` blocks tie at size 4 and the row-major-first one,
`[1, 2] × [1, 2]`, is kept. -/
theorem computeLargestComponentTwo :
    computeLargestComponent rasterTwo
      = (Finset.Icc (1 : ℤ) 2 ×ˢ Finset.Icc (1 : ℤ) 2, 4) := by
  unfold computeLargestComponent
  rw [classifyTwo, rasterTwo_bounds]
  exact of_decide_eq_true (by with_unfolding_all rfl)

/-- C6: `computeLargestComponent` returns the size and exact cell set
of a maximum-size 4-connected component of erosion-inside lattice
points within `gridSampleBounds` (the returned count equals the
returned set's size; the set is inside, closed under reachability and
pairwise connected; no connected inside set is larger); when several
components tie at the maximal size, the one discovered first in
row-major scan order is returned (every tying other component lies
entirely row-major-after some returned cell); and for the two-block
example — two disjoint aligned blocks of `2 × 2` grid cells separated
by two empty cell columns — `gridCellCount` is `2 * 2`, not
`2 * (2 * 2)`. -/
theorem claim_C6 (raster : RasterResult) :
    ((computeLargestComponent raster).2 = (computeLargestComponent raster).1.card) ∧
    (∀ x ∈ (computeLargestComponent raster).1,
      insideCell (rasterClassifier raster) raster.gridSampleBounds x) ∧
    (∀ x ∈ (computeLargestComponent raster).1, ∀ y ∈ (computeLargestComponent raster).1,
      Reaches (rasterClassifier raster) raster.gridSampleBounds x y) ∧
    (∀ x ∈ (computeLargestComponent raster).1, ∀ d,
      Reaches (rasterClassifier raster) raster.gridSampleBounds x d →
        d ∈ (computeLargestComponent raster).1) ∧
    (∀ t : Finset (ℤ × ℤ),
      (∀ x ∈ t, insideCell (rasterClassifier raster) raster.gridSampleBounds x) →
      (∀ x ∈ t, ∀ y ∈ t, Reaches (rasterClassifier raster) raster.gridSampleBounds x y) →
      t.card ≤ (computeLargestComponent raster).2) ∧
    (∀ T : Finset (ℤ × ℤ), T.Nonempty →
      (∀ x ∈ T, insideCell (rasterClassifier raster) raster.gridSampleBounds x) →
      (∀ x ∈ T, ∀ d, Reaches (rasterClassifier raster) raster.gridSampleBounds x d → d ∈ T) →
      (∀ x ∈ T, ∀ y ∈ T, Reaches (rasterClassifier raster) raster.gridSampleBounds x y) →
      T.card = (computeLargestComponent raster).2 →
      T ≠ (computeLargestComponent raster).1 →
      ∃ x ∈ (computeLargestComponent raster).1, ∀ d ∈ T, rmLt x d) ∧
    (rasterizeRegion (some regionTwo) gridTwo = some rasterTwo ∧
      rasterTwo.gridCellCount = 2 * 2 ∧
      rasterTwo.gridCellCount ≠ 2 * (2 * 2) ∧
      rasterTwo.insideCells = Finset.Icc (1 : ℤ) 2 ×ˢ Finset.Icc (1 : ℤ) 2) := by
  obtain ⟨g1, g2, g3, g4, g5, g6, g7, g8, g9, g10⟩ :=
    scanComponents_spec (rasterClassifier raster) raster.gridSampleBounds
  rw [computeLargestComponent_def]
  dsimp only
  refine ⟨g4, g5, g7, g6, ?_, ?_, ?_⟩
  · intro t ht_in ht_conn
    rcases t.eq_empty_or_nonempty with rfl | hne
    · simp
    · obtain ⟨x, hx⟩ := hne
      exact g2 t ht_in ht_conn ⟨x, hx, g8 x (mem_latticeCells.mpr (ht_in x hx).1)⟩
  · intro T hTne hT_in hT_closed hT_conn hTcard hTbest
    obtain ⟨x, hx⟩ := hTne
    exact g10 T ⟨x, hx⟩ hT_in hT_closed hT_conn
      ⟨x, hx, g8 x (mem_latticeCells.mpr (hT_in x hx).1)⟩ hTcard hTbest
  · obtain ⟨-, -, -, -, -, hc, hi⟩ := rasterizeRegion_spec rasterTwo_eq
    refine ⟨rasterTwo_eq, ?_, ?_, ?_⟩
    · rw [hc, computeLargestComponentTwo]
    · rw [hc, computeLargestComponentTwo]
      decide
    · rw [hi, computeLargestComponentTwo]

/-! ## C7: candidate angle generation -/

theorem jsMod_bounds_nonneg {a m : ℚ} (hm : 0 < m) (ha : 0 ≤ a) :
    0 ≤ jsMod a m ∧ jsMod a m < m := by
  unfold jsMod jsTrunc
  rw [if_pos (div_nonneg ha hm.le)]
  have h1 : (⌊a / m⌋ : ℚ) * m ≤ a := (le_div_iff₀ hm).mp (Int.floor_le _)
  have h2 : a < ((⌊a / m⌋ : ℚ) + 1) * m := (div_lt_iff₀ hm).mp (Int.lt_floor_add_one _)
  constructor <;> nlinarith

theorem jsMod_bounds_neg {a m : ℚ} (hm : 0 < m) (ha : a < 0) :
    -m < jsMod a m ∧ jsMod a m ≤ 0 := by
  unfold jsMod jsTrunc
  rw [if_neg (not_le.mpr (div_neg_of_neg_of_pos ha hm))]
  have h1 : (⌊-a / m⌋ : ℚ) * m ≤ -a := (le_div_iff₀ hm).mp (Int.floor_le _)
  have h2 : -a < ((⌊-a / m⌋ : ℚ) + 1) * m := (div_lt_iff₀ hm).mp (Int.lt_floor_add_one _)
  rw [neg_div] at h1 h2
  push_cast
  constructor <;> nlinarith

theorem jsMod_eq_self {a m : ℚ} (hm : 0 < m) (h0 : 0 ≤ a) (h1 : a < m) : jsMod a m = a := by
  unfold jsMod jsTrunc
  rw [if_pos (div_nonneg h0 hm.le)]
  have h : ⌊a / m⌋ = 0 := by
    rw [Int.floor_eq_iff]
    exact ⟨by positivity, by push_cast; exact lt_of_lt_of_le ((div_lt_one hm).mpr h1) (by norm_num)⟩
  rw [h]
  push_cast
  ring

theorem jsMod_shift {a m : ℚ} (hm : 0 < m) (h0 : m ≤ a) (h1 : a < 2 * m) :
    jsMod a m = a - m := by
  unfold jsMod jsTrunc
  rw [if_pos (div_nonneg (le_trans hm.le h0) hm.le)]
  have h : ⌊a / m⌋ = 1 := by
    rw [Int.floor_eq_iff]
    constructor
    · push_cast
      rw [le_div_iff₀ hm]
      linarith
    · push_cast
      rw [div_lt_iff₀ hm]
      linarith
  rw [h]
  push_cast
  ring

theorem normalizeDeg_bounds (x : ℚ) : 0 ≤ normalizeDeg x ∧ normalizeDeg x < 90 := by
  unfold normalizeDeg
  have h90 : (0 : ℚ) < 90 := by norm_num
  have hs : -90 < jsMod x 90 ∧ jsMod x 90 < 90 := by
    rcases le_or_lt 0 x with hx | hx
    · obtain ⟨u, v⟩ := jsMod_bounds_nonneg h90 hx
      exact ⟨by linarith, v⟩
    · obtain ⟨u, v⟩ := jsMod_bounds_neg h90 hx
      exact ⟨u, by linarith⟩
  rcases lt_or_le (jsMod x 90 + 90) 90 with h | h
  · rw [jsMod_eq_self h90 (by linarith [hs.1]) h]
    exact ⟨by linarith [hs.1], h⟩
  · rw [jsMod_shift h90 h (by linarith [hs.2])]
    constructor <;> linarith [hs.2]

theorem normalizeDeg_id {x : ℚ} (h0 : 0 ≤ x) (h1 : x < 90) : normalizeDeg x = x := by
  unfold normalizeDeg
  rw [jsMod_eq_self (by norm_num) h0 h1,
    jsMod_shift (by norm_num) (by linarith) (by linarith)]
  ring

theorem normalizeDeg_shift {x : ℚ} (h0 : 90 ≤ x) (h1 : x < 180) :
    normalizeDeg x = x - 90 := by
  unfold normalizeDeg
  rw [jsMod_shift (by norm_num) h0 (by linarith),
    (show x - 90 + 90 = x by ring),
    jsMod_shift (by norm_num) h0 (by linarith)]

/-- A fold preserves any predicate its step preserves. -/
theorem foldl_preserve {α β : Type} (P : β → Prop) (g : β → α → β)
    (h : ∀ b a, P b → P (g b a)) : ∀ (l : List α) (b : β), P b → P (l.foldl g b) := by
  intro l
  induction l with
  | nil => exact fun b hb => hb
  | cons x l ih =>
      intro b hb
      exact ih _ (h b x hb)

/-- Every occupied bucket is an integer degree in `[0, 89]` (the
normalized direction is clamped below `89.9999` before flooring). -/
theorem computeEdgeHistogram_range (atan2deg : ℚ → ℚ → ℚ) (region : MultiPolygon) :
    ∀ b ∈ computeEdgeHistogram atan2deg region, 0 ≤ b ∧ b ≤ 89 := by
  have hfloor : ∀ y : ℚ,
      0 ≤ ⌊min (899999 / 10000 : ℚ) (normalizeDeg y) / ANGLE_BIN_RESOLUTION⌋ ∧
        ⌊min (899999 / 10000 : ℚ) (normalizeDeg y) / ANGLE_BIN_RESOLUTION⌋ ≤ 89 := by
    intro y
    obtain ⟨h0, h90⟩ := normalizeDeg_bounds y
    have hone : ANGLE_BIN_RESOLUTION = (1 : ℚ) := rfl
    rw [hone, div_one]
    constructor
    · exact Int.le_floor.mpr (by exact_mod_cast le_min (by norm_num) h0)
    · have h1 : min (899999 / 10000 : ℚ) (normalizeDeg y) ≤ 899999 / 10000 :=
        min_le_left _ _
      have h2 := Int.floor_le_floor h1
      have h3 : ⌊(899999 / 10000 : ℚ)⌋ = 89 := by
        rw [Int.floor_eq_iff]
        norm_num
      rw [h3] at h2
      exact h2
  unfold computeEdgeHistogram
  refine foldl_preserve (fun bins => ∀ b ∈ bins, 0 ≤ b ∧ b ≤ 89) _ ?_ region ∅ (by simp)
  intro bins polygon hb
  refine foldl_preserve (fun bins => ∀ b ∈ bins, 0 ≤ b ∧ b ≤ 89) _ ?_ polygon bins hb
  intro bins ring hb2
  refine foldl_preserve (fun bins => ∀ b ∈ bins, 0 ≤ b ∧ b ≤ 89) _ ?_ _ bins hb2
  intro bins i hb3
  dsimp only
  split_ifs with h
  · exact hb3
  · intro b hbmem
    rcases Finset.mem_insert.mp hbmem with rfl | hmem
    · exact hfloor _
    · exact hb3 b hmem

theorem mem_foldl_insert (f : ℕ → ℚ) :
    ∀ (l : List ℕ) (s : Finset ℚ) (x : ℚ),
      (x ∈ l.foldl (fun acc i => insert (f i) acc) s ↔ x ∈ s ∨ ∃ i ∈ l, x = f i) := by
  intro l
  induction l with
  | nil => simp
  | cons a l ih =>
      intro s x
      rw [List.foldl_cons, ih]
      simp only [Finset.mem_insert, List.mem_cons]
      constructor
      · rintro ((rfl | h) | ⟨i, hi, rfl⟩)
        · exact Or.inr ⟨a, Or.inl rfl, rfl⟩
        · exact Or.inl h
        · exact Or.inr ⟨i, Or.inr hi, rfl⟩
      · rintro (h | ⟨i, (rfl | hi), rfl⟩)
        · exact Or.inl (Or.inr h)
        · exact Or.inl (Or.inl rfl)
        · exact Or.inr ⟨i, hi, rfl⟩

theorem segNeeded_pos (s e : ℚ) : 0 < segNeeded s e := by
  unfold segNeeded
  exact lt_of_lt_of_le one_pos (le_max_left _ _)

theorem segNeeded_cast_pos (s e : ℚ) : (0 : ℚ) < ((segNeeded s e : ℤ) : ℚ) := by
  exact_mod_cast segNeeded_pos s e

theorem segStep_nonneg {s e : ℚ} (h : s ≤ e) : 0 ≤ segStep s e := by
  unfold segStep
  exact div_nonneg (by linarith) (segNeeded_cast_pos s e).le

theorem segStep_mul_needed (s e : ℚ) :
    segStep s e * ((segNeeded s e : ℤ) : ℚ) = e - s := by
  unfold segStep
  exact div_mul_cancel₀ _ (ne_of_gt (segNeeded_cast_pos s e))

theorem segStep_le_five {s e : ℚ} (h : s ≤ e) : segStep s e ≤ 5 := by
  have hpos := segNeeded_cast_pos s e
  have h1 : (e - s) / ROTATION_STEP_DEGREES
      ≤ ((⌈(e - s) / ROTATION_STEP_DEGREES⌉ : ℤ) : ℚ) := Int.le_ceil _
  have h2 : ⌈(e - s) / ROTATION_STEP_DEGREES⌉ ≤ segNeeded s e := le_max_right _ _
  have h2q : ((⌈(e - s) / ROTATION_STEP_DEGREES⌉ : ℤ) : ℚ) ≤ ((segNeeded s e : ℤ) : ℚ) := by
    exact_mod_cast h2
  have hrot : ROTATION_STEP_DEGREES = (5 : ℚ) := rfl
  rw [hrot] at h1 h2q
  unfold segStep
  rw [div_le_iff₀ hpos]
  nlinarith

theorem mem_addSegment {f : Finset ℚ} {s e x : ℚ} :
    x ∈ addSegment f s e ↔ x ∈ f ∨ ∃ i : ℕ,
      i < (segNeeded s e).toNat + 1 ∧ x = s + segStep s e * (i : ℚ) := by
  unfold addSegment
  rw [mem_foldl_insert]
  simp only [List.mem_range]

theorem addSegment_subset (f : Finset ℚ) (s e : ℚ) : f ⊆ addSegment f s e := by
  intro x hx
  rw [mem_addSegment]
  exact Or.inl hx

theorem start_mem_addSegment (f : Finset ℚ) (s e : ℚ) : s ∈ addSegment f s e := by
  rw [mem_addSegment]
  refine Or.inr ⟨0, by omega, ?_⟩
  push_cast
  ring

theorem stop_mem_addSegment (f : Finset ℚ) (s e : ℚ) : e ∈ addSegment f s e := by
  rw [mem_addSegment]
  refine Or.inr ⟨(segNeeded s e).toNat, by omega, ?_⟩
  have hcast : (((segNeeded s e).toNat : ℕ) : ℚ) = ((segNeeded s e : ℤ) : ℚ) := by
    exact_mod_cast Int.toNat_of_nonneg (segNeeded_pos s e).le
  rw [hcast, segStep_mul_needed]
  ring

theorem addSegment_range {f : Finset ℚ} {s e : ℚ} (h : s ≤ e) :
    ∀ x ∈ addSegment f s e, x ∈ f ∨ (s ≤ x ∧ x ≤ e) := by
  intro x hx
  rcases mem_addSegment.mp hx with hf | ⟨i, hi, rfl⟩
  · exact Or.inl hf
  · refine Or.inr ⟨?_, ?_⟩
    · have h1 : (0 : ℚ) ≤ segStep s e * (i : ℚ) :=
        mul_nonneg (segStep_nonneg h) (Nat.cast_nonneg i)
      linarith
    · have hle : (i : ℚ) ≤ ((segNeeded s e : ℤ) : ℚ) := by
        have h1 : (i : ℚ) ≤ (((segNeeded s e).toNat : ℕ) : ℚ) := by
          exact_mod_cast Nat.lt_succ_iff.mp hi
        have h2 : (((segNeeded s e).toNat : ℕ) : ℚ) = ((segNeeded s e : ℤ) : ℚ) := by
          exact_mod_cast Int.toNat_of_nonneg (segNeeded_pos s e).le
        rw [h2] at h1
        exact h1
      have h3 : segStep s e * (i : ℚ) ≤ segStep s e * ((segNeeded s e : ℤ) : ℚ) :=
        mul_le_mul_of_nonneg_left hle (segStep_nonneg h)
      rw [segStep_mul_needed] at h3
      linarith

theorem addSegment_bracket {f : Finset ℚ} {s e : ℚ} (h : s ≤ e) (t : ℚ)
    (ht1 : s ≤ t) (ht2 : t ≤ e) :
    ∃ a ∈ addSegment f s e, ∃ b ∈ addSegment f s e, a ≤ t ∧ t ≤ b ∧ b - a ≤ 5 := by
  rcases eq_or_lt_of_le h with rfl | hlt
  · have ht : t = s := le_antisymm ht2 ht1
    subst ht
    exact ⟨t, start_mem_addSegment f t t, t, start_mem_addSegment f t t,
      le_refl t, le_refl t, by norm_num⟩
  · have hstep_pos : 0 < segStep s e := by
      unfold segStep
      exact div_pos (by linarith) (segNeeded_cast_pos s e)
    set k : ℤ := ⌊(t - s) / segStep s e⌋ with hk
    have hk0 : 0 ≤ k := Int.floor_nonneg.mpr (div_nonneg (by linarith) hstep_pos.le)
    have hcast : ((k.toNat : ℕ) : ℚ) = (k : ℚ) := by
      exact_mod_cast Int.toNat_of_nonneg hk0
    rcases lt_or_le k (segNeeded s e) with hkn | hkn
    · have hmem_a : s + segStep s e * ((k.toNat : ℕ) : ℚ) ∈ addSegment f s e := by
        rw [mem_addSegment]
        exact Or.inr ⟨k.toNat, by omega, rfl⟩
      have hmem_b : s + segStep s e * (((k.toNat + 1 : ℕ) : ℕ) : ℚ) ∈ addSegment f s e := by
        rw [mem_addSegment]
        exact Or.inr ⟨k.toNat + 1, by omega, rfl⟩
      have hfl : (k : ℚ) * segStep s e ≤ t - s :=
        (le_div_iff₀ hstep_pos).mp (Int.floor_le _)
      have hfu : t - s < ((k : ℚ) + 1) * segStep s e :=
        (div_lt_iff₀ hstep_pos).mp (Int.lt_floor_add_one _)
      refine ⟨_, hmem_a, _, hmem_b, ?_, ?_, ?_⟩
      · rw [hcast]
        nlinarith
      · rw [Nat.cast_add, Nat.cast_one, hcast]
        nlinarith
      · rw [Nat.cast_add, Nat.cast_one, hcast]
        have h5 := segStep_le_five h
        nlinarith
    · have he_le : e ≤ t := by
        have h1 : ((segNeeded s e : ℤ) : ℚ) ≤ (k : ℚ) := by exact_mod_cast hkn
        have h2 : (k : ℚ) ≤ (t - s) / segStep s e := Int.floor_le _
        have h3 : ((segNeeded s e : ℤ) : ℚ) * segStep s e ≤ t - s := by
          rw [← le_div_iff₀ hstep_pos] at *
          linarith
        have h4 := segStep_mul_needed s e
        nlinarith
      have ht : t = e := le_antisymm ht2 he_le
      subst ht
      exact ⟨t, stop_mem_addSegment f s t, t, stop_mem_addSegment f s t,
        le_refl t, le_refl t, by norm_num⟩

/-- Specification of the circular walk over a sorted bucket list `l`
with entries in `[0, 89]`: every filled value lies in
`[l₀, l₀ + 90]`, every bucket value is filled, and every point of
`[l₀, l₀ + 90]` is bracketed by two filled values at most 5 apart. -/
theorem walk_fold_spec (l : List ℤ) (hne : l ≠ [])
    (hsorted : l.Sorted (· ≤ ·))
    (hrange : ∀ j < l.length, 0 ≤ l.getD j 0 ∧ l.getD j 0 ≤ 89) :
    (∀ p ∈ (List.range l.length).foldl
        (fun f i => addSegment f ((l.getD i 0 : ℤ) : ℚ) (segEnd l i)) ∅,
      ((l.getD 0 0 : ℤ) : ℚ) ≤ p ∧ p ≤ ((l.getD 0 0 : ℤ) : ℚ) + 90) ∧
    (∀ j < l.length, ((l.getD j 0 : ℤ) : ℚ) ∈ (List.range l.length).foldl
        (fun f i => addSegment f ((l.getD i 0 : ℤ) : ℚ) (segEnd l i)) ∅) ∧
    (∀ t : ℚ, ((l.getD 0 0 : ℤ) : ℚ) ≤ t → t ≤ ((l.getD 0 0 : ℤ) : ℚ) + 90 →
      ∃ a ∈ (List.range l.length).foldl
          (fun f i => addSegment f ((l.getD i 0 : ℤ) : ℚ) (segEnd l i)) ∅,
        ∃ b ∈ (List.range l.length).foldl
          (fun f i => addSegment f ((l.getD i 0 : ℤ) : ℚ) (segEnd l i)) ∅,
          a ≤ t ∧ t ≤ b ∧ b - a ≤ 5) := by
  have hm : 0 < l.length := List.length_pos.mpr hne
  have hmono : ∀ i j, i ≤ j → j < l.length → l.getD i 0 ≤ l.getD j 0 := by
    intro i j hij hj
    rcases eq_or_lt_of_le hij with rfl | hlt
    · exact le_refl _
    · have h := List.pairwise_iff_get.mp hsorted ⟨i, lt_trans hlt hj⟩ ⟨j, hj⟩ hlt
      rw [List.getD_eq_getElem l 0 (lt_trans hlt hj), List.getD_eq_getElem l 0 hj]
      exact h
  have hseg : ∀ n, n < l.length →
      (((l.getD 0 0 : ℤ) : ℚ) ≤ ((l.getD n 0 : ℤ) : ℚ) ∧
        ((l.getD n 0 : ℤ) : ℚ) ≤ segEnd l n ∧
        segEnd l n ≤ ((l.getD 0 0 : ℤ) : ℚ) + 90) := by
    intro n hn
    have h0n : ((l.getD 0 0 : ℤ) : ℚ) ≤ ((l.getD n 0 : ℤ) : ℚ) := by
      exact_mod_cast hmono 0 n (Nat.zero_le n) hn
    have hq0 : (0 : ℚ) ≤ ((l.getD 0 0 : ℤ) : ℚ) := by exact_mod_cast (hrange 0 hm).1
    have hqn : ((l.getD n 0 : ℤ) : ℚ) ≤ 89 := by exact_mod_cast (hrange n hn).2
    unfold segEnd
    split_ifs with hlast
    · exact ⟨h0n, by linarith, by linarith⟩
    · have hn1 : n + 1 < l.length := by omega
      have hstepm : ((l.getD n 0 : ℤ) : ℚ) ≤ ((l.getD (n + 1) 0 : ℤ) : ℚ) := by
        exact_mod_cast hmono n (n + 1) (Nat.le_succ n) hn1
      have hq1 : ((l.getD (n + 1) 0 : ℤ) : ℚ) ≤ 89 := by
        exact_mod_cast (hrange (n + 1) hn1).2
      exact ⟨h0n, hstepm, by linarith⟩
  suffices main : ∀ n, n ≤ l.length →
      (∀ p ∈ (List.range n).foldl
          (fun f i => addSegment f ((l.getD i 0 : ℤ) : ℚ) (segEnd l i)) ∅,
        ((l.getD 0 0 : ℤ) : ℚ) ≤ p ∧ p ≤ ((l.getD 0 0 : ℤ) : ℚ) + 90) ∧
      (∀ j < n, ((l.getD j 0 : ℤ) : ℚ) ∈ (List.range n).foldl
          (fun f i => addSegment f ((l.getD i 0 : ℤ) : ℚ) (segEnd l i)) ∅) ∧
      (0 < n → ∀ t : ℚ, ((l.getD 0 0 : ℤ) : ℚ) ≤ t → t ≤ segEnd l (n - 1) →
        ∃ a ∈ (List.range n).foldl
            (fun f i => addSegment f ((l.getD i 0 : ℤ) : ℚ) (segEnd l i)) ∅,
          ∃ b ∈ (List.range n).foldl
            (fun f i => addSegment f ((l.getD i 0 : ℤ) : ℚ) (segEnd l i)) ∅,
            a ≤ t ∧ t ≤ b ∧ b - a ≤ 5) by
    obtain ⟨c1, c2, c3⟩ := main l.length le_rfl
    refine ⟨c1, c2, ?_⟩
    intro t h1 h2
    refine c3 hm t h1 ?_
    have hlast : segEnd l (l.length - 1) = ((l.getD 0 0 : ℤ) : ℚ) + 90 := by
      unfold segEnd
      rw [if_pos rfl]
    rw [hlast]
    exact h2
  intro n
  induction n with
  | zero =>
      intro _
      refine ⟨?_, ?_, ?_⟩
      · intro p hp
        simp only [List.range_zero, List.foldl_nil] at hp
        exact absurd hp (Finset.not_mem_empty p)
      · intro j hj
        omega
      · intro h0
        omega
  | succ n ih =>
      intro hn1
      have hn : n < l.length := hn1
      obtain ⟨ih1, ih2, ih3⟩ := ih (le_of_lt hn)
      obtain ⟨hs0, hse, hsE⟩ := hseg n hn
      have hFsucc : (List.range (n + 1)).foldl
            (fun f i => addSegment f ((l.getD i 0 : ℤ) : ℚ) (segEnd l i)) ∅
          = addSegment ((List.range n).foldl
              (fun f i => addSegment f ((l.getD i 0 : ℤ) : ℚ) (segEnd l i)) ∅)
              ((l.getD n 0 : ℤ) : ℚ) (segEnd l n) := by
        rw [List.range_succ, List.foldl_append, List.foldl_cons, List.foldl_nil]
      refine ⟨?_, ?_, ?_⟩
      · intro p hp
        rw [hFsucc] at hp
        rcases addSegment_range hse p hp with hold | ⟨hp1, hp2⟩
        · exact ih1 p hold
        · exact ⟨le_trans hs0 hp1, le_trans hp2 hsE⟩
      · intro j hj
        rw [hFsucc]
        rcases Nat.lt_succ_iff_lt_or_eq.mp hj with hjn | rfl
        · exact addSegment_subset _ _ _ (ih2 j hjn)
        · exact start_mem_addSegment _ _ _
      · intro _ t ht0 hte
        have hte' : t ≤ segEnd l n := by
          have : n + 1 - 1 = n := by omega
          rw [this] at hte
          exact hte
        rcases lt_or_le t ((l.getD n 0 : ℤ) : ℚ) with hts | hts
        · have hn0 : 0 < n := by
            rcases Nat.eq_zero_or_pos n with rfl | h
            · exact absurd ht0 (not_le.mpr hts)
            · exact h
          have hcont : segEnd l (n - 1) = ((l.getD n 0 : ℤ) : ℚ) := by
            unfold segEnd
            rw [if_neg (by omega : ¬(n - 1 = l.length - 1))]
            have h : n - 1 + 1 = n := by omega
            rw [h]
          obtain ⟨a, ha, b, hb, hab⟩ := ih3 hn0 t ht0 (by rw [hcont]; exact hts.le)
          rw [hFsucc]
          exact ⟨a, addSegment_subset _ _ _ ha, b, addSegment_subset _ _ _ hb, hab⟩
        · rw [hFsucc]
          exact addSegment_bracket hse t hts hte'

theorem walkFilled_eq (A : ℚ → ℚ → ℚ) (r : MultiPolygon) :
    walkFilled A r = (List.range (occList A r).length).foldl
      (fun f i => addSegment f (((occList A r).getD i 0 : ℤ) : ℚ)
        (segEnd (occList A r) i)) ∅ := rfl

theorem occList_sorted (A : ℚ → ℚ → ℚ) (r : MultiPolygon) :
    (occList A r).Sorted (· ≤ ·) :=
  Finset.sort_sorted _ _

theorem occList_range (A : ℚ → ℚ → ℚ) (r : MultiPolygon) :
    ∀ j < (occList A r).length,
      0 ≤ (occList A r).getD j 0 ∧ (occList A r).getD j 0 ≤ 89 := by
  intro j hj
  have hmem : (occList A r).getD j 0 ∈ occList A r := by
    rw [List.getD_eq_getElem _ 0 hj]
    exact List.getElem_mem hj
  unfold occList at hmem
  rw [Finset.mem_sort] at hmem
  exact computeEdgeHistogram_range A r _ hmem

/-- Every normalized candidate lies in `[0°, 90°)`. -/
theorem cand_bounds (A : ℚ → ℚ → ℚ) (r : MultiPolygon) :
    ∀ a ∈ (walkFilled A r).image normalizeDeg, 0 ≤ a ∧ a < 90 := by
  intro a ha
  obtain ⟨p, -, rfl⟩ := Finset.mem_image.mp ha
  exact normalizeDeg_bounds p

/-- Every occupied bucket value survives into the normalized candidate
set (it starts its own walk segment, and normalization fixes it). -/
theorem cand_occ_mem (A : ℚ → ℚ → ℚ) (r : MultiPolygon) :
    ∀ b ∈ computeEdgeHistogram A r,
      ((b : ℤ) : ℚ) ∈ (walkFilled A r).image normalizeDeg := by
  intro b hb
  have hbl : b ∈ occList A r := by
    unfold occList
    rw [Finset.mem_sort]
    exact hb
  have hne : occList A r ≠ [] := List.ne_nil_of_mem hbl
  obtain ⟨j, hj⟩ := List.mem_iff_get.mp hbl
  have hjd : (occList A r).getD j 0 = b := by
    rw [List.getD_eq_getElem _ 0 j.isLt]
    exact hj
  obtain ⟨-, F2, -⟩ := walk_fold_spec (occList A r) hne (occList_sorted A r) (occList_range A r)
  have hbw : ((b : ℤ) : ℚ) ∈ walkFilled A r := by
    rw [walkFilled_eq]
    have := F2 j j.isLt
    rw [hjd] at this
    exact this
  obtain ⟨hb0, hb89⟩ := computeEdgeHistogram_range A r b hb
  refine Finset.mem_image.mpr ⟨_, hbw, ?_⟩
  exact normalizeDeg_id (by exact_mod_cast hb0) (by exact_mod_cast lt_of_le_of_lt hb89 (by norm_num))

/-- No gap wider than 5° between circularly adjacent candidates: the
interior case (two candidates with nothing in between). -/
theorem cand_gap (A : ℚ → ℚ → ℚ) (r : MultiPolygon) (hne : occList A r ≠ [])
    {u v : ℚ} (hu : u ∈ (walkFilled A r).image normalizeDeg)
    (hv : v ∈ (walkFilled A r).image normalizeDeg) (huv : u < v)
    (hbet : ∀ w ∈ (walkFilled A r).image normalizeDeg, ¬(u < w ∧ w < v)) :
    v - u ≤ 5 := by
  by_contra hgap
  push_neg at hgap
  obtain ⟨hu0, hu90⟩ := cand_bounds A r u hu
  obtain ⟨hv0, hv90⟩ := cand_bounds A r v hv
  obtain ⟨F1, F2, F3⟩ := walk_fold_spec (occList A r) hne (occList_sorted A r) (occList_range A r)
  rw [← walkFilled_eq] at F1 F2 F3
  have hm : 0 < (occList A r).length := List.length_pos.mpr hne
  have hocc0 : (0 : ℚ) ≤ (((occList A r).getD 0 0 : ℤ) : ℚ) := by
    exact_mod_cast (occList_range A r 0 hm).1
  have hocc89 : (((occList A r).getD 0 0 : ℤ) : ℚ) ≤ 89 := by
    exact_mod_cast (occList_range A r 0 hm).2
  rcases le_or_lt (((occList A r).getD 0 0 : ℤ) : ℚ) (u + 5) with hlift | hlift
  · obtain ⟨a, ha, b, hb, hat, htb, hba⟩ := F3 (u + 5) hlift (by linarith)
    obtain ⟨ha1, ha2⟩ := F1 a ha
    obtain ⟨hb1, hb2⟩ := F1 b hb
    have haN : a ∈ (walkFilled A r).image normalizeDeg :=
      Finset.mem_image.mpr ⟨a, ha, normalizeDeg_id (by linarith) (by linarith)⟩
    have haeq : a = u := by
      by_contra hcon
      have h1 : u < a := by
        rcases lt_or_le u a with h | h
        · exact h
        · exact absurd (le_antisymm h (by linarith)) hcon
      exact hbet a haN ⟨h1, by linarith⟩
    have hbx : b = u + 5 := by linarith
    have hbN : b ∈ (walkFilled A r).image normalizeDeg :=
      Finset.mem_image.mpr ⟨b, hb, normalizeDeg_id (by linarith) (by linarith)⟩
    exact hbet b hbN ⟨by linarith, by linarith⟩
  · obtain ⟨a, ha, b, hb, hat, htb, hba⟩ := F3 (u + 5 + 90) (by linarith) (by linarith)
    obtain ⟨ha1, ha2⟩ := F1 a ha
    obtain ⟨hb1, hb2⟩ := F1 b hb
    have ha90 : 90 ≤ a := by linarith
    have haN : a - 90 ∈ (walkFilled A r).image normalizeDeg :=
      Finset.mem_image.mpr ⟨a, ha, normalizeDeg_shift ha90 (by linarith)⟩
    have haeq : a - 90 = u := by
      by_contra hcon
      have h1 : u < a - 90 := by
        rcases lt_or_le u (a - 90) with h | h
        · exact h
        · exact absurd (le_antisymm h (by linarith)) hcon
      exact hbet (a - 90) haN ⟨h1, by linarith⟩
    have hb90 : 90 ≤ b := by linarith
    have hbN : b - 90 ∈ (walkFilled A r).image normalizeDeg :=
      Finset.mem_image.mpr ⟨b, hb, normalizeDeg_shift hb90 (by linarith)⟩
    exact hbet (b - 90) hbN ⟨by linarith, by linarith⟩

/-- No gap wider than 5° between circularly adjacent candidates: the
wrap-around case (from the largest candidate through 90° ≡ 0° to the
smallest). -/
theorem cand_wrap (A : ℚ → ℚ → ℚ) (r : MultiPolygon) (hne : occList A r ≠ [])
    {u v : ℚ} (hu : u ∈ (walkFilled A r).image normalizeDeg)
    (hv : v ∈ (walkFilled A r).image normalizeDeg)
    (hmax : ∀ w ∈ (walkFilled A r).image normalizeDeg, w ≤ u)
    (hmin : ∀ w ∈ (walkFilled A r).image normalizeDeg, v ≤ w) :
    v + 90 - u ≤ 5 := by
  by_contra hgap
  push_neg at hgap
  obtain ⟨hu0, hu90⟩ := cand_bounds A r u hu
  obtain ⟨hv0, hv90⟩ := cand_bounds A r v hv
  obtain ⟨F1, F2, F3⟩ := walk_fold_spec (occList A r) hne (occList_sorted A r) (occList_range A r)
  rw [← walkFilled_eq] at F1 F2 F3
  have hm : 0 < (occList A r).length := List.length_pos.mpr hne
  have hocc0q : (0 : ℚ) ≤ (((occList A r).getD 0 0 : ℤ) : ℚ) := by
    exact_mod_cast (occList_range A r 0 hm).1
  have hocc89 : (((occList A r).getD 0 0 : ℤ) : ℚ) ≤ 89 := by
    exact_mod_cast (occList_range A r 0 hm).2
  have hoccN : (((occList A r).getD 0 0 : ℤ) : ℚ) ∈ (walkFilled A r).image normalizeDeg := by
    have h := F2 0 hm
    exact Finset.mem_image.mpr ⟨_, h, normalizeDeg_id hocc0q (by linarith)⟩
  have hocc_le_u : (((occList A r).getD 0 0 : ℤ) : ℚ) ≤ u := hmax _ hoccN
  have hv_le_occ : v ≤ (((occList A r).getD 0 0 : ℤ) : ℚ) := hmin _ hoccN
  rcases lt_or_le (u + 5) 90 with hA | hB
  · obtain ⟨a, ha, b, hb, hat, htb, hba⟩ := F3 (u + 5) (by linarith) (by linarith)
    obtain ⟨ha1, ha2⟩ := F1 a ha
    obtain ⟨hb1, hb2⟩ := F1 b hb
    have haN : a ∈ (walkFilled A r).image normalizeDeg :=
      Finset.mem_image.mpr ⟨a, ha, normalizeDeg_id (by linarith) (by linarith)⟩
    have haeq : a = u := le_antisymm (hmax a haN) (by linarith)
    have hbx : b = u + 5 := by linarith
    have hbN : b ∈ (walkFilled A r).image normalizeDeg :=
      Finset.mem_image.mpr ⟨b, hb, normalizeDeg_id (by linarith) (by linarith)⟩
    have := hmax b hbN
    linarith
  · obtain ⟨a, ha, b, hb, hat, htb, hba⟩ := F3 (u + 5) (by linarith) (by linarith)
    obtain ⟨ha1, ha2⟩ := F1 a ha
    obtain ⟨hb1, hb2⟩ := F1 b hb
    rcases lt_or_le a 90 with ha90 | ha90
    · have haN : a ∈ (walkFilled A r).image normalizeDeg :=
        Finset.mem_image.mpr ⟨a, ha, normalizeDeg_id (by linarith) ha90⟩
      have haeq : a = u := le_antisymm (hmax a haN) (by linarith)
      have hbx : b = u + 5 := by linarith
      have hb90 : 90 ≤ b := by linarith
      have hbN : b - 90 ∈ (walkFilled A r).image normalizeDeg :=
        Finset.mem_image.mpr ⟨b, hb, normalizeDeg_shift hb90 (by linarith)⟩
      have := hmin _ hbN
      linarith
    · have haN : a - 90 ∈ (walkFilled A r).image normalizeDeg :=
        Finset.mem_image.mpr ⟨a, ha, normalizeDeg_shift ha90 (by linarith)⟩
      have h1 := hmin _ haN
      linarith

theorem buildCandidateAngles_some (A : ℚ → ℚ → ℚ) (r : MultiPolygon)
    (hne : occList A r ≠ []) :
    buildCandidateAngles A (some r)
      = ((walkFilled A r).image normalizeDeg).sort (· ≤ ·) := by
  have h : buildCandidateAngles A (some r)
      = (if (occList A r).isEmpty then [0]
        else ((walkFilled A r).image normalizeDeg).sort (· ≤ ·)) := rfl
  rw [h, if_neg (by simpa [List.isEmpty_iff] using hne)]

theorem buildCandidateAngles_some_empty (A : ℚ → ℚ → ℚ) (r : MultiPolygon)
    (he : occList A r = []) :
    buildCandidateAngles A (some r) = [0] := by
  have h : buildCandidateAngles A (some r)
      = (if (occList A r).isEmpty then [0]
        else ((walkFilled A r).image normalizeDeg).sort (· ≤ ·)) := rfl
  rw [h, if_pos (by simp [List.isEmpty_iff, he])]

/-- C7: the candidate angles lie in `[0°, 90°)`; every occupied
1°-bucket value appears among them; consecutive candidates (in the
returned ascending order) are at most 5° apart, including the circular
wrap from the largest candidate through 90° ≡ 0° to the smallest when
any bucket is occupied; a missing region or one without non-degenerate
edges yields exactly `[0°]`. -/
theorem claim_C7 (atan2deg : ℚ → ℚ → ℚ) (region : Option MultiPolygon) :
    (∀ a ∈ buildCandidateAngles atan2deg region, 0 ≤ a ∧ a < 90) ∧
    (∀ r : MultiPolygon, region = some r →
      ∀ b ∈ computeEdgeHistogram atan2deg r,
        ((b : ℤ) : ℚ) ∈ buildCandidateAngles atan2deg region) ∧
    (buildCandidateAngles atan2deg region).Chain' (fun u v => v - u ≤ 5) ∧
    (∀ r : MultiPolygon, region = some r → (computeEdgeHistogram atan2deg r).Nonempty →
      ∀ u ∈ buildCandidateAngles atan2deg region,
        ∀ v ∈ buildCandidateAngles atan2deg region,
          (∀ w ∈ buildCandidateAngles atan2deg region, w ≤ u) →
          (∀ w ∈ buildCandidateAngles atan2deg region, v ≤ w) →
          v + 90 - u ≤ 5) ∧
    (region = none → buildCandidateAngles atan2deg region = [0]) ∧
    (∀ r : MultiPolygon, region = some r → computeEdgeHistogram atan2deg r = ∅ →
      buildCandidateAngles atan2deg region = [0]) := by
  rcases region with _ | r
  · refine ⟨?_, ?_, ?_, ?_, fun _ => rfl, ?_⟩
    · intro a ha
      have h := List.mem_singleton.mp ha
      subst h
      norm_num
    · intro r hr
      exact Option.noConfusion hr
    · exact List.chain'_singleton 0
    · intro r hr
      exact Option.noConfusion hr
    · intro r hr
      exact Option.noConfusion hr
  · by_cases hocc : occList atan2deg r = []
    · have hL : buildCandidateAngles atan2deg (some r) = [0] :=
        buildCandidateAngles_some_empty _ _ hocc
      refine ⟨?_, ?_, ?_, ?_, ?_, ?_⟩
      · intro a ha
        rw [hL] at ha
        have h := List.mem_singleton.mp ha
        subst h
        norm_num
      · intro r' hr' b hb
        injection hr' with h
        subst h
        have hmem : b ∈ occList atan2deg r := by
          unfold occList
          rw [Finset.mem_sort]
          exact hb
        rw [hocc] at hmem
        exact absurd hmem (List.not_mem_nil b)
      · rw [hL]
        exact List.chain'_singleton 0
      · intro r' hr' hne u hu v hv hmax hmin
        injection hr' with h
        subst h
        obtain ⟨b, hb⟩ := hne
        have hmem : b ∈ occList atan2deg r := by
          unfold occList
          rw [Finset.mem_sort]
          exact hb
        rw [hocc] at hmem
        exact absurd hmem (List.not_mem_nil b)
      · intro h
        exact Option.noConfusion h
      · intro r' hr' _
        exact hL
    · have hL : buildCandidateAngles atan2deg (some r)
          = ((walkFilled atan2deg r).image normalizeDeg).sort (· ≤ ·) :=
        buildCandidateAngles_some _ _ hocc
      have hmemL : ∀ x, x ∈ buildCandidateAngles atan2deg (some r)
          ↔ x ∈ (walkFilled atan2deg r).image normalizeDeg := by
        intro x
        rw [hL]
        exact Finset.mem_sort _
      refine ⟨?_, ?_, ?_, ?_, ?_, ?_⟩
      · intro a ha
        exact cand_bounds atan2deg r a ((hmemL a).mp ha)
      · intro r' hr' b hb
        injection hr' with h
        subst h
        exact (hmemL _).mpr (cand_occ_mem atan2deg r b hb)
      · rw [hL, List.chain'_iff_get]
        intro i hi
        have hsl : (((walkFilled atan2deg r).image normalizeDeg).sort (· ≤ ·)).Sorted (· < ·) :=
          Finset.sort_sorted_lt _
        have hilt : i < (((walkFilled atan2deg r).image normalizeDeg).sort (· ≤ ·)).length := by
          omega
        have hi1 : i + 1 < (((walkFilled atan2deg r).image normalizeDeg).sort (· ≤ ·)).length := by
          omega
        have hlt := List.pairwise_iff_get.mp hsl ⟨i, hilt⟩ ⟨i + 1, hi1⟩
          (Fin.mk_lt_mk.mpr (Nat.lt_succ_self i))
        refine cand_gap atan2deg r hocc ?_ ?_ hlt ?_
        · exact (Finset.mem_sort _).mp (List.get_mem _ _ _)
        · exact (Finset.mem_sort _).mp (List.get_mem _ _ _)
        · rintro w hw ⟨h1, h2⟩
          have hwL : w ∈ ((walkFilled atan2deg r).image normalizeDeg).sort (· ≤ ·) :=
            (Finset.mem_sort _).mpr hw
          obtain ⟨j, hj⟩ := List.mem_iff_get.mp hwL
          have hmono := List.Sorted.get_strictMono hsl
          subst hj
          have hij : i < (j : ℕ) := by
            simpa [Fin.lt_def] using hmono.lt_iff_lt.mp h1
          have hji : (j : ℕ) < i + 1 := by
            simpa [Fin.lt_def] using hmono.lt_iff_lt.mp h2
          omega
      · intro r' hr' hne u hu v hv hmax hmin
        injection hr' with h
        subst h
        refine cand_wrap atan2deg r hocc ((hmemL u).mp hu) ((hmemL v).mp hv) ?_ ?_
        · intro w hw
          exact hmax w ((hmemL w).mpr hw)
        · intro w hw
          exact hmin w ((hmemL w).mpr hw)
      · intro h
        exact Option.noConfusion h
      · intro r' hr' hhist
        injection hr' with h
        subst h
        exfalso
        apply hocc
        unfold occList
        rw [hhist]
        exact Finset.sort_empty _

/-! ## C8: cancellation -/

/-- The candidate list is never empty: absent regions and empty
histograms fall back to `[0]`, and otherwise the first occupied bucket
survives into the sorted normalized set. -/
theorem buildCandidateAngles_ne_nil (A : ℚ → ℚ → ℚ) (region : Option MultiPolygon) :
    buildCandidateAngles A region ≠ [] := by
  rcases region with _ | r
  · exact List.cons_ne_nil 0 []
  · by_cases hocc : occList A r = []
    · rw [buildCandidateAngles_some_empty A r hocc]
      exact List.cons_ne_nil 0 []
    · rw [buildCandidateAngles_some A r hocc]
      have hm : 0 < (occList A r).length := List.length_pos.mpr hocc
      obtain ⟨-, F2, -⟩ := walk_fold_spec (occList A r) hocc (occList_sorted A r)
        (occList_range A r)
      have h0 : (((occList A r).getD 0 0 : ℤ) : ℚ) ∈ walkFilled A r := by
        rw [walkFilled_eq]
        exact F2 0 hm
      exact List.ne_nil_of_mem ((Finset.mem_sort _).mpr (Finset.mem_image_of_mem _ h0))

/-- Relation between search contexts across a run segment: the poll
counter only grows, and each poll observed in between saw an unset
cancellation signal. -/
def PollInv (signal : ℕ → Bool) (st st' : SearchSt) : Prop :=
  st.polls ≤ st'.polls ∧ ∀ n, st.polls ≤ n → n < st'.polls → signal n = false

theorem pollInv_refl {signal : ℕ → Bool} (st : SearchSt) : PollInv signal st st :=
  ⟨le_refl _, fun n h1 h2 => absurd (lt_of_le_of_lt h1 h2) (lt_irrefl _)⟩

theorem pollInv_trans {signal : ℕ → Bool} {s1 s2 s3 : SearchSt}
    (h12 : PollInv signal s1 s2) (h23 : PollInv signal s2 s3) : PollInv signal s1 s3 := by
  refine ⟨le_trans h12.1 h23.1, ?_⟩
  intro n h1 h2
  rcases lt_or_le n s2.polls with h | h
  · exact h12.2 n h1 h
  · exact h23.2 n h h2

theorem throwIfAborted_true {signal : ℕ → Bool} {st : SearchSt}
    (h : signal st.polls = true) :
    throwIfAborted signal st = .error .abortError := by
  unfold throwIfAborted
  rw [if_pos h]

theorem throwIfAborted_cases {signal : ℕ → Bool} {st st' : SearchSt}
    (h : throwIfAborted signal st = .ok st') :
    signal st.polls = false ∧ st' = { st with polls := st.polls + 1 } := by
  unfold throwIfAborted at h
  by_cases hs : signal st.polls = true
  · rw [if_pos hs] at h
    exact Except.noConfusion h
  · rw [if_neg hs] at h
    refine ⟨by simpa using hs, ?_⟩
    injection h with h'
    exact h'.symm

theorem throwIfAborted_error {signal : ℕ → Bool} {st : SearchSt} {e : SearchError}
    (h : throwIfAborted signal st = .error e) : e = .abortError := by
  unfold throwIfAborted at h
  by_cases hs : signal st.polls = true
  · rw [if_pos hs] at h
    injection h with h'
    exact h'.symm
  · rw [if_neg hs] at h
    exact Except.noConfusion h

theorem throwIfAborted_pollInv {signal : ℕ → Bool} {st st' : SearchSt}
    (h : throwIfAborted signal st = .ok st') : PollInv signal st st' := by
  obtain ⟨hs, hst⟩ := throwIfAborted_cases h
  subst hst
  refine ⟨Nat.le_succ _, ?_⟩
  intro n h1 h2
  have hn : n = st.polls := by
    dsimp only at h2
    omega
  rw [hn]
  exact hs

theorem maybeYield_pollInv {signal yields : ℕ → Bool} {st st' : SearchSt}
    (h : maybeYield signal yields st = .ok st') : PollInv signal st st' := by
  unfold maybeYield at h
  by_cases hy : yields st.samples = true
  · rw [if_pos hy] at h
    have h2 : throwIfAborted signal { st with samples := st.samples + 1 } = .ok st' := h
    have h3 := throwIfAborted_pollInv h2
    exact ⟨h3.1, h3.2⟩
  · rw [if_neg hy] at h
    have h2 : (Except.ok { st with samples := st.samples + 1 } :
        Except SearchError SearchSt) = .ok st' := h
    injection h2 with h'
    subst h'
    exact ⟨le_refl _, fun n h1 h2 => absurd (lt_of_le_of_lt h1 h2) (lt_irrefl _)⟩

theorem maybeYield_error {signal yields : ℕ → Bool} {st : SearchSt} {e : SearchError}
    (h : maybeYield signal yields st = .error e) : e = .abortError := by
  unfold maybeYield at h
  by_cases hy : yields st.samples = true
  · rw [if_pos hy] at h
    have h2 : throwIfAborted signal { st with samples := st.samples + 1 } = .error e := h
    exact throwIfAborted_error h2
  · rw [if_neg hy] at h
    exact Except.noConfusion (show (Except.ok { st with samples := st.samples + 1 } :
      Except SearchError SearchSt) = .error e from h)

theorem bestUpdate_polls (trig : ℚ → ℚ × ℚ) (grid : GridState) (angle : ℚ) (count : ℕ)
    (offsetGrid : Vec2) (st : SearchSt) :
    (bestUpdate trig grid angle count offsetGrid st).polls = st.polls := by
  unfold bestUpdate
  split_ifs <;> rfl

theorem offsetIteration_pollInv {trig : ℚ → ℚ × ℚ} {signal yields : ℕ → Bool}
    {grid : GridState} {angle : ℚ} {baseRaster : RasterResult} {offsetStep : ℚ}
    {st : SearchSt} {o : ℕ × ℕ} {st' : SearchSt}
    (h : offsetIteration trig signal yields grid angle baseRaster offsetStep st o = .ok st') :
    PollInv signal st st' := by
  unfold offsetIteration at h
  cases hta : throwIfAborted signal st with
  | error e =>
      rw [hta] at h
      exact Except.noConfusion h
  | ok st1 =>
      rw [hta] at h
      have h2 : maybeYield signal yields (bestUpdate trig grid angle
          (countLargestComponentWithOffset baseRaster
            { x := (o.2 : ℚ) * offsetStep, y := (o.1 : ℚ) * offsetStep })
          { x := (o.2 : ℚ) * offsetStep, y := (o.1 : ℚ) * offsetStep } st1) = .ok st' := h
      have hmy := maybeYield_pollInv h2
      rw [PollInv, bestUpdate_polls] at hmy
      exact pollInv_trans (throwIfAborted_pollInv hta) hmy

theorem offsetIteration_error {trig : ℚ → ℚ × ℚ} {signal yields : ℕ → Bool}
    {grid : GridState} {angle : ℚ} {baseRaster : RasterResult} {offsetStep : ℚ}
    {st : SearchSt} {o : ℕ × ℕ} {e : SearchError}
    (h : offsetIteration trig signal yields grid angle baseRaster offsetStep st o = .error e) :
    e = .abortError := by
  unfold offsetIteration at h
  cases hta : throwIfAborted signal st with
  | error e' =>
      rw [hta] at h
      have h2 : (Except.error e' : Except SearchError SearchSt) = .error e := h
      injection h2 with h3
      rw [← h3]
      exact throwIfAborted_error hta
  | ok st1 =>
      rw [hta] at h
      have h2 : maybeYield signal yields (bestUpdate trig grid angle
          (countLargestComponentWithOffset baseRaster
            { x := (o.2 : ℚ) * offsetStep, y := (o.1 : ℚ) * offsetStep })
          { x := (o.2 : ℚ) * offsetStep, y := (o.1 : ℚ) * offsetStep } st1) = .error e := h
      exact maybeYield_error h2

/-- A fold of fallible steps whose successes respect `PollInv` and
whose failures are all `abortError` has the same two properties. -/
theorem foldlM_pollInv {α : Type} (signal : ℕ → Bool)
    (step : SearchSt → α → Except SearchError SearchSt)
    (hok : ∀ s a s', step s a = .ok s' → PollInv signal s s')
    (herr : ∀ s a e, step s a = .error e → e = .abortError) :
    ∀ (l : List α) (s : SearchSt),
      (∀ s', l.foldlM step s = .ok s' → PollInv signal s s') ∧
      (∀ e, l.foldlM step s = .error e → e = .abortError) := by
  intro l
  induction l with
  | nil =>
      intro s
      constructor
      · intro s' h
        have h2 : (Except.ok s : Except SearchError SearchSt) = .ok s' := h
        injection h2 with h3
        subst h3
        exact pollInv_refl _
      · intro e h
        exact Except.noConfusion (show (Except.ok s : Except SearchError SearchSt) = .error e from h)
  | cons a l ih =>
      intro s
      constructor
      · intro s' h
        rw [List.foldlM_cons] at h
        cases hs : step s a with
        | error e =>
            rw [hs] at h
            exact Except.noConfusion h
        | ok s1 =>
            rw [hs] at h
            exact pollInv_trans (hok s a s1 hs) ((ih s1).1 s' h)
      · intro e h
        rw [List.foldlM_cons] at h
        cases hs : step s a with
        | error e' =>
            rw [hs] at h
            have h2 : (Except.error e' : Except SearchError SearchSt) = .error e := h
            injection h2 with h3
            rw [← h3]
            exact herr s a e' hs
        | ok s1 =>
            rw [hs] at h
            exact (ih s1).2 e h

theorem angleIteration_pollInv {trig : ℚ → ℚ × ℚ}
    {signal yields : ℕ → Bool} {region : MultiPolygon} {grid : GridState}
    {st : SearchSt} {angle : ℚ} {st' : SearchSt}
    (h : angleIteration trig signal yields region grid st angle = .ok st') :
    PollInv signal st st' := by
  unfold angleIteration at h
  cases hta : throwIfAborted signal st with
  | error e =>
      rw [hta] at h
      exact Except.noConfusion h
  | ok st1 =>
      rw [hta] at h
      have h2 : (match rasterizeRegion (some region)
            { origin := grid.origin
              cosA := (trig angle).1
              sinA := (trig angle).2
              spacing := grid.spacing } with
          | none => (Except.ok st1 : Except SearchError SearchSt)
          | some baseRaster =>
              offsetsRowMajor.foldlM
                (offsetIteration trig signal yields grid angle baseRaster
                  (grid.spacing / (RASTER_RESOLUTION : ℚ)))
                { st1 with orientations := st1.orientations + 1 }) = .ok st' := h
      cases hbr : rasterizeRegion (some region)
          { origin := grid.origin
            cosA := (trig angle).1
            sinA := (trig angle).2
            spacing := grid.spacing } with
      | none =>
          rw [hbr] at h2
          injection h2 with h3
          subst h3
          exact throwIfAborted_pollInv hta
      | some baseRaster =>
          rw [hbr] at h2
          have hf := (foldlM_pollInv signal _
            (fun s a s' hs => offsetIteration_pollInv hs)
            (fun s a e hs => offsetIteration_error hs)
            offsetsRowMajor { st1 with orientations := st1.orientations + 1 }).1 st' h2
          rw [PollInv] at hf
          exact pollInv_trans (throwIfAborted_pollInv hta) hf

theorem angleIteration_error {trig : ℚ → ℚ × ℚ}
    {signal yields : ℕ → Bool} {region : MultiPolygon} {grid : GridState}
    {st : SearchSt} {angle : ℚ} {e : SearchError}
    (h : angleIteration trig signal yields region grid st angle = .error e) :
    e = .abortError := by
  unfold angleIteration at h
  cases hta : throwIfAborted signal st with
  | error e' =>
      rw [hta] at h
      have h2 : (Except.error e' : Except SearchError SearchSt) = .error e := h
      injection h2 with h3
      rw [← h3]
      exact throwIfAborted_error hta
  | ok st1 =>
      rw [hta] at h
      have h2 : (match rasterizeRegion (some region)
            { origin := grid.origin
              cosA := (trig angle).1
              sinA := (trig angle).2
              spacing := grid.spacing } with
          | none => (Except.ok st1 : Except SearchError SearchSt)
          | some baseRaster =>
              offsetsRowMajor.foldlM
                (offsetIteration trig signal yields grid angle baseRaster
                  (grid.spacing / (RASTER_RESOLUTION : ℚ)))
                { st1 with orientations := st1.orientations + 1 }) = .error e := h
      cases hbr : rasterizeRegion (some region)
          { origin := grid.origin
            cosA := (trig angle).1
            sinA := (trig angle).2
            spacing := grid.spacing } with
      | none =>
          rw [hbr] at h2
          exact Except.noConfusion h2
      | some baseRaster =>
          rw [hbr] at h2
          exact (foldlM_pollInv signal _
            (fun s a s' hs => offsetIteration_pollInv hs)
            (fun s a e' hs => offsetIteration_error hs)
            offsetsRowMajor { st1 with orientations := st1.orientations + 1 }).2 e h2

/-- Aborting the signal at the poll a loop body begins with makes that
body raise `abortError` at once. -/
theorem angleIteration_abort {trig : ℚ → ℚ × ℚ} {signal yields : ℕ → Bool}
    {region : MultiPolygon} {grid : GridState} {st : SearchSt} {angle : ℚ}
    (h : signal st.polls = true) :
    angleIteration trig signal yields region grid st angle = .error .abortError := by
  unfold angleIteration
  rw [throwIfAborted_true h]
  rfl

/-- C8: cancellation is prompt and distinct.  A signal set at the very
first observation point aborts the whole search with `abortError`
before any result is produced; the search can only fail with
`abortError` (there is no other failure path); and whenever the sweep
completes normally, every cancellation poll it made observed an unset
signal. -/
theorem claim_C8 (trig : ℚ → ℚ × ℚ) (atan2deg : ℚ → ℚ → ℚ) (signal yields : ℕ → Bool)
    (profile : Bool) (region : MultiPolygon) (grid : GridState) :
    (signal 0 = true →
      findBestGridAlignmentAsync trig atan2deg signal yields profile (some region) grid
        = .error .abortError) ∧
    (∀ e, findBestGridAlignmentAsync trig atan2deg signal yields profile (some region) grid
        = .error e → e = .abortError) ∧
    (∀ st', searchLoop trig atan2deg signal yields region grid = .ok st' →
      ∀ n, n < st'.polls → signal n = false) ∧
    (∀ e, searchLoop trig atan2deg signal yields region grid = .error e →
      e = .abortError) := by
  have hloop_ok : ∀ st', searchLoop trig atan2deg signal yields region grid = .ok st' →
      ∀ n, n < st'.polls → signal n = false := by
    intro st' h n hn
    unfold searchLoop at h
    have hf := (foldlM_pollInv signal _
      (fun s a s' hs => angleIteration_pollInv hs)
      (fun s a e hs => angleIteration_error hs)
      (buildCandidateAngles atan2deg (some region))
      { polls := 0, samples := 0, orientations := 0, best := none }).1 st' h
    exact hf.2 n (Nat.zero_le n) hn
  have hloop_err : ∀ e, searchLoop trig atan2deg signal yields region grid = .error e →
      e = .abortError := by
    intro e h
    unfold searchLoop at h
    exact (foldlM_pollInv signal _
      (fun s a s' hs => angleIteration_pollInv hs)
      (fun s a e' hs => angleIteration_error hs)
      (buildCandidateAngles atan2deg (some region))
      { polls := 0, samples := 0, orientations := 0, best := none }).2 e h
  have habort : signal 0 = true →
      searchLoop trig atan2deg signal yields region grid = .error .abortError := by
    intro hs
    unfold searchLoop
    cases hc : buildCandidateAngles atan2deg (some region) with
    | nil => exact absurd hc (buildCandidateAngles_ne_nil atan2deg (some region))
    | cons c rest =>
        rw [List.foldlM_cons, angleIteration_abort hs]
        rfl
  have hsome : findBestGridAlignmentAsync trig atan2deg signal yields profile
        (some region) grid
      = Except.bind (searchLoop trig atan2deg signal yields region grid) (fun st =>
          Except.ok (st.best,
            if profile then
              some
                { orientations := st.orientations
                  offsetsPerOrientation := RASTER_RESOLUTION * RASTER_RESOLUTION
                  samples := st.samples }
            else none)) := rfl
  refine ⟨?_, ?_, hloop_ok, hloop_err⟩
  · intro hs
    rw [hsome, habort hs]
    rfl
  · intro e h
    rw [hsome] at h
    cases hsl : searchLoop trig atan2deg signal yields region grid with
    | error e' =>
        rw [hsl] at h
        have h2 : (Except.error e' :
            Except SearchError (Option GridAlignmentResult × Option GridAlignmentStats)) =
              .error e := h
        injection h2 with h3
        rw [← h3]
        exact hloop_err e' hsl
    | ok st1 =>
        rw [hsl] at h
        exact Except.noConfusion
          (show (Except.ok (st1.best,
              if profile then
                some
                  { orientations := st1.orientations
                    offsetsPerOrientation := RASTER_RESOLUTION * RASTER_RESOLUTION
                    samples := st1.samples }
              else none) :
            Except SearchError (Option GridAlignmentResult × Option GridAlignmentStats)) =
              .error e from h)

/-! ## C9: profiling noninterference -/

/-- The `some`-region branch of `findBestGridAlignmentAsync` as a bind
over the search loop. -/
theorem findBestGridAlignmentAsync_some (trig : ℚ → ℚ × ℚ) (atan2deg : ℚ → ℚ → ℚ)
    (signal yields : ℕ → Bool) (profile : Bool) (region : MultiPolygon) (grid : GridState) :
    findBestGridAlignmentAsync trig atan2deg signal yields profile (some region) grid
      = Except.bind (searchLoop trig atan2deg signal yields region grid) (fun st =>
          Except.ok (st.best,
            if profile then
              some
                { orientations := st.orientations
                  offsetsPerOrientation := RASTER_RESOLUTION * RASTER_RESOLUTION
                  samples := st.samples }
            else none)) := rfl

/-- C9: supplying or omitting the profiling callback never changes the
search result.  The `onProfile` option only selects whether the
statistics report is produced; the alignment result component of the
outcome (including the error cases) is identical for the two runs. -/
theorem claim_C9 (trig : ℚ → ℚ × ℚ) (atan2deg : ℚ → ℚ → ℚ) (signal yields : ℕ → Bool)
    (region : Option MultiPolygon) (grid : GridState) :
    Except.map Prod.fst
        (findBestGridAlignmentAsync trig atan2deg signal yields true region grid)
      = Except.map Prod.fst
        (findBestGridAlignmentAsync trig atan2deg signal yields false region grid) := by
  rcases region with _ | r
  · rfl
  · rw [findBestGridAlignmentAsync_some, findBestGridAlignmentAsync_some]
    cases hsl : searchLoop trig atan2deg signal yields r grid with
    | error e => rfl
    | ok st => rfl

/-! ## C10: determinism and first-maximum tie-breaking -/

/-- The pure strict-improvement step of the best-pose accumulator. -/
def bestStep (b : Option GridAlignmentResult) (c : GridAlignmentResult) :
    Option GridAlignmentResult :=
  if b.all (fun x => decide (x.cellCount < c.cellCount)) then some c else b

/-- The candidate pose record built by the inner loop for one
(angle, offset) pair. -/
def posePoint (trig : ℚ → ℚ × ℚ) (grid : GridState) (angle : ℚ) (count : ℕ)
    (offsetGrid : Vec2) : GridAlignmentResult :=
  { angle := angle
    origin := { x := grid.origin.x + (rotate offsetGrid (trig angle)).x
                y := grid.origin.y + (rotate offsetGrid (trig angle)).y }
    cellCount := count }

theorem bestUpdate_eq (trig : ℚ → ℚ × ℚ) (grid : GridState) (angle : ℚ) (count : ℕ)
    (offsetGrid : Vec2) (st : SearchSt) :
    bestUpdate trig grid angle count offsetGrid st
      = { st with best := bestStep st.best (posePoint trig grid angle count offsetGrid) } := by
  unfold bestUpdate bestStep posePoint
  rcases hb : st.best with _ | b
  · simp [Option.all]
  · simp only [Option.all, decide_eq_true_eq]
    split_ifs with h
    · rfl
    · rw [← hb]

theorem maybeYield_best {signal yields : ℕ → Bool} {st st' : SearchSt}
    (h : maybeYield signal yields st = .ok st') : st'.best = st.best := by
  unfold maybeYield at h
  by_cases hy : yields st.samples = true
  · rw [if_pos hy] at h
    have h2 : throwIfAborted signal { st with samples := st.samples + 1 } = .ok st' := h
    obtain ⟨-, hst⟩ := throwIfAborted_cases h2
    rw [hst]
  · rw [if_neg hy] at h
    have h2 : (Except.ok { st with samples := st.samples + 1 } :
        Except SearchError SearchSt) = .ok st' := h
    injection h2 with h'
    rw [← h']

theorem offsetIteration_best {trig : ℚ → ℚ × ℚ} {signal yields : ℕ → Bool}
    {grid : GridState} {angle : ℚ} {baseRaster : RasterResult} {offsetStep : ℚ}
    {st : SearchSt} {o : ℕ × ℕ} {st' : SearchSt}
    (h : offsetIteration trig signal yields grid angle baseRaster offsetStep st o = .ok st') :
    st'.best = bestStep st.best (posePoint trig grid angle
      (countLargestComponentWithOffset baseRaster
        { x := (o.2 : ℚ) * offsetStep, y := (o.1 : ℚ) * offsetStep })
      { x := (o.2 : ℚ) * offsetStep, y := (o.1 : ℚ) * offsetStep }) := by
  unfold offsetIteration at h
  cases hta : throwIfAborted signal st with
  | error e =>
      rw [hta] at h
      exact Except.noConfusion h
  | ok st1 =>
      rw [hta] at h
      have h2 : maybeYield signal yields (bestUpdate trig grid angle
          (countLargestComponentWithOffset baseRaster
            { x := (o.2 : ℚ) * offsetStep, y := (o.1 : ℚ) * offsetStep })
          { x := (o.2 : ℚ) * offsetStep, y := (o.1 : ℚ) * offsetStep } st1) = .ok st' := h
      have h3 := maybeYield_best h2
      rw [h3, bestUpdate_eq]
      obtain ⟨-, hst1⟩ := throwIfAborted_cases hta
      rw [hst1]

/-- The list of candidate poses one accepted angle contributes, in
offset iteration order. -/
def anglePoses (trig : ℚ → ℚ × ℚ) (region : MultiPolygon) (grid : GridState)
    (angle : ℚ) : List GridAlignmentResult :=
  match rasterizeRegion (some region)
      { origin := grid.origin
        cosA := (trig angle).1
        sinA := (trig angle).2
        spacing := grid.spacing } with
  | none => []
  | some baseRaster =>
      offsetsRowMajor.map (fun o =>
        posePoint trig grid angle
          (countLargestComponentWithOffset baseRaster
            { x := (o.2 : ℚ) * (grid.spacing / (RASTER_RESOLUTION : ℚ))
              y := (o.1 : ℚ) * (grid.spacing / (RASTER_RESOLUTION : ℚ)) })
          { x := (o.2 : ℚ) * (grid.spacing / (RASTER_RESOLUTION : ℚ))
            y := (o.1 : ℚ) * (grid.spacing / (RASTER_RESOLUTION : ℚ)) })

/-- All candidate poses of the whole sweep, in iteration order:
candidate angles ascending, offsets row-major within each accepted
angle. -/
def evaluatedCandidates (trig : ℚ → ℚ × ℚ) (atan2deg : ℚ → ℚ → ℚ)
    (region : MultiPolygon) (grid : GridState) : List GridAlignmentResult :=
  (buildCandidateAngles atan2deg (some region)).flatMap (anglePoses trig region grid)

theorem foldlM_best_map {α : Type} (step : SearchSt → α → Except SearchError SearchSt)
    (g : α → GridAlignmentResult)
    (hstep : ∀ s a s', step s a = .ok s' → s'.best = bestStep s.best (g a)) :
    ∀ (l : List α) (s s' : SearchSt),
      l.foldlM step s = .ok s' → s'.best = (l.map g).foldl bestStep s.best := by
  intro l
  induction l with
  | nil =>
      intro s s' h
      have h2 : (Except.ok s : Except SearchError SearchSt) = .ok s' := h
      injection h2 with h3
      subst h3
      rfl
  | cons a l ih =>
      intro s s' h
      rw [List.foldlM_cons] at h
      cases hs : step s a with
      | error e =>
          rw [hs] at h
          exact Except.noConfusion h
      | ok s1 =>
          rw [hs] at h
          have h1 := hstep s a s1 hs
          have h2 := ih s1 s' h
          rw [h2, List.map_cons, List.foldl_cons, h1]

theorem foldlM_best_flat {α : Type} (step : SearchSt → α → Except SearchError SearchSt)
    (g : α → List GridAlignmentResult)
    (hstep : ∀ s a s', step s a = .ok s' → s'.best = (g a).foldl bestStep s.best) :
    ∀ (l : List α) (s s' : SearchSt),
      l.foldlM step s = .ok s' → s'.best = (l.flatMap g).foldl bestStep s.best := by
  intro l
  induction l with
  | nil =>
      intro s s' h
      have h2 : (Except.ok s : Except SearchError SearchSt) = .ok s' := h
      injection h2 with h3
      subst h3
      rfl
  | cons a l ih =>
      intro s s' h
      rw [List.foldlM_cons] at h
      cases hs : step s a with
      | error e =>
          rw [hs] at h
          exact Except.noConfusion h
      | ok s1 =>
          rw [hs] at h
          have h1 := hstep s a s1 hs
          have h2 := ih s1 s' h
          rw [h2, List.flatMap_cons, List.foldl_append, h1]

theorem angleIteration_best {trig : ℚ → ℚ × ℚ} {signal yields : ℕ → Bool}
    {region : MultiPolygon} {grid : GridState} {st : SearchSt} {angle : ℚ} {st' : SearchSt}
    (h : angleIteration trig signal yields region grid st angle = .ok st') :
    st'.best = (anglePoses trig region grid angle).foldl bestStep st.best := by
  unfold angleIteration at h
  cases hta : throwIfAborted signal st with
  | error e =>
      rw [hta] at h
      exact Except.noConfusion h
  | ok st1 =>
      rw [hta] at h
      obtain ⟨-, hst1⟩ := throwIfAborted_cases hta
      have h2 : (match rasterizeRegion (some region)
            { origin := grid.origin
              cosA := (trig angle).1
              sinA := (trig angle).2
              spacing := grid.spacing } with
          | none => (Except.ok st1 : Except SearchError SearchSt)
          | some baseRaster =>
              offsetsRowMajor.foldlM
                (offsetIteration trig signal yields grid angle baseRaster
                  (grid.spacing / (RASTER_RESOLUTION : ℚ)))
                { st1 with orientations := st1.orientations + 1 }) = .ok st' := h
      unfold anglePoses
      cases hbr : rasterizeRegion (some region)
          { origin := grid.origin
            cosA := (trig angle).1
            sinA := (trig angle).2
            spacing := grid.spacing } with
      | none =>
          rw [hbr] at h2
          injection h2 with h3
          subst h3
          rw [hst1]
          rfl
      | some baseRaster =>
          rw [hbr] at h2
          have h3 := foldlM_best_map
            (offsetIteration trig signal yields grid angle baseRaster
              (grid.spacing / (RASTER_RESOLUTION : ℚ)))
            (fun o => posePoint trig grid angle
              (countLargestComponentWithOffset baseRaster
                { x := (o.2 : ℚ) * (grid.spacing / (RASTER_RESOLUTION : ℚ))
                  y := (o.1 : ℚ) * (grid.spacing / (RASTER_RESOLUTION : ℚ)) })
              { x := (o.2 : ℚ) * (grid.spacing / (RASTER_RESOLUTION : ℚ))
                y := (o.1 : ℚ) * (grid.spacing / (RASTER_RESOLUTION : ℚ)) })
            (fun s a s' hs => offsetIteration_best hs)
            offsetsRowMajor { st1 with orientations := st1.orientations + 1 } st' h2
          rw [h3, hst1]

/-- The final best of a successful sweep equals the pure
strict-improvement fold over the evaluated candidate list. -/
theorem searchLoop_best {trig : ℚ → ℚ × ℚ} {atan2deg : ℚ → ℚ → ℚ}
    {signal yields : ℕ → Bool} {region : MultiPolygon} {grid : GridState} {st' : SearchSt}
    (h : searchLoop trig atan2deg signal yields region grid = .ok st') :
    st'.best = (evaluatedCandidates trig atan2deg region grid).foldl bestStep none := by
  unfold searchLoop at h
  exact foldlM_best_flat (angleIteration trig signal yields region grid)
    (anglePoses trig region grid)
    (fun s a s' hs => angleIteration_best hs)
    (buildCandidateAngles atan2deg (some region))
    { polls := 0, samples := 0, orientations := 0, best := none } st' h

/-- Folding the strict-improvement step from a present best: the result
is present, bounds every candidate, and is either the unchanged start
or a strictly improving list element preceded only by smaller counts. -/
theorem foldl_bestStep_some :
    ∀ (l : List GridAlignmentResult) (r : GridAlignmentResult),
      ∃ r', l.foldl bestStep (some r) = some r' ∧
        (∀ x ∈ l, x.cellCount ≤ r'.cellCount) ∧
        (r' = r ∨ (∃ pre post, l = pre ++ r' :: post ∧ r.cellCount < r'.cellCount ∧
          ∀ x ∈ pre, x.cellCount < r'.cellCount)) := by
  intro l
  induction l with
  | nil =>
      intro r
      exact ⟨r, rfl, fun x hx => absurd hx (List.not_mem_nil x), Or.inl rfl⟩
  | cons c t ih =>
      intro r
      rw [List.foldl_cons]
      by_cases hc : r.cellCount < c.cellCount
      · have hstep : bestStep (some r) c = some c := by
          unfold bestStep
          rw [if_pos (by simpa [Option.all] using hc)]
        rw [hstep]
        obtain ⟨r', hfold, hbound, hcases⟩ := ih c
        have hcr' : c.cellCount ≤ r'.cellCount := by
          rcases hcases with rfl | ⟨pre, post, -, hlt, -⟩
          · exact le_refl _
          · exact le_of_lt hlt
        refine ⟨r', hfold, ?_, ?_⟩
        · intro x hx
          rcases List.mem_cons.mp hx with rfl | hxt
          · exact hcr'
          · exact hbound x hxt
        · rcases hcases with rfl | ⟨pre, post, hsplit, hlt, hpre⟩
          · exact Or.inr ⟨[], t, rfl, hc, fun x hx => absurd hx (List.not_mem_nil x)⟩
          · refine Or.inr ⟨c :: pre, post, by rw [hsplit, List.cons_append], by linarith, ?_⟩
            intro x hx
            rcases List.mem_cons.mp hx with rfl | hxp
            · linarith
            · exact hpre x hxp
      · have hstep : bestStep (some r) c = some r := by
          unfold bestStep
          rw [if_neg (by simpa [Option.all] using hc)]
        rw [hstep]
        obtain ⟨r', hfold, hbound, hcases⟩ := ih r
        have hrr' : r.cellCount ≤ r'.cellCount := by
          rcases hcases with rfl | ⟨pre, post, -, hlt, -⟩
          · exact le_refl _
          · exact le_of_lt hlt
        refine ⟨r', hfold, ?_, ?_⟩
        · intro x hx
          rcases List.mem_cons.mp hx with rfl | hxt
          · omega
          · exact hbound x hxt
        · rcases hcases with rfl | ⟨pre, post, hsplit, hlt, hpre⟩
          · exact Or.inl rfl
          · refine Or.inr ⟨c :: pre, post, by rw [hsplit, List.cons_append], hlt, ?_⟩
            intro x hx
            rcases List.mem_cons.mp hx with rfl | hxp
            · omega
            · exact hpre x hxp

/-- Folding the strict-improvement step from an empty best over a
nonempty list yields the first candidate attaining the maximum count:
it bounds every candidate and everything before it is strictly
smaller. -/
theorem foldl_bestStep_none (l : List GridAlignmentResult) :
    (l = [] → l.foldl bestStep none = none) ∧
    (l ≠ [] → ∃ res, l.foldl bestStep none = some res ∧
      (∀ x ∈ l, x.cellCount ≤ res.cellCount) ∧
      ∃ pre post, l = pre ++ res :: post ∧ ∀ x ∈ pre, x.cellCount < res.cellCount) := by
  constructor
  · rintro rfl
    rfl
  · intro hne
    cases l with
    | nil => exact absurd rfl hne
    | cons c t =>
        rw [List.foldl_cons]
        have hstep : bestStep none c = some c := rfl
        rw [hstep]
        obtain ⟨r', hfold, hbound, hcases⟩ := foldl_bestStep_some t c
        refine ⟨r', hfold, ?_, ?_⟩
        · intro x hx
          rcases List.mem_cons.mp hx with rfl | hxt
          · rcases hcases with rfl | ⟨pre, post, -, hlt, -⟩
            · exact le_refl _
            · exact le_of_lt hlt
          · exact hbound x hxt
        · rcases hcases with rfl | ⟨pre, post, hsplit, hlt, hpre⟩
          · exact ⟨[], t, rfl, fun x hx => absurd hx (List.not_mem_nil x)⟩
          · refine ⟨c :: pre, post, by rw [hsplit, List.cons_append], ?_⟩
            intro x hx
            rcases List.mem_cons.mp hx with rfl | hxp
            · exact hlt
            · exact hpre x hxp

/-- C10: when the search returns a result it is the first candidate
pose, in iteration order (angles ascending, offsets `oy` outer / `ox`
inner), whose component count attains the maximum over all evaluated
candidates: the count bounds every candidate and all earlier candidates
count strictly less.  An absent result means no candidate was evaluated
at all, and two successful runs under any cancellation or yield oracles
and profiling flags return the same result. -/
theorem claim_C10 (trig : ℚ → ℚ × ℚ) (atan2deg : ℚ → ℚ → ℚ) (signal yields : ℕ → Bool)
    (profile : Bool) (region : MultiPolygon) (grid : GridState) :
    (∀ res stats,
      findBestGridAlignmentAsync trig atan2deg signal yields profile (some region) grid
        = .ok (some res, stats) →
      (∀ x ∈ evaluatedCandidates trig atan2deg region grid, x.cellCount ≤ res.cellCount) ∧
      (∃ pre post, evaluatedCandidates trig atan2deg region grid = pre ++ res :: post ∧
        ∀ x ∈ pre, x.cellCount < res.cellCount)) ∧
    (∀ stats,
      findBestGridAlignmentAsync trig atan2deg signal yields profile (some region) grid
        = .ok (none, stats) →
      evaluatedCandidates trig atan2deg region grid = []) ∧
    (∀ (signal2 yields2 : ℕ → Bool) (profile2 : Bool)
        (r1 r2 : Option GridAlignmentResult × Option GridAlignmentStats),
      findBestGridAlignmentAsync trig atan2deg signal yields profile (some region) grid
        = .ok r1 →
      findBestGridAlignmentAsync trig atan2deg signal2 yields2 profile2 (some region) grid
        = .ok r2 →
      r1.1 = r2.1) := by
  have hbest : ∀ (sg yl : ℕ → Bool) (pf : Bool)
      (r : Option GridAlignmentResult × Option GridAlignmentStats),
      findBestGridAlignmentAsync trig atan2deg sg yl pf (some region) grid = .ok r →
      r.1 = (evaluatedCandidates trig atan2deg region grid).foldl bestStep none := by
    intro sg yl pf r h
    rw [findBestGridAlignmentAsync_some] at h
    cases hsl : searchLoop trig atan2deg sg yl region grid with
    | error e =>
        rw [hsl] at h
        exact Except.noConfusion h
    | ok st =>
        rw [hsl] at h
        have h2 : (Except.ok (st.best,
            if pf then
              some
                { orientations := st.orientations
                  offsetsPerOrientation := RASTER_RESOLUTION * RASTER_RESOLUTION
                  samples := st.samples }
            else none) :
          Except SearchError (Option GridAlignmentResult × Option GridAlignmentStats))
            = .ok r := h
        injection h2 with h3
        rw [← h3]
        exact searchLoop_best hsl
  refine ⟨?_, ?_, ?_⟩
  · intro res stats h
    have h1 := hbest signal yields profile (some res, stats) h
    by_cases hne : evaluatedCandidates trig atan2deg region grid = []
    · rw [hne] at h1
      have h1' : some res = (none : Option GridAlignmentResult) := h1
      exact Option.noConfusion h1'
    · obtain ⟨r', hfold, hbound, pre, post, hsplit, hpre⟩ :=
        (foldl_bestStep_none (evaluatedCandidates trig atan2deg region grid)).2 hne
      rw [hfold] at h1
      have h1' : some res = some r' := h1
      injection h1' with h2
      subst h2
      exact ⟨hbound, pre, post, hsplit, hpre⟩
  · intro stats h
    have h1 := hbest signal yields profile (none, stats) h
    by_contra hne
    obtain ⟨r', hfold, -, -⟩ :=
      (foldl_bestStep_none (evaluatedCandidates trig atan2deg region grid)).2 hne
    rw [hfold] at h1
    have h1' : (none : Option GridAlignmentResult) = some r' := h1
    exact Option.noConfusion h1'
  · intro signal2 yields2 profile2 r1 r2 h1 h2
    rw [hbest signal yields profile r1 h1, hbest signal2 yields2 profile2 r2 h2]

end Playspace
